import Mathlib

/-!
Tempo: reader stack and trace combiner

A shallow embedding of `tempodb/encoding/vparquet/readers.go`, of the trace combiner
exercised by `tempodb/encoding/vparquet2/combiner_test.go`, of the ingester instance
exercised by `modules/ingester/instance_search_test.go` and of `CheckConfig` in
`cmd/tempo/app/config.go`.

Conventions of the embedding.

* A Go byte slice is a `List Nat` (one entry per byte).
* Go `int` / `int64` values are `Int`; `uint32` / `uint64` values are `Nat`, reduced
  modulo `2 ^ 32` / `2 ^ 64` wherever the source converts or adds.
* A Go `error` is an `Option String` (`none` is `nil`).
* A Go interface value is a record of closures acting on a store of type `σ` that holds
  the state of whatever stands behind the interface.  Methods that change a field of
  their receiver return the changed receiver.
-/

namespace vparquet

/-! ## Machine integers and slices -/

/-- Go conversion `uint64(x)` of a signed integer. -/
def uint64 (x : Int) : Nat := (x % (2 ^ 64 : Int)).toNat

/-- Go conversion `int64(x)`: wrap into the signed 64 bit range. -/
def int64 (x : Int) : Int := (x + 2 ^ 63) % 2 ^ 64 - 2 ^ 63

/-- Go builtin `copy(dst, src)`: the new contents of `dst` and the number of bytes copied. -/
def copy (dst src : List Nat) : List Nat × Int :=
  let k := min dst.length src.length
  (src.take k ++ dst.drop k, (k : Int))

/-- The bytes of `[]byte("PAR1")`. -/
def PAR1 : List Nat := [80, 65, 82, 49]

/-- Go `binary.LittleEndian.PutUint32(p, v)` on a slice of at least four bytes. -/
def PutUint32 (p : List Nat) (v : Nat) : List Nat :=
  [v % 256, v / 256 % 256, v / 65536 % 256, v / 16777216 % 256] ++ p.drop 4

/-- Go `binary.LittleEndian.Uint32(p)` on a slice of at least four bytes. -/
def Uint32 (p : List Nat) : Nat :=
  p.getD 0 0 + 256 * p.getD 1 0 + 65536 * p.getD 2 0 + 16777216 * p.getD 3 0

/-! ## Interfaces -/

/-- What a `ReadAt(p, off)` call leaves behind: the contents of `p`, and the pair
`(n, err)` it returns. -/
structure ReadResult where
  p : List Nat
  n : Int
  err : Option String
deriving DecidableEq, Repr

/-- Go interface `io.ReaderAt`, acting on a store `σ`. -/
structure ioReaderAt (σ : Type) where
  ReadAt : List Nat → Int → σ → ReadResult × σ

/-- Go interface `backend.Reader`, restricted to the method this file calls:
`ReadRange(ctx, name, blockID, tenantID, offset, buffer, shouldCache) error`.
The result is the contents of `buffer` afterwards and the error. -/
structure backendReader (σ : Type) where
  ReadRange : String → String → String → Nat → List Nat → Bool → σ →
    (List Nat × Option String) × σ

/-- A call received by a reader that stands outside this file. -/
inductive Call where
  | ReadAt (p : List Nat) (off : Int)
  | ReadRange (name blockID tenantID : String) (offset : Nat) (p : List Nat)
      (shouldCache : Bool)
deriving DecidableEq, Repr

/-- The reader `r`, writing down every `ReadAt` call it receives. -/
def recorded {σ : Type} (r : ioReaderAt σ) : ioReaderAt (σ × List Call) where
  ReadAt p off s :=
    let res := r.ReadAt p off s.1
    (res.1, (res.2, s.2 ++ [Call.ReadAt p off]))

/-- The backend `b`, writing down every `ReadRange` call it receives. -/
def recordedBackend {σ : Type} (b : backendReader σ) : backendReader (σ × List Call) where
  ReadRange name blockID tenantID offset p shouldCache s :=
    let res := b.ReadRange name blockID tenantID offset p shouldCache s.1
    (res.1, (res.2, s.2 ++ [Call.ReadRange name blockID tenantID offset p shouldCache]))

/-! ## BackendReaderAt -/

/-- Go struct `BackendReaderAt` (the context is not modelled). -/
structure BackendReaderAt (σ : Type) where
  r : backendReader σ
  name : String
  blockID : String
  tenantID : String
  bytesRead : Nat

def NewBackendReaderAt {σ : Type} (r : backendReader σ) (name blockID tenantID : String) :
    BackendReaderAt σ :=
  { r := r, name := name, blockID := blockID, tenantID := tenantID, bytesRead := 0 }

/-- Go `(*BackendReaderAt).ReadAt`. -/
def BackendReaderAt.ReadAt {σ : Type} (b : BackendReaderAt σ) (p : List Nat) (off : Int)
    (s : σ) : ReadResult × BackendReaderAt σ × σ :=
  -- b.bytesRead.Add(uint64(len(p)))
  let b1 := { b with bytesRead := (b.bytesRead + uint64 (p.length : Int)) % 2 ^ 64 }
  -- err := b.r.ReadRange(b.ctx, b.name, b.blockID, b.tenantID, uint64(off), p, false)
  let res := b.r.ReadRange b.name b.blockID b.tenantID (uint64 off) p false s
  match res.1.2 with
  | some e => ({ p := res.1.1, n := 0, err := some e }, b1, res.2)
  | none => ({ p := res.1.1, n := (p.length : Int), err := none }, b1, res.2)

/-- Go `(*BackendReaderAt).ReadAtWithCache`. -/
def BackendReaderAt.ReadAtWithCache {σ : Type} (b : BackendReaderAt σ) (p : List Nat)
    (off : Int) (s : σ) : ReadResult × BackendReaderAt σ × σ :=
  -- err := b.r.ReadRange(b.ctx, b.name, b.blockID, b.tenantID, uint64(off), p, true)
  let res := b.r.ReadRange b.name b.blockID b.tenantID (uint64 off) p true s
  match res.1.2 with
  | some e => ({ p := res.1.1, n := 0, err := some e }, b, res.2)
  | none => ({ p := res.1.1, n := (p.length : Int), err := none }, b, res.2)

/-- Go `(*BackendReaderAt).BytesRead`. -/
def BackendReaderAt.BytesRead {σ : Type} (b : BackendReaderAt σ) : Nat := b.bytesRead

/-- A sequence of `ReadAt` calls on one `BackendReaderAt`: the results in call order,
the reader and the store afterwards. -/
def BackendReaderAt.ReadAtSeq {σ : Type} (b : BackendReaderAt σ) :
    List (List Nat × Int) → σ → List ReadResult × BackendReaderAt σ × σ
  | [], s => ([], b, s)
  | c :: cs, s =>
    let r1 := b.ReadAt c.1 c.2 s
    let rest := BackendReaderAt.ReadAtSeq r1.2.1 cs r1.2.2
    (r1.1 :: rest.1, rest.2)

/-! ## parquetOptimizedReaderAt -/

/-- Go struct `parquetOptimizedReaderAt`. -/
structure parquetOptimizedReaderAt (σ : Type) where
  r : ioReaderAt σ
  readerSize : Int
  footerSize : Nat

def newParquetOptimizedReaderAt {σ : Type} (r : ioReaderAt σ) (size : Int) (footerSize : Nat) :
    parquetOptimizedReaderAt σ :=
  { r := r, readerSize := size, footerSize := footerSize }

/-- Go `(*parquetOptimizedReaderAt).ReadAt`. -/
def parquetOptimizedReaderAt.ReadAt {σ : Type} (r : parquetOptimizedReaderAt σ)
    (p : List Nat) (off : Int) (s : σ) : ReadResult × σ :=
  if p.length = 4 ∧ off = 0 then
    -- Magic header
    let c := copy p PAR1
    ({ p := c.1, n := c.2, err := none }, s)
  else if p.length = 8 ∧ off = int64 (r.readerSize - 8) ∧ r.footerSize > 0 then
    -- Magic footer
    let p1 := PutUint32 p r.footerSize
    let c := copy ((p1.drop 4).take 4) PAR1
    ({ p := p1.take 4 ++ c.1 ++ p1.drop 8, n := 8, err := none }, s)
  else
    r.r.ReadAt p off s

/-! ## cachedReaderAt -/

/-- Modelled from the spec: `common.CacheControl`, declared in
`tempodb/encoding/common`; the three flags are the fields this file reads. -/
structure CacheControl where
  Footer : Bool
  ColumnIndex : Bool
  OffsetIndex : Bool
deriving DecidableEq, Repr

/-- Go `map[int64]int64`: the pairs stored, the latest assignment first. -/
abbrev OffsetMap := List (Int × Int)

/-- Go map index `m[k]`: the value stored under `k`, and the zero value when `k` is
not a key of the map. -/
def OffsetMap.index (m : OffsetMap) (k : Int) : Int := (m.lookup k).getD 0

/-- Go map assignment `m[k] = v`. -/
def OffsetMap.assign (m : OffsetMap) (k v : Int) : OffsetMap := (k, v) :: m

/-- Go struct `cachedReaderAt`. -/
structure cachedReaderAt (σ : Type) where
  r : ioReaderAt σ
  br : BackendReaderAt σ
  cacheControl : CacheControl
  cachedObjects : OffsetMap

def newCachedReaderAt {σ : Type} (br : ioReaderAt σ) (rr : BackendReaderAt σ)
    (cc : CacheControl) : cachedReaderAt σ :=
  { r := br, br := rr, cacheControl := cc, cachedObjects := [] }

/-- Go `(*cachedReaderAt).SetFooterSection`. -/
def cachedReaderAt.SetFooterSection {σ : Type} (r : cachedReaderAt σ) (offset length : Int) :
    cachedReaderAt σ :=
  if r.cacheControl.Footer then
    { r with cachedObjects := r.cachedObjects.assign offset length }
  else r

/-- Go `(*cachedReaderAt).SetColumnIndexSection`. -/
def cachedReaderAt.SetColumnIndexSection {σ : Type} (r : cachedReaderAt σ)
    (offset length : Int) : cachedReaderAt σ :=
  if r.cacheControl.ColumnIndex then
    { r with cachedObjects := r.cachedObjects.assign offset length }
  else r

/-- Go `(*cachedReaderAt).SetOffsetIndexSection`. -/
def cachedReaderAt.SetOffsetIndexSection {σ : Type} (r : cachedReaderAt σ)
    (offset length : Int) : cachedReaderAt σ :=
  if r.cacheControl.OffsetIndex then
    { r with cachedObjects := r.cachedObjects.assign offset length }
  else r

/-- Go `(*cachedReaderAt).ReadAt`.  The `BackendReaderAt` behind `r.br` is returned
unchanged by `ReadAtWithCache`, so only its result and store are kept. -/
def cachedReaderAt.ReadAt {σ : Type} (r : cachedReaderAt σ) (p : List Nat) (off : Int)
    (s : σ) : ReadResult × σ :=
  -- check if the offset and length is stored as a special object
  if r.cachedObjects.index off = (p.length : Int) then
    let res := r.br.ReadAtWithCache p off s
    (res.1, res.2.2)
  else
    r.r.ReadAt p off s

/-- The three section declarations parquet-go issues when it opens a file. -/
inductive SectionKind where
  | Footer
  | ColumnIndex
  | OffsetIndex
deriving DecidableEq, Repr

/-- One `Set*Section(offset, length)` call. -/
structure SectionCall where
  kind : SectionKind
  offset : Int
  length : Int
deriving DecidableEq, Repr

/-- Apply one `Set*Section` call. -/
def cachedReaderAt.declare {σ : Type} (r : cachedReaderAt σ) (c : SectionCall) :
    cachedReaderAt σ :=
  match c.kind with
  | SectionKind.Footer => r.SetFooterSection c.offset c.length
  | SectionKind.ColumnIndex => r.SetColumnIndexSection c.offset c.length
  | SectionKind.OffsetIndex => r.SetOffsetIndexSection c.offset c.length

/-- Apply a sequence of `Set*Section` calls, first call first. -/
def cachedReaderAt.declareAll {σ : Type} (r : cachedReaderAt σ) (cs : List SectionCall) :
    cachedReaderAt σ :=
  cs.foldl cachedReaderAt.declare r

/-! ## walReaderAt -/

/-- Go struct `walReaderAt`. -/
structure walReaderAt (σ : Type) where
  r : ioReaderAt σ
  bytesRead : Nat

def newWalReaderAt {σ : Type} (r : ioReaderAt σ) : walReaderAt σ :=
  { r := r, bytesRead := 0 }

/-- Go `(*walReaderAt).ReadAt`. -/
def walReaderAt.ReadAt {σ : Type} (wr : walReaderAt σ) (p : List Nat) (off : Int) (s : σ) :
    ReadResult × walReaderAt σ × σ :=
  -- n, err := wr.r.ReadAt(p, off)
  let res := wr.r.ReadAt p off s
  -- wr.bytesRead.Add(uint64(n))
  (res.1, { wr with bytesRead := (wr.bytesRead + uint64 res.1.n) % 2 ^ 64 }, res.2)

/-- Go `(*walReaderAt).BytesRead`. -/
def walReaderAt.BytesRead {σ : Type} (wr : walReaderAt σ) : Nat := wr.bytesRead

/-- A sequence of `ReadAt` calls on one `walReaderAt`. -/
def walReaderAt.ReadAtSeq {σ : Type} (wr : walReaderAt σ) :
    List (List Nat × Int) → σ → List ReadResult × walReaderAt σ × σ
  | [], s => ([], wr, s)
  | c :: cs, s =>
    let r1 := wr.ReadAt c.1 c.2 s
    let rest := walReaderAt.ReadAtSeq r1.2.1 cs r1.2.2
    (r1.1 :: rest.1, rest.2)

/-- The same sequence of `ReadAt` calls issued to a bare `io.ReaderAt`. -/
def ioReaderAt.ReadAtSeq {σ : Type} (r : ioReaderAt σ) :
    List (List Nat × Int) → σ → List ReadResult × σ
  | [], s => ([], s)
  | c :: cs, s =>
    let r1 := r.ReadAt c.1 c.2 s
    let rest := ioReaderAt.ReadAtSeq r cs r1.2
    (r1.1 :: rest.1, rest.2)

/-! ## Helpers for stating properties of the readers -/

/-- The cache-control flag that guards the declaration of a section of kind `k`. -/
def CacheControl.enabled (cc : CacheControl) : SectionKind → Bool
  | SectionKind.Footer => cc.Footer
  | SectionKind.ColumnIndex => cc.ColumnIndex
  | SectionKind.OffsetIndex => cc.OffsetIndex

/-- What `cachedReaderAt.ReadAt` yields when it hands the read to
`r.br.ReadAtWithCache(p, off)`. -/
def cachedReaderAt.viaCache {σ : Type} (r : cachedReaderAt σ) (p : List Nat) (off : Int)
    (s : σ) : ReadResult × σ :=
  ((r.br.ReadAtWithCache p off s).1, (r.br.ReadAtWithCache p off s).2.2)

/-- Sum of the buffer lengths `len(p)` of a sequence of `ReadAt` calls. -/
def sumLen (calls : List (List Nat × Int)) : Nat := (calls.map (fun c => c.1.length)).sum

/-- Sum of the byte counts `n` returned by a sequence of `ReadAt` calls. -/
def sumN (results : List ReadResult) : Int := (results.map (fun r => r.n)).sum

/-! ## Readers used as concrete inputs -/

/-- An `io.ReaderAt` over an in-memory file: it fills `p` from `file` at `off` and
reports a short read with `io.EOF`, as `bytes.Reader.ReadAt` does. -/
def fileReader (file : List Nat) : ioReaderAt Unit where
  ReadAt p off s :=
    if off < 0 then ({ p := p, n := 0, err := some "negative offset" }, s)
    else
      let c := copy p (file.drop off.toNat)
      ({ p := c.1, n := c.2, err := if c.2 < (p.length : Int) then some "EOF" else none }, s)

/-- A `backend.Reader` over an in-memory object. -/
def fileBackend (file : List Nat) : backendReader Unit where
  ReadRange _ _ _ offset p _ s :=
    if offset + p.length ≤ file.length then (((file.drop offset).take p.length, none), s)
    else ((p, some "unexpected EOF"), s)

/-- A `backend.Reader` whose object does not exist: every range read fails. -/
def missingBackend : backendReader Unit where
  ReadRange _ _ _ _ p _ s := ((p, some "does not exist"), s)

/-- A cache control that tags all three section kinds cacheable. -/
def cacheAll : CacheControl := { Footer := true, ColumnIndex := true, OffsetIndex := true }

/-- A sixteen byte parquet file: header magic, four data bytes, a footer of length 0
and the footer magic. -/
def tinyFile : List Nat := [80, 65, 82, 49, 1, 2, 3, 4, 0, 0, 0, 0, 80, 65, 82, 49]

/-- A `cachedReaderAt` over `tinyFile` whose wrapped reader and backend both write down
the calls they receive. -/
def tinyCached (cc : CacheControl) : cachedReaderAt (Unit × List Call) :=
  newCachedReaderAt (recorded (fileReader tinyFile))
    (NewBackendReaderAt (recordedBackend (fileBackend tinyFile)) "data.parquet" "b1" "t1") cc

/-! ## The reader stack

`BackendReaderAt <- parquetOptimizedReaderAt <- cachedReaderAt`, the composition drawn
in the header comment of the source without the buffering layer.  The layers share one
`*BackendReaderAt`: the store of the stack holds that object next to the store of the
backend behind it. -/

/-- The reads `parquetOptimizedReaderAt.ReadAt` answers from constants for a reader of
file size `size` and footer size `footerSize`: the conditions of its two `if`s. -/
def magicRead (size : Int) (footerSize : Nat) (p : List Nat) (off : Int) : Prop :=
  (p.length = 4 ∧ off = 0) ∨ (p.length = 8 ∧ off = int64 (size - 8) ∧ footerSize > 0)

instance (size : Int) (footerSize : Nat) (p : List Nat) (off : Int) :
    Decidable (magicRead size footerSize p off) := by
  unfold magicRead
  infer_instance

/-- A `*parquetOptimizedReaderAt` used as an `io.ReaderAt`. -/
def parquetOptimizedReaderAt.toReaderAt {σ : Type} (r : parquetOptimizedReaderAt σ) :
    ioReaderAt σ where
  ReadAt := r.ReadAt

/-- The shared `*BackendReaderAt` used as an `io.ReaderAt`: `ReadAt` runs on the object
held in the store and leaves there the object with the counter advanced. -/
def BackendReaderAt.toReaderAt {σ : Type} : ioReaderAt (BackendReaderAt σ × σ) where
  ReadAt p off st :=
    let res := st.1.ReadAt p off st.2
    (res.1, (res.2.1, res.2.2))

/-- The shared `*BackendReaderAt` as the field `br` of the top layer.  The only method
the top layer calls on it is `ReadAtWithCache`, which reads the fields `r`, `name`,
`blockID`, `tenantID` and leaves the counter alone: the request goes to the backend of
the object held in the store, and that object stays as it is. -/
def BackendReaderAt.pointer {σ : Type} (b : BackendReaderAt σ) :
    BackendReaderAt (BackendReaderAt σ × σ) where
  r :=
    { ReadRange := fun name blockID tenantID offset p shouldCache st =>
        let res := st.1.r.ReadRange name blockID tenantID offset p shouldCache st.2
        (res.1, (st.1, res.2)) }
  name := b.name
  blockID := b.blockID
  tenantID := b.tenantID
  bytesRead := b.bytesRead

/-- The stack assembled over the `BackendReaderAt` `b`:
`newCachedReaderAt(newParquetOptimizedReaderAt(b, size, footerSize), b, cc)`. -/
def readerStack {σ : Type} (b : BackendReaderAt σ) (size : Int) (footerSize : Nat)
    (cc : CacheControl) : cachedReaderAt (BackendReaderAt σ × σ) :=
  newCachedReaderAt
    (newParquetOptimizedReaderAt BackendReaderAt.toReaderAt size footerSize).toReaderAt
    b.pointer cc

/-- A `BackendReaderAt` over `tinyFile` whose backend writes down the calls it
receives. -/
def tinyBackend : BackendReaderAt (Unit × List Call) :=
  NewBackendReaderAt (recordedBackend (fileBackend tinyFile)) "data.parquet" "b1" "t1"

/-- The stack over `tinyBackend` for a file of sixteen bytes. -/
def tinyStack (footerSize : Nat) (cc : CacheControl) :
    cachedReaderAt (BackendReaderAt (Unit × List Call) × Unit × List Call) :=
  readerStack tinyBackend 16 footerSize cc

end vparquet

namespace vparquet2

/-! ## Trace data model

The fields are those the cases of `TestCombiner` set or compare. -/

/-- Modelled from the spec: the `Span` row of the columnar schema (`schema.go` is not
among the sources); the fields are the ones `combiner_test.go` uses. -/
structure Span where
  SpanID : List Nat
  ParentSpanID : List Nat
  StatusCode : Int
  ParentID : Int
  NestedSetLeft : Int
  NestedSetRight : Int
deriving DecidableEq, Repr

/-- Modelled from the spec: `ScopeSpans` of the columnar schema. -/
structure ScopeSpans where
  Spans : List Span
deriving DecidableEq, Repr

/-- Modelled from the spec: `Resource` of the columnar schema. -/
structure Resource where
  ServiceName : String
deriving DecidableEq, Repr

/-- Modelled from the spec: `ResourceSpans` of the columnar schema. -/
structure ResourceSpans where
  Resource : vparquet2.Resource
  ScopeSpans : List vparquet2.ScopeSpans
deriving DecidableEq, Repr

/-- Modelled from the spec: `Trace` of the columnar schema; the three time fields are
unsigned 64 bit numbers. -/
structure Trace where
  TraceID : List Nat
  RootServiceName : String
  RootSpanName : String
  StartTimeUnixNano : Nat
  EndTimeUnixNano : Nat
  DurationNano : Nat
  ResourceSpans : List vparquet2.ResourceSpans
deriving DecidableEq, Repr

/-- Go composite literal `Trace{}`: every field at its zero value. -/
def Trace.zero : Trace :=
  { TraceID := [], RootServiceName := "", RootSpanName := "", StartTimeUnixNano := 0,
    EndTimeUnixNano := 0, DurationNano := 0, ResourceSpans := [] }

/-- Go composite literal `Span{}`. -/
def Span.zero : Span :=
  { SpanID := [], ParentSpanID := [], StatusCode := 0, ParentID := 0, NestedSetLeft := 0,
    NestedSetRight := 0 }

/-- The spans of a scope list, in order. -/
def scopeSpans : List ScopeSpans → List Span
  | [] => []
  | x :: xs => x.Spans ++ scopeSpans xs

/-- The spans of a batch list, in order. -/
def batchSpans : List ResourceSpans → List Span
  | [] => []
  | b :: bs => scopeSpans b.ScopeSpans ++ batchSpans bs

/-- All spans of a trace in stored order; the position of a span in this list is its
merged index. -/
def Trace.spans (t : Trace) : List Span := batchSpans t.ResourceSpans

/-! ## Merging two traces -/

/-- The key spans are deduplicated by: resource and span ID. -/
abbrev SpanKey := Resource × List Nat

/-- The keys of all spans of a batch list. -/
def batchKeys : List ResourceSpans → List SpanKey
  | [] => []
  | b :: bs => (scopeSpans b.ScopeSpans).map (fun s => (b.Resource, s.SpanID)) ++ batchKeys bs

/-- Modelled from the spec: span deduplication inside one scope.  A span whose key has
been seen is dropped, the others are kept and their keys recorded. -/
def keepNewSpans (res : Resource) : List SpanKey → List Span → List Span × List SpanKey
  | seen, [] => ([], seen)
  | seen, s :: ss =>
    if (res, s.SpanID) ∈ seen then keepNewSpans res seen ss
    else
      let rest := keepNewSpans res ((res, s.SpanID) :: seen) ss
      (s :: rest.1, rest.2)

/-- Modelled from the spec: span deduplication over the scopes of one batch; a scope left
without spans is dropped. -/
def keepNewScopes (res : Resource) :
    List SpanKey → List ScopeSpans → List ScopeSpans × List SpanKey
  | seen, [] => ([], seen)
  | seen, x :: xs =>
    let kept := keepNewSpans res seen x.Spans
    let rest := keepNewScopes res kept.2 xs
    if kept.1 = [] then rest else ({ Spans := kept.1 } :: rest.1, rest.2)

/-- Modelled from the spec: span deduplication over the batches of the consumed trace; a
batch left without scopes is dropped. -/
def keepNewBatches : List SpanKey → List ResourceSpans → List ResourceSpans × List SpanKey
  | seen, [] => ([], seen)
  | seen, b :: bs =>
    let kept := keepNewScopes b.Resource seen b.ScopeSpans
    let rest := keepNewBatches kept.2 bs
    if kept.1 = [] then rest
    else ({ Resource := b.Resource, ScopeSpans := kept.1 } :: rest.1, rest.2)

/-- Subtraction of unsigned 64 bit numbers. -/
def subUint64 (a b : Nat) : Nat := (a + 2 ^ 64 - b % 2 ^ 64) % 2 ^ 64

/-- Modelled from the spec: the pairwise merge of the combiner (`combiner.go` is not
among the sources), following the merge policy of the specification.

* Root service name and root span name: the accumulator's value stays unless it is
  empty.
* End is the larger end.  Start is the smaller start, where a start of 0 in the
  accumulator counts as not set and takes the consumed trace's start: the case "root
  meta from second overrides empty first" of `TestCombiner` expects start 10 from the
  starts 0 and 10.
* Duration is recomputed from the merged bounds.
* Spans of the consumed trace whose (resource, span ID) is already present are dropped;
  the others are appended, batch by batch. -/
def mergeTrace (acc tr : Trace) : Trace :=
  let endT := if acc.EndTimeUnixNano < tr.EndTimeUnixNano then tr.EndTimeUnixNano
    else acc.EndTimeUnixNano
  let startT :=
    if acc.StartTimeUnixNano = 0 ∨ acc.StartTimeUnixNano > tr.StartTimeUnixNano then
      tr.StartTimeUnixNano
    else acc.StartTimeUnixNano
  { TraceID := acc.TraceID
    RootServiceName := if acc.RootServiceName = "" then tr.RootServiceName
      else acc.RootServiceName
    RootSpanName := if acc.RootSpanName = "" then tr.RootSpanName else acc.RootSpanName
    StartTimeUnixNano := startT
    EndTimeUnixNano := endT
    DurationNano := subUint64 endT startT
    ResourceSpans :=
      acc.ResourceSpans ++ (keepNewBatches (batchKeys acc.ResourceSpans) tr.ResourceSpans).1 }

end vparquet2

namespace vparquet2

/-! ## Parent links and nested-set bounds -/

/-- Modelled from the spec: the ID → merged-index table, built in one pass over the
merged spans; a later span with the same ID replaces the earlier entry. -/
def idTableFrom : Nat → List Span → List (List Nat × Nat) → List (List Nat × Nat)
  | _, [], tbl => tbl
  | k, s :: ss, tbl => idTableFrom (k + 1) ss ((s.SpanID, k) :: tbl)

def idTable (spans : List Span) : List (List Nat × Nat) := idTableFrom 0 spans []

/-- Modelled from the spec: the merged index of the parent of span `j`, looked up
through the ID table.  A span with an empty parent span ID is a root and has none. -/
def parentIndex (spans : List Span) (j : Nat) : Option Nat :=
  match spans[j]? with
  | none => none
  | some s => if s.ParentSpanID = [] then none else (idTable spans).lookup s.ParentSpanID

/-- The merged indexes of the children of span `i`, in merged order. -/
def children (spans : List Span) (i : Nat) : List Nat :=
  (List.range spans.length).filter (fun j => parentIndex spans j = some i)

/-- The merged indexes of the root spans, in merged order. -/
def roots (spans : List Span) : List Nat :=
  (List.range spans.length).filter
    (fun j => (spans[j]?).map (fun s => s.ParentSpanID) = some [])

/-- Number a list of sibling subtrees one after the other. -/
def numberList (visit : Nat → Nat → List (Nat × Nat × Nat) × Nat) :
    List Nat → Nat → List (Nat × Nat × Nat) × Nat
  | [], next => ([], next)
  | c :: cs, next =>
    let sub := visit c next
    let rest := numberList visit cs sub.2
    (sub.1 ++ rest.1, rest.2)

/-- Modelled from the spec: the pre-order depth-first traversal that hands out the
nested-set bounds.  `number ch fuel i next` walks the subtree of span `i`: the span takes
`next` as its left bound on the way down, its children are walked in order, and it takes
the counter as its right bound on the way up.  The result lists `(index, left, right)`
in pre-order, together with the counter afterwards.  `fuel` bounds the depth. -/
def number (ch : Nat → List Nat) : Nat → Nat → Nat → List (Nat × Nat × Nat) × Nat
  | 0, _, next => ([], next)
  | fuel + 1, i, next =>
    let sub := numberList (number ch fuel) (ch i) (next + 1)
    ((i, next, sub.2) :: sub.1, sub.2 + 1)

/-- The bounds handed out for the spans of a trace: the traversal starts at the root
spans with the counter at 1; no path is longer than the number of spans. -/
def nestedSetBounds (spans : List Span) : List (Nat × Nat × Nat) :=
  (numberList (number (children spans) spans.length) (roots spans) 1).1

/-- The bounds handed out to span `j`, if the traversal reached it. -/
def boundsOf (bounds : List (Nat × Nat × Nat)) (j : Nat) : Option (Nat × Nat) :=
  (bounds.find? (fun e => e.1 = j)).map (fun e => e.2)

/-- Modelled from the spec: the fields written to span `j`.  A span the traversal reached
gets its bounds, and its `ParentID` is the left bound of its parent; other spans, and
the `ParentID` of a root, stay as they are. -/
def renumber (spans : List Span) (bounds : List (Nat × Nat × Nat)) (j : Nat) (s : Span) :
    Span :=
  match boundsOf bounds j with
  | none => s
  | some lr =>
    { s with
      NestedSetLeft := (lr.1 : Int)
      NestedSetRight := (lr.2 : Int)
      ParentID :=
        match (parentIndex spans j).bind (boundsOf bounds) with
        | none => s.ParentID
        | some plr => (plr.1 : Int) }

/-- Apply `f` to every span, passing its merged index, starting at index `k`. -/
def relabelSpans (f : Nat → Span → Span) : Nat → List Span → List Span
  | _, [] => []
  | k, s :: ss => f k s :: relabelSpans f (k + 1) ss

def relabelScopes (f : Nat → Span → Span) : Nat → List ScopeSpans → List ScopeSpans
  | _, [] => []
  | k, x :: xs =>
    { Spans := relabelSpans f k x.Spans } :: relabelScopes f (k + x.Spans.length) xs

def relabelBatches (f : Nat → Span → Span) : Nat → List ResourceSpans → List ResourceSpans
  | _, [] => []
  | k, b :: bs =>
    { Resource := b.Resource, ScopeSpans := relabelScopes f k b.ScopeSpans } ::
      relabelBatches f (k + (scopeSpans b.ScopeSpans).length) bs

/-- Modelled from the spec: the second pass of the combiner, which recomputes parent IDs
and nested-set bounds over the merged trace. -/
def assignNestedSetBounds (t : Trace) : Trace :=
  { t with
    ResourceSpans :=
      relabelBatches (renumber t.spans (nestedSetBounds t.spans)) 0 t.ResourceSpans }

/-! ## Shape of the span forest -/

/-- The span reached from span `j` by following `k` parent links. -/
def ancestor (spans : List Span) : Nat → Nat → Option Nat
  | 0, j => some j
  | k + 1, j => (ancestor spans k j).bind (parentIndex spans)

/-- The spans walked by `number ch fuel i`, in pre-order. -/
def visited (ch : Nat → List Nat) : Nat → Nat → List Nat
  | 0, _ => []
  | fuel + 1, i => i :: (ch i).flatMap (visited ch fuel)

/-- The spans form a single tree under span `r`: `r` is a root span, and every span
reaches `r` by following parent links. -/
def SingleTree (spans : List Span) (r : Nat) : Prop :=
  (spans[r]?).map (fun s => s.ParentSpanID) = some [] ∧
  ∀ j ∈ List.range spans.length, ∃ k ∈ List.range spans.length, ancestor spans k j = some r

instance (spans : List Span) (r : Nat) : Decidable (SingleTree spans r) := by
  unfold SingleTree
  infer_instance

/-- Every span is a root span or reaches a root span by following parent links. -/
def Rooted (spans : List Span) : Prop :=
  ∀ j ∈ List.range spans.length, ∃ k ∈ List.range spans.length, ∃ r ∈ roots spans,
    ancestor spans k j = some r

instance (spans : List Span) : Decidable (Rooted spans) := by
  unfold Rooted
  infer_instance

/-- The left and right bounds of a list of handed out bounds, in order. -/
def labels (bounds : List (Nat × Nat × Nat)) : List Nat :=
  bounds.flatMap (fun e => [e.2.1, e.2.2])

/-- How an entry of the traversal relates to a later one: its interval lies wholly
before the later interval, or it strictly contains the later interval and its span is an
ancestor of the later span. -/
def Before (spans : List Span) (e1 e2 : Nat × Nat × Nat) : Prop :=
  e1.2.2 < e2.2.1 ∨
    (e1.2.1 < e2.2.1 ∧ e2.2.2 < e1.2.2 ∧
      ∃ k, k < spans.length ∧ ancestor spans (k + 1) e2.1 = some e1.1)

/-- What the traversal guarantees of the bounds it hands out between the counter values
`s` and `e`. -/
def WellNumbered (spans : List Span) (es : List (Nat × Nat × Nat)) (s e : Nat) : Prop :=
  e = s + 2 * es.length ∧
  (∀ x ∈ es, s ≤ x.2.1 ∧ x.2.1 < x.2.2 ∧ x.2.2 < e) ∧
  (labels es).Perm (List.range' s (2 * es.length)) ∧
  List.Pairwise (Before spans) es

/-- The span IDs and parent span IDs of a span list: all that the parent links and the
traversal depend on. -/
def shape (spans : List Span) : List (List Nat × List Nat) :=
  spans.map (fun s => (s.SpanID, s.ParentSpanID))

/-- The nested-set bounds stored on the spans, in stored order. -/
def storedBounds (spans : List Span) : List (Int × Int) :=
  spans.map (fun s => (s.NestedSetLeft, s.NestedSetRight))

/-- The nested-set numbering stored on a span list is contiguous and properly nested:

* the left and right bounds are the numbers 1 to twice the span count, each used once;
* every span has its left bound below its right bound;
* the interval of a span with a parent lies strictly inside the interval of the parent;
* two spans neither of which is an ancestor of the other have disjoint intervals;
* a span with a parent span ID has a parent, a span with that ID, and its `ParentID` is
  the left bound of the parent. -/
def ProperlyNested (spans : List Span) : Prop :=
  (spans.flatMap (fun s => [s.NestedSetLeft, s.NestedSetRight])).Perm
    ((List.range' 1 (2 * spans.length)).map Int.ofNat) ∧
  (∀ s ∈ spans, s.NestedSetLeft < s.NestedSetRight) ∧
  (∀ j ∈ List.range spans.length, ∀ p ∈ List.range spans.length,
    parentIndex spans j = some p →
      (spans.getD p Span.zero).NestedSetLeft < (spans.getD j Span.zero).NestedSetLeft ∧
      (spans.getD j Span.zero).NestedSetRight < (spans.getD p Span.zero).NestedSetRight) ∧
  (∀ j1 ∈ List.range spans.length, ∀ j2 ∈ List.range spans.length, j1 ≠ j2 →
    (∀ k ∈ List.range (spans.length + 1), ancestor spans k j1 ≠ some j2) →
    (∀ k ∈ List.range (spans.length + 1), ancestor spans k j2 ≠ some j1) →
      (spans.getD j1 Span.zero).NestedSetRight < (spans.getD j2 Span.zero).NestedSetLeft ∨
      (spans.getD j2 Span.zero).NestedSetRight < (spans.getD j1 Span.zero).NestedSetLeft) ∧
  (∀ j ∈ List.range spans.length, (spans.getD j Span.zero).ParentSpanID ≠ [] →
    ∃ p ∈ List.range spans.length, parentIndex spans j = some p ∧
      (spans.getD p Span.zero).SpanID = (spans.getD j Span.zero).ParentSpanID ∧
      (spans.getD j Span.zero).ParentID = (spans.getD p Span.zero).NestedSetLeft)

instance (spans : List Span) : Decidable (ProperlyNested spans) := by
  unfold ProperlyNested
  infer_instance

/-! ## Combiner -/

/-- Modelled from the spec: the state of the combiner, the accumulated trace and whether
anything has been combined into it. -/
structure Combiner where
  result : Option Trace
  combined : Bool
deriving DecidableEq, Repr

def NewCombiner : Combiner := { result := none, combined := false }

/-- Modelled from the spec: `Consume(trace)`.  A nil trace is ignored, the first non-nil
trace becomes the accumulator, every later one is merged into it. -/
def Combiner.Consume (c : Combiner) (tr : Option Trace) : Combiner :=
  match tr with
  | none => c
  | some t =>
    match c.result with
    | none => { c with result := some t }
    | some acc => { result := some (mergeTrace acc t), combined := true }

/-- Modelled from the spec: `Result()`, the merged trace and the span total; the total
is the sentinel -1 when nothing has been combined. -/
def Combiner.Result (c : Combiner) : Option Trace × Int :=
  match c.result, c.combined with
  | some t, true =>
    (some (assignNestedSetBounds t), ((assignNestedSetBounds t).spans.length : Int))
  | r, _ => (r, -1)

/-- The method under test in `TestCombiner`: a fresh combiner consumes `a`, then `b`. -/
def combine (a b : Option Trace) : Option Trace × Int :=
  ((NewCombiner.Consume a).Consume b).Result

/-! ## The cases of `TestCombiner` -/

/-- Case "root meta from second overrides empty first". -/
def case4A : Trace := { Trace.zero with TraceID := [0, 1] }

def case4B : Trace :=
  { Trace.zero with
    TraceID := [0, 1], RootServiceName := "serviceNameB", RootSpanName := "spanNameB",
    StartTimeUnixNano := 10, EndTimeUnixNano := 20, DurationNano := 10 }

/-- Case "if both set first root name wins". -/
def case5A : Trace :=
  { Trace.zero with
    TraceID := [0, 1], RootServiceName := "serviceNameA", RootSpanName := "spanNameA" }

def case5B : Trace :=
  { Trace.zero with
    TraceID := [0, 1], RootServiceName := "serviceNameB", RootSpanName := "spanNameB" }

/-- Case "second trace start/end override". -/
def case6A : Trace :=
  { Trace.zero with
    TraceID := [0, 1], StartTimeUnixNano := 10, EndTimeUnixNano := 20, DurationNano := 10 }

def case6B : Trace :=
  { Trace.zero with
    TraceID := [0, 1], StartTimeUnixNano := 5, EndTimeUnixNano := 25, DurationNano := 20 }

/-- Case "second trace start/end ignored". -/
def case7B : Trace :=
  { Trace.zero with
    TraceID := [0, 1], StartTimeUnixNano := 12, EndTimeUnixNano := 18, DurationNano := 6 }

/-- The root span of the last case. -/
def spanOne : Span :=
  { Span.zero with SpanID := [0, 0, 0, 0, 0, 0, 0, 1], NestedSetLeft := 1, NestedSetRight := 2 }

/-- The child span of the last case. -/
def spanTwo : Span :=
  { Span.zero with SpanID := [0, 0, 0, 0, 0, 0, 0, 2], ParentSpanID := [0, 0, 0, 0, 0, 0, 0, 1] }

/-- Last case: the root span arrives in the first trace, its child in the second. -/
def case8A : Trace :=
  { Trace.zero with
    TraceID := [0, 1], RootServiceName := "serviceNameA"
    ResourceSpans :=
      [{ Resource := { ServiceName := "serviceNameA" }, ScopeSpans := [{ Spans := [spanOne] }] }] }

def case8B : Trace :=
  { Trace.zero with
    TraceID := [0, 1], RootServiceName := "serviceNameB"
    ResourceSpans :=
      [{ Resource := { ServiceName := "serviceNameB" }, ScopeSpans := [{ Spans := [spanTwo] }] }] }

def case8Expected : Trace :=
  { Trace.zero with
    TraceID := [0, 1], RootServiceName := "serviceNameA"
    ResourceSpans :=
      [{ Resource := { ServiceName := "serviceNameA" }
         ScopeSpans := [{ Spans := [{ spanOne with NestedSetLeft := 1, NestedSetRight := 4 }] }] },
       { Resource := { ServiceName := "serviceNameB" }
         ScopeSpans :=
           [{ Spans := [{ spanTwo with ParentID := 1, NestedSetLeft := 2, NestedSetRight := 3 }] }] }] }

/-- A span whose parent span is stored nowhere in the trace. -/
def spanOrphan : Span :=
  { Span.zero with SpanID := [0, 0, 0, 0, 0, 0, 0, 2], ParentSpanID := [0, 0, 0, 0, 0, 0, 0, 9] }

/-- A second trace that carries only the span `spanOrphan`. -/
def orphanB : Trace :=
  { Trace.zero with
    TraceID := [0, 1], RootServiceName := "serviceNameB"
    ResourceSpans :=
      [{ Resource := { ServiceName := "serviceNameB" }, ScopeSpans := [{ Spans := [spanOrphan] }] }] }

/-- A trace of three spans that carries a contiguous, properly nested numbering in which
the second child stored was numbered before the first: root (1, 6), first child (4, 5),
second child (2, 3). -/
def swappedChildren : Trace :=
  { Trace.zero with
    TraceID := [0, 1], RootServiceName := "serviceNameA"
    ResourceSpans :=
      [{ Resource := { ServiceName := "serviceNameA" }
         ScopeSpans :=
           [{ Spans :=
                [{ Span.zero with SpanID := [1], NestedSetLeft := 1, NestedSetRight := 6 },
                 { Span.zero with
                   SpanID := [2], ParentSpanID := [1], ParentID := 1, NestedSetLeft := 4,
                   NestedSetRight := 5 },
                 { Span.zero with
                   SpanID := [3], ParentSpanID := [1], ParentID := 1, NestedSetLeft := 2,
                   NestedSetRight := 3 }] }] }] }

/-- The same three spans, stored in the same order, with the other contiguous, properly
nested numbering of that tree: root (1, 6), first child (2, 3), second child (4, 5). -/
def orderedChildren : Trace :=
  { Trace.zero with
    TraceID := [0, 1], RootServiceName := "serviceNameA"
    ResourceSpans :=
      [{ Resource := { ServiceName := "serviceNameA" }
         ScopeSpans :=
           [{ Spans :=
                [{ Span.zero with SpanID := [1], NestedSetLeft := 1, NestedSetRight := 6 },
                 { Span.zero with
                   SpanID := [2], ParentSpanID := [1], ParentID := 1, NestedSetLeft := 2,
                   NestedSetRight := 3 },
                 { Span.zero with
                   SpanID := [3], ParentSpanID := [1], ParentID := 1, NestedSetLeft := 4,
                   NestedSetRight := 5 }] }] }] }

end vparquet2

namespace ingester

/-! ## Ingester instance: live traces, blocks and search

`modules/ingester/instance.go` is not among the sources; the instance is modelled from
sections 4.1, 4.2 and 4.5 of the specification, and the behaviour that
`instance_search_test.go` asserts is followed where the two differ. -/

abbrev TraceID := List Nat

/-- A tag: the scope it is attached to (`"span"` or `"resource"`), its key and value. -/
structure Tag where
  scope : String
  key : String
  value : String
deriving DecidableEq, Repr

/-- Modelled from the spec: the per-tenant caps of the overrides provider that the
instance reads; 0 stands for no cap. -/
structure Limits where
  MaxLocalTracesPerUser : Nat
  MaxBytesPerTagValuesQuery : Nat
  MaxBlocksPerTagValuesQuery : Nat
deriving DecidableEq, Repr

/-- Modelled from the spec: a live trace entry, the fragments pushed for one trace ID in
push order (each fragment given by the tags it carries) and the time of the last
push. -/
structure liveTrace where
  traceID : TraceID
  fragments : List (List Tag)
  lastAppend : Nat
deriving DecidableEq, Repr

/-- A combined trace stored in a block. -/
structure blockTrace where
  traceID : TraceID
  tags : List Tag
deriving DecidableEq, Repr

/-- Modelled from the spec: a block, its id and the combined traces it holds. -/
structure block where
  blockID : Nat
  traces : List blockTrace
deriving DecidableEq, Repr

/-- Modelled from the spec: the state of one tenant instance.  `traces` is the live trace
map, `traceCount` the live counter, `wal` the append log of accepted pushes. -/
structure Instance where
  limits : Limits
  traces : List liveTrace
  traceCount : Int
  wal : List (TraceID × List Tag)
  headBlock : block
  completingBlocks : List block
  completeBlocks : List block
  nextBlockID : Nat
deriving DecidableEq, Repr

/-- A fresh instance: no live trace, an empty head block with id 1, no other block. -/
def newInstance (limits : Limits) : Instance :=
  { limits := limits, traces := [], traceCount := 0, wal := [],
    headBlock := { blockID := 1, traces := [] }, completingBlocks := [],
    completeBlocks := [], nextBlockID := 2 }

/-- The errors of section 7 of the specification that the modelled operations return. -/
inductive Error where
  | ValidationError
  | NotFoundError
  | ResourceExhausted
  | InvalidArgument
  | IOError
deriving DecidableEq, Repr

/-- Modelled from the spec: a trace ID is a fixed-length byte identifier; the tests push
IDs of 16 bytes. -/
def validTraceID (id : TraceID) : Bool := id.length == 16

/-! ### Push and cut -/

/-- Append a fragment to the live entry of `id`. -/
def appendFragment (now : Nat) (id : TraceID) (tags : List Tag) :
    List liveTrace → List liveTrace
  | [] => []
  | t :: ts =>
    if t.traceID = id then
      { t with fragments := t.fragments ++ [tags], lastAppend := now } :: ts
    else t :: appendFragment now id tags ts

/-- Modelled from the spec: `PushBytes(traceID, fragment)` at time `now`; `payload` is the
decoded fragment, `none` for an undecodable one.  A failed push leaves the instance as
it was. -/
def Instance.PushBytes (i : Instance) (now : Nat) (id : TraceID) (payload : Option (List Tag)) :
    Except Error Instance :=
  if validTraceID id = false then Except.error Error.ValidationError
  else
    match payload with
    | none => Except.error Error.ValidationError
    | some tags =>
      if id ∈ i.traces.map (fun t => t.traceID) then
        Except.ok { i with
          wal := i.wal ++ [(id, tags)]
          traces := appendFragment now id tags i.traces }
      else if 0 < i.limits.MaxLocalTracesPerUser ∧
          i.limits.MaxLocalTracesPerUser ≤ i.traces.length then
        Except.error Error.ResourceExhausted
      else
        Except.ok { i with
          wal := i.wal ++ [(id, tags)]
          traces := i.traces ++ [{ traceID := id, fragments := [tags], lastAppend := now }]
          traceCount := i.traceCount + 1 }

/-- The combined trace written to the head block for a live entry. -/
def liveTrace.combine (t : liveTrace) : blockTrace :=
  { traceID := t.traceID, tags := t.fragments.flatten }

/-- Whether `CutCompleteTraces` removes the entry: it is idle past the threshold, or the
cut is forced. -/
def liveTrace.isCut (now cutoff : Nat) (immediate : Bool) (t : liveTrace) : Bool :=
  immediate || decide (t.lastAppend + cutoff < now)

/-- Modelled from the spec: `CutCompleteTraces(idleThreshold, force)` at time `now`.  The
entries cut leave the live map, their combined traces are appended to the head block and
the live counter is decremented by their number. -/
def Instance.CutCompleteTraces (i : Instance) (now cutoff : Nat) (immediate : Bool) :
    Instance :=
  let cut := i.traces.filter (liveTrace.isCut now cutoff immediate)
  { i with
    traces := i.traces.filter (fun t => !(liveTrace.isCut now cutoff immediate t))
    traceCount := i.traceCount - (cut.length : Int)
    headBlock :=
      { i.headBlock with traces := i.headBlock.traces ++ cut.map liveTrace.combine } }

/-! ### Block lifecycle -/

/-- The bytes a combined trace counts for in the thresholds. -/
def blockTrace.bytes (t : blockTrace) : Nat :=
  t.traceID.length + (t.tags.map (fun g => g.key.length + g.value.length)).sum

def block.bytes (b : block) : Nat := (b.traces.map blockTrace.bytes).sum

/-- Modelled from the spec: `CutBlockIfReady(maxBytes, maxTraces, force)`.  An empty head
block is never cut.  Otherwise, once a threshold is exceeded or the cut is forced, the
head block is staged for completion, a fresh empty head block is swapped in and the id of
the block cut is returned. -/
def Instance.CutBlockIfReady (i : Instance) (maxBytes maxTraces : Nat) (immediate : Bool) :
    Instance × Option Nat :=
  if i.headBlock.traces = [] then (i, none)
  else if immediate ∨ maxBytes < i.headBlock.bytes ∨ maxTraces < i.headBlock.traces.length
  then
    ({ i with
       headBlock := { blockID := i.nextBlockID, traces := [] }
       completingBlocks := i.completingBlocks ++ [i.headBlock]
       nextBlockID := i.nextBlockID + 1 }, some i.headBlock.blockID)
  else (i, none)

/-- Modelled from the spec: `CompleteBlock(id)`.  The staged block is encoded into a
completed block; the staged copy stays until `ClearCompletingBlock`.  `encoded = false`
stands for an encoding failure, which changes nothing. -/
def Instance.CompleteBlock (i : Instance) (id : Nat) (encoded : Bool) : Except Error Instance :=
  match i.completingBlocks.find? (fun b => b.blockID = id) with
  | none => Except.error Error.NotFoundError
  | some b =>
    if encoded then Except.ok { i with completeBlocks := i.completeBlocks ++ [b] }
    else Except.error Error.IOError

/-- Modelled from the spec: `ClearCompletingBlock(id)` releases the staged block;
`TestWALBlockDeletedDuringSearch` clears a block that was never completed. -/
def Instance.ClearCompletingBlock (i : Instance) (id : Nat) : Except Error Instance :=
  if i.completingBlocks.any (fun b => b.blockID = id) then
    Except.ok { i with
      completingBlocks := i.completingBlocks.filter (fun b => !(decide (b.blockID = id))) }
  else Except.error Error.NotFoundError

end ingester

namespace ingester

/-! ### Search -/

/-- A search request: the tags to match, as key and value, and the result limit. -/
structure SearchRequest where
  Tags : List (String × String)
  Limit : Nat
deriving DecidableEq, Repr

structure SearchMetrics where
  InspectedTraces : Nat
  InspectedBytes : Nat
deriving DecidableEq, Repr

structure SearchResponse where
  Traces : List TraceID
  Metrics : SearchMetrics
deriving DecidableEq, Repr

/-- Modelled from the spec: the limit applied when the request carries none. -/
def defaultLimit : Nat := 20

/-- The tag predicate: every requested key and value is a tag of the trace. -/
def blockTrace.matchesTags (req : List (String × String)) (t : blockTrace) : Bool :=
  req.all (fun kv => t.tags.any (fun g => g.key == kv.1 && g.value == kv.2))

/-- The partial matches of one shard. -/
def block.search (req : List (String × String)) (b : block) : List TraceID :=
  (b.traces.filter (blockTrace.matchesTags req)).map (fun t => t.traceID)

/-- Merge the partial matches of a shard into the results; a trace ID already present is
not added again. -/
def mergeResults : List TraceID → List TraceID → List TraceID
  | acc, [] => acc
  | acc, id :: ids => if id ∈ acc then mergeResults acc ids else mergeResults (acc ++ [id]) ids

/-- The results gathered so far and the inspected counts. -/
structure searchState where
  results : List TraceID
  inspectedTraces : Nat
  inspectedBytes : Nat
deriving DecidableEq, Repr

/-- Modelled from the spec: the shards are searched one after the other; once the limit
is reached no further shard is searched and the results gathered are returned. -/
def searchShards (req : List (String × String)) (limit : Nat) :
    List block → searchState → searchState
  | [], st => st
  | b :: bs, st =>
    if limit ≤ st.results.length then st
    else
      searchShards req limit bs
        { results := (mergeResults st.results (b.search req)).take limit
          inspectedTraces := st.inspectedTraces + b.traces.length
          inspectedBytes := st.inspectedBytes + b.bytes }

/-- Modelled from the spec: the shards of a search, the head block, each completing block
and each completed block.  Live traces are not searched: `TestInstanceSearchTraceQL`
finds no trace before `CutCompleteTraces`, and `TestInstanceSearchMetrics` inspects none
("we don't search live traces"). -/
def Instance.shards (i : Instance) : List block :=
  i.headBlock :: (i.completingBlocks ++ i.completeBlocks)

/-- Modelled from the spec: `Search(ctx, request)` with a tag predicate. -/
def Instance.Search (i : Instance) (req : SearchRequest) : SearchResponse :=
  let limit := if req.Limit = 0 then defaultLimit else req.Limit
  let st := searchShards req.Tags limit i.shards
    { results := [], inspectedTraces := 0, inspectedBytes := 0 }
  { Traces := st.results
    Metrics := { InspectedTraces := st.inspectedTraces, InspectedBytes := st.inspectedBytes } }

/-! ### Tag names and tag values -/

/-- The static vocabulary of the "intrinsic" scope. -/
def intrinsics : List String :=
  ["duration", "kind", "name", "status", "traceDuration", "rootServiceName", "rootName"]

/-- Modelled from the spec: a collector of distinct strings under a byte budget
(`maxLen = 0`: no budget).  A new string adds its length to the total; it is kept when
the total still fits the budget. -/
structure DistinctStringCollector where
  values : List String
  totalLen : Nat
  maxLen : Nat
deriving DecidableEq, Repr

def NewDistinctStringCollector (maxLen : Nat) : DistinctStringCollector :=
  { values := [], totalLen := 0, maxLen := maxLen }

def DistinctStringCollector.Collect (d : DistinctStringCollector) (s : String) :
    DistinctStringCollector :=
  if s ∈ d.values then d
  else if 0 < d.maxLen ∧ d.maxLen < d.totalLen + s.utf8ByteSize then
    { d with totalLen := d.totalLen + s.utf8ByteSize }
  else { d with values := d.values ++ [s], totalLen := d.totalLen + s.utf8ByteSize }

/-- Collect a sequence of strings in order. -/
def DistinctStringCollector.CollectAll (d : DistinctStringCollector) (l : List String) :
    DistinctStringCollector :=
  l.foldl DistinctStringCollector.Collect d

/-- The shards of a tag query: at most `MaxBlocksPerTagValuesQuery` of them. -/
def Instance.tagShards (i : Instance) : List block :=
  if i.limits.MaxBlocksPerTagValuesQuery = 0 then i.shards
  else i.shards.take i.limits.MaxBlocksPerTagValuesQuery

/-- All tags stored in the shards of a tag query, in order. -/
def Instance.storedTags (i : Instance) : List Tag :=
  i.tagShards.flatMap (fun b => b.traces.flatMap (fun t => t.tags))

/-- Modelled from the spec: `SearchTags(ctx, scope)`; `orgID` is the tenant carried by the
context, which tag queries require.  The "intrinsic" scope returns the static vocabulary
without reading any block; an unknown scope is an error. -/
def Instance.SearchTags (i : Instance) (orgID : Option String) (scope : String) :
    Except Error (List String) :=
  match orgID with
  | none => Except.error Error.InvalidArgument
  | some _ =>
    if scope = "intrinsic" then Except.ok intrinsics
    else if scope = "" ∨ scope = "none" then
      Except.ok ((NewDistinctStringCollector i.limits.MaxBytesPerTagValuesQuery).CollectAll
        (i.storedTags.map (fun g => g.key))).values
    else if scope = "span" ∨ scope = "resource" then
      Except.ok ((NewDistinctStringCollector i.limits.MaxBytesPerTagValuesQuery).CollectAll
        ((i.storedTags.filter (fun g => g.scope = scope)).map (fun g => g.key))).values
    else Except.error Error.InvalidArgument

/-- Modelled from the spec: `SearchTagValues(ctx, tagName)`: the distinct values of the
tag, collected under the tenant's `MaxBytesPerTagValuesQuery` budget; a query that runs
over the budget returns the values collected, not an error. -/
def Instance.SearchTagValues (i : Instance) (orgID : Option String) (tagName : String) :
    Except Error (List String) :=
  match orgID with
  | none => Except.error Error.InvalidArgument
  | some _ =>
    Except.ok ((NewDistinctStringCollector i.limits.MaxBytesPerTagValuesQuery).CollectAll
      ((i.storedTags.filter (fun g => g.key = tagName)).map (fun g => g.value))).values

/-- The total byte length of a list of strings. -/
def totalBytes (l : List String) : Nat := (l.map String.utf8ByteSize).sum

/-! ### Sequences of calls -/

/-- A call of the push and cut workers. -/
inductive Op where
  | PushBytes (now : Nat) (id : TraceID) (payload : Option (List Tag))
  | CutCompleteTraces (now cutoff : Nat) (immediate : Bool)
deriving DecidableEq, Repr

/-- The instance after one call; a push that fails leaves it unchanged. -/
def Instance.step (i : Instance) : Op → Instance
  | Op.PushBytes now id payload =>
    match i.PushBytes now id payload with
    | Except.ok i' => i'
    | Except.error _ => i
  | Op.CutCompleteTraces now cutoff immediate => i.CutCompleteTraces now cutoff immediate

/-- The instance after a sequence of calls. -/
def Instance.run (i : Instance) (ops : List Op) : Instance := ops.foldl Instance.step i

/-- A push: time, trace ID and decoded fragment. -/
structure Push where
  now : Nat
  id : TraceID
  payload : Option (List Tag)
deriving DecidableEq, Repr

/-- The instance after a sequence of pushes. -/
def Instance.pushAll (i : Instance) (ps : List Push) : Instance :=
  i.run (ps.map (fun p => Op.PushBytes p.now p.id p.payload))

/-- The trace IDs of the live entries whose fragments match the tags, in live order. -/
def Instance.liveMatches (i : Instance) (req : List (String × String)) : List TraceID :=
  ((i.traces.map liveTrace.combine).filter (blockTrace.matchesTags req)).map
    (fun t => t.traceID)

/-- The invariant of the live table: the counter is the size of the live map, and the
live map holds every trace ID once. -/
def LiveInv (i : Instance) : Prop :=
  i.traceCount = (i.traces.length : Int) ∧ (i.traces.map (fun t => t.traceID)).Nodup

/-- All matches stored in the shards, each trace ID once: what a search without limit
gathers. -/
def Instance.allMatches (i : Instance) (req : List (String × String)) : List TraceID :=
  mergeResults [] (i.shards.flatMap (block.search req))

/-- The number of traces in the shards of a search. -/
def Instance.storedTraces (i : Instance) : Nat :=
  (i.shards.map (fun b => b.traces.length)).sum

/-- What a search returns: the trace IDs and the inspected-trace count. -/
def Instance.SearchGives (i : Instance) (req : SearchRequest) (traces : List TraceID)
    (inspected : Nat) : Prop :=
  (i.Search req).Traces = traces ∧ (i.Search req).Metrics.InspectedTraces = inspected

/-- The block that a forced cut of all live traces of `i` writes into an empty head
block with id `id`. -/
def Instance.cutBlock (i : Instance) (id : Nat) : block :=
  { blockID := id, traces := i.traces.map liveTrace.combine }

/-- The pushes of a sequence that the instance accepts, in order: trace ID and
fragment. -/
def Instance.accepted (i : Instance) : List Push → List (TraceID × List Tag)
  | [] => []
  | p :: ps =>
    match i.PushBytes p.now p.id p.payload with
    | Except.ok i' => (p.id, p.payload.getD []) :: i'.accepted ps
    | Except.error _ => i.accepted ps

/-- The fragments accepted for one trace ID, in push order. -/
def fragmentsOf (acc : List (TraceID × List Tag)) (id : TraceID) : List (List Tag) :=
  (acc.filter (fun a => a.1 = id)).map (fun a => a.2)

/-- The fragments held live for one trace ID. -/
def Instance.liveFragments (i : Instance) (id : TraceID) : List (List Tag) :=
  ((i.traces.find? (fun t => t.traceID = id)).map (fun t => t.fragments)).getD []

/-! ### Concrete inputs -/

/-- A 16 byte trace ID ending in `n`. -/
def someID (n : Nat) : TraceID := List.replicate 15 0 ++ [n]

/-- The span tag `foo = v`. -/
def fooTag (v : String) : Tag := { scope := "span", key := "foo", value := v }

/-- Limits without any cap. -/
def noLimits : Limits :=
  { MaxLocalTracesPerUser := 0, MaxBytesPerTagValuesQuery := 0, MaxBlocksPerTagValuesQuery := 0 }

/-- The request of `TestInstanceSearch`: tag `foo = bar`. -/
def fooBar (limit : Nat) : SearchRequest := { Tags := [("foo", "bar")], Limit := limit }

/-- Three pushes: trace 1 with `foo = bar`, trace 2 with `foo = baz`, and a second
fragment of trace 1. -/
def somePushes : List Push :=
  [{ now := 1, id := someID 1, payload := some [fooTag "bar"] },
   { now := 2, id := someID 2, payload := some [fooTag "baz"] },
   { now := 3, id := someID 1, payload := some [fooTag "qux"] }]

/-- The instance after `somePushes` and a forced cut. -/
def stageHead : Instance := ((newInstance noLimits).pushAll somePushes).CutCompleteTraces 4 0 true

/-- The instance after the head block of `stageHead` has been cut. -/
def stageCompleting : Instance := (stageHead.CutBlockIfReady 0 0 true).1

/-- The instance after the block cut has been completed, before its completing copy is
cleared. -/
def stageCompleted : Instance :=
  { stageCompleting with completeBlocks := [((newInstance noLimits).pushAll somePushes).cutBlock 1] }

/-- The instance after the completing copy has been cleared. -/
def stageCleared : Instance := { stageCompleted with completingBlocks := [] }

/-- The pushes of `writeTracesForSearch` with post-fixed values: trace `j` carries the
tag `foo = bar<j>`, for `j` from 0 to 99. -/
def hundredPushes : List Push :=
  (List.range 100).map
    (fun j => { now := j, id := someID j, payload := some [fooTag ("bar" ++ toString j)] })

/-- The instance of `TestInstanceSearchMaxBytesPerTagValuesQueryReturnsPartial`: a budget
of 10 bytes, the hundred traces pushed and cut. -/
def budgetInstance : Instance :=
  ((newInstance { noLimits with MaxBytesPerTagValuesQuery := 10 }).pushAll
    hundredPushes).CutCompleteTraces 100 0 true

end ingester

namespace app

/-! ## Config checks

`CheckConfig` of `cmd/tempo/app/config.go`.  The configuration structs of the modules are
declared in other packages; they are given here with the fields `CheckConfig` reads.  A
`time.Duration` and a Go `int` are an `Int`, a `uint` and a `uint32` are a `Nat`: the
function compares these values with each other and with constants and does no arithmetic
on them. -/

/-- Go struct `ingester.Config`: the field `CheckConfig` reads. -/
structure ingester.Config where
  CompleteBlockTimeout : Int
deriving DecidableEq, Repr

/-- Go struct `distributor.Config`: the field `CheckConfig` reads. -/
structure distributor.Config where
  LogReceivedTraces : Bool
deriving DecidableEq, Repr

/-- Go struct `common.BlockConfig`: the fields `CheckConfig` reads. -/
structure common.BlockConfig where
  Version : String
  IndexDownsampleBytes : Int
  IndexPageSizeBytes : Int
deriving DecidableEq, Repr

/-- Go struct `tempodb.Config`, the type of `storage.Config.Trace`: the fields
`CheckConfig` reads. -/
structure tempodb.Config where
  BlocklistPoll : Int
  BlocklistPollConcurrency : Nat
  Backend : String
  Block : common.BlockConfig
deriving DecidableEq, Repr

/-- Go struct `storage.Config`. -/
structure storage.Config where
  Trace : tempodb.Config
deriving DecidableEq, Repr

/-- Go struct `tempodb.CompactorConfig`: the fields `CheckConfig` reads, and next to
`BlockRetention` the field `CompactedBlockRetention`, the time a block that has been
compacted is kept, which `CheckConfig` does not read. -/
structure tempodb.CompactorConfig where
  ChunkSizeBytes : Nat
  FlushSizeBytes : Nat
  IteratorBufferSize : Int
  BlockRetention : Int
  CompactedBlockRetention : Int
  RetentionConcurrency : Nat
deriving DecidableEq, Repr

/-- Go struct `compactor.Config`. -/
structure compactor.Config where
  Compactor : tempodb.CompactorConfig
deriving DecidableEq, Repr

/-- Go struct `Config`, the root config: the fields `CheckConfig` reads. -/
structure Config where
  Target : String
  Distributor : distributor.Config
  Compactor : compactor.Config
  Ingester : ingester.Config
  StorageConfig : storage.Config
deriving DecidableEq, Repr

/-- The constants of other files that `CheckConfig` and the warnings refer to:
`SingleBinary` of this package, `common.DefaultIndexDownSampleBytes`,
`common.DefaultIndexPageSizeBytes` and `tempodb.DefaultChunkSizeBytes`,
`tempodb.DefaultFlushSizeBytes`, `tempodb.DefaultIteratorBufferSize`,
`tempodb.DefaultRetentionConcurrency`, `tempodb.DefaultBlocklistPollConcurrency`.
Their values are not fixed here. -/
structure Constants where
  SingleBinary : String
  DefaultIndexDownSampleBytes : Int
  DefaultIndexPageSizeBytes : Int
  DefaultChunkSizeBytes : Nat
  DefaultFlushSizeBytes : Nat
  DefaultIteratorBufferSize : Int
  DefaultRetentionConcurrency : Nat
  DefaultBlocklistPollConcurrency : Nat
deriving DecidableEq, Repr

/-- Go struct `ConfigWarning`: message and explanation. -/
structure ConfigWarning where
  Message : String
  Explain : String
deriving DecidableEq, Repr

def warnCompleteBlockTimeout : ConfigWarning :=
  { Message := "ingester.complete_block_timeout < storage.trace.blocklist_poll",
    Explain := "You may receive 404s between the time the ingesters have flushed a trace and the querier is aware of the new block" }

def warnBlockRetention : ConfigWarning :=
  { Message := "compactor.compaction.compacted_block_timeout < storage.trace.blocklist_poll",
    Explain := "Queriers and Compactors may attempt to read a block that no longer exists" }

/-- The explanation is `fmt.Sprintf("default=%d", tempodb.DefaultRetentionConcurrency)`. -/
def warnRetentionConcurrency (k : Constants) : ConfigWarning :=
  { Message := "c.Compactor.Compactor.RetentionConcurrency must be greater than zero. Using default.",
    Explain := "default=" ++ toString k.DefaultRetentionConcurrency }

def warnStorageTraceBackendS3 : ConfigWarning :=
  { Message := "c.Compactor.Compactor.FlushSizeBytes < 5242880",
    Explain := "Compaction flush size should be 5MB or higher for S3 backend" }

/-- The explanation is
`fmt.Sprintf("default=%d", tempodb.DefaultBlocklistPollConcurrency)`. -/
def warnBlocklistPollConcurrency (k : Constants) : ConfigWarning :=
  { Message := "c.StorageConfig.Trace.BlocklistPollConcurrency must be greater than zero. Using default.",
    Explain := "default=" ++ toString k.DefaultBlocklistPollConcurrency }

def warnLogReceivedTraces : ConfigWarning :=
  { Message := "c.Distributor.LogReceivedTraces is deprecated. The new flag is c.Distributor.log_received_spans.enabled",
    Explain := "" }

def warnStorageTraceBackendLocal : ConfigWarning :=
  { Message := "Local backend will not correctly retrieve traces with a distributed deployment unless all components have access to the same disk. You should probably be using object storage as a backend.",
    Explain := "" }

/-- Go `newV2Warning`. -/
def newV2Warning (setting : String) : ConfigWarning :=
  { Message := "c.StorageConfig.Trace.Block.Version != \"v2\" but " ++ setting ++ " is set",
    Explain := "This setting is only used in v2 blocks" }

/-- Go `(*Config).CheckConfig`. -/
def Config.CheckConfig (c : Config) (k : Constants) : List ConfigWarning :=
  let warnings : List ConfigWarning := []
  let warnings :=
    if c.Ingester.CompleteBlockTimeout < c.StorageConfig.Trace.BlocklistPoll then
      warnings ++ [warnCompleteBlockTimeout]
    else warnings
  let warnings :=
    if c.Compactor.Compactor.BlockRetention < c.StorageConfig.Trace.BlocklistPoll then
      warnings ++ [warnBlockRetention]
    else warnings
  let warnings :=
    if c.Compactor.Compactor.RetentionConcurrency = 0 then
      warnings ++ [warnRetentionConcurrency k]
    else warnings
  let warnings :=
    if c.StorageConfig.Trace.Backend = "s3" ∧ c.Compactor.Compactor.FlushSizeBytes < 5242880 then
      warnings ++ [warnStorageTraceBackendS3]
    else warnings
  let warnings :=
    if c.StorageConfig.Trace.BlocklistPollConcurrency = 0 then
      warnings ++ [warnBlocklistPollConcurrency k]
    else warnings
  let warnings :=
    if c.Distributor.LogReceivedTraces = true then
      warnings ++ [warnLogReceivedTraces]
    else warnings
  let warnings :=
    if c.StorageConfig.Trace.Backend = "local" ∧ c.Target ≠ k.SingleBinary then
      warnings ++ [warnStorageTraceBackendLocal]
    else warnings
  -- check v2 specific settings
  let warnings :=
    if c.StorageConfig.Trace.Block.Version ≠ "v2" ∧
        c.StorageConfig.Trace.Block.IndexDownsampleBytes ≠ k.DefaultIndexDownSampleBytes then
      warnings ++ [newV2Warning "v2_index_downsample_bytes"]
    else warnings
  let warnings :=
    if c.StorageConfig.Trace.Block.Version ≠ "v2" ∧
        c.StorageConfig.Trace.Block.IndexPageSizeBytes ≠ k.DefaultIndexPageSizeBytes then
      warnings ++ [newV2Warning "v2_index_page_size_bytes"]
    else warnings
  let warnings :=
    if c.StorageConfig.Trace.Block.Version ≠ "v2" ∧
        c.Compactor.Compactor.ChunkSizeBytes ≠ k.DefaultChunkSizeBytes then
      warnings ++ [newV2Warning "v2_in_buffer_bytes"]
    else warnings
  let warnings :=
    if c.StorageConfig.Trace.Block.Version ≠ "v2" ∧
        c.Compactor.Compactor.FlushSizeBytes ≠ k.DefaultFlushSizeBytes then
      warnings ++ [newV2Warning "v2_out_buffer_bytes"]
    else warnings
  let warnings :=
    if c.StorageConfig.Trace.Block.Version ≠ "v2" ∧
        c.Compactor.Compactor.IteratorBufferSize ≠ k.DefaultIteratorBufferSize then
      warnings ++ [newV2Warning "v2_prefetch_traces_count"]
    else warnings
  warnings

/-! ### Helpers for stating properties of the checks -/

/-- The twelve warnings `CheckConfig` can append, in the order of its `if` statements. -/
def allWarnings (k : Constants) : List ConfigWarning :=
  [warnCompleteBlockTimeout, warnBlockRetention, warnRetentionConcurrency k,
   warnStorageTraceBackendS3, warnBlocklistPollConcurrency k, warnLogReceivedTraces,
   warnStorageTraceBackendLocal, newV2Warning "v2_index_downsample_bytes",
   newV2Warning "v2_index_page_size_bytes", newV2Warning "v2_in_buffer_bytes",
   newV2Warning "v2_out_buffer_bytes", newV2Warning "v2_prefetch_traces_count"]

/-! ### Concrete inputs -/

/-- Values for the constants, used by the concrete inputs. -/
def sampleConstants : Constants :=
  { SingleBinary := "all",
    DefaultIndexDownSampleBytes := 1048576,
    DefaultIndexPageSizeBytes := 256000,
    DefaultChunkSizeBytes := 5242880,
    DefaultFlushSizeBytes := 20971520,
    DefaultIteratorBufferSize := 1000,
    DefaultRetentionConcurrency := 10,
    DefaultBlocklistPollConcurrency := 50 }

/-- A config that draws no warning under `sampleConstants`: durations in nanoseconds,
blocklist poll 5 minutes, complete block timeout 15 minutes, block retention 14 days,
compacted block retention one hour. -/
def quietConfig : Config :=
  { Target := "all",
    Distributor := { LogReceivedTraces := false },
    Compactor := { Compactor :=
      { ChunkSizeBytes := 5242880, FlushSizeBytes := 20971520, IteratorBufferSize := 1000,
        BlockRetention := 1209600000000000, CompactedBlockRetention := 3600000000000,
        RetentionConcurrency := 10 } },
    Ingester := { CompleteBlockTimeout := 900000000000 },
    StorageConfig := { Trace :=
      { BlocklistPoll := 300000000000, BlocklistPollConcurrency := 50, Backend := "s3",
        Block := { Version := "vParquet2", IndexDownsampleBytes := 1048576,
                   IndexPageSizeBytes := 256000 } } } }

/-- The config `quietConfig` with the compacted block retention lowered to one minute,
below the blocklist poll. -/
def shortCompactedRetention : Config :=
  { quietConfig with Compactor := { Compactor :=
      { quietConfig.Compactor.Compactor with CompactedBlockRetention := 60000000000 } } }

/-- The config `quietConfig` with the block retention lowered to one minute, below the
blocklist poll; the compacted block retention stays at one hour. -/
def shortBlockRetention : Config :=
  { quietConfig with Compactor := { Compactor :=
      { quietConfig.Compactor.Compactor with BlockRetention := 60000000000 } } }

/-- The config `noisyConfig` below with the block version set to "v2". -/
def v2Config : Config :=
  { Target := "querier",
    Distributor := { LogReceivedTraces := true },
    Compactor := { Compactor :=
      { ChunkSizeBytes := 1, FlushSizeBytes := 1, IteratorBufferSize := 1,
        BlockRetention := 0, CompactedBlockRetention := 0, RetentionConcurrency := 0 } },
    Ingester := { CompleteBlockTimeout := 0 },
    StorageConfig := { Trace :=
      { BlocklistPoll := 300000000000, BlocklistPollConcurrency := 0, Backend := "local",
        Block := { Version := "v2", IndexDownsampleBytes := 1,
                   IndexPageSizeBytes := 1 } } } }

/-- A distributed deployment on the local backend with every other check failing too:
eleven warnings. -/
def noisyConfig : Config :=
  { Target := "querier",
    Distributor := { LogReceivedTraces := true },
    Compactor := { Compactor :=
      { ChunkSizeBytes := 1, FlushSizeBytes := 1, IteratorBufferSize := 1,
        BlockRetention := 0, CompactedBlockRetention := 0, RetentionConcurrency := 0 } },
    Ingester := { CompleteBlockTimeout := 0 },
    StorageConfig := { Trace :=
      { BlocklistPoll := 300000000000, BlocklistPollConcurrency := 0, Backend := "local",
        Block := { Version := "vParquet2", IndexDownsampleBytes := 1,
                   IndexPageSizeBytes := 1 } } } }

end app

namespace vparquet

/-! ## cachedReaderAt: the section table -/

theorem OffsetMap.index_assign (m : OffsetMap) (k v off : Int) :
    OffsetMap.index (OffsetMap.assign m k v) off = if off = k then v else OffsetMap.index m off := by
  unfold OffsetMap.index OffsetMap.assign
  by_cases h : off = k
  · subst h
    simp [List.lookup]
  · have hb : (off == k) = false := by simpa using h
    simp [List.lookup, hb, h]

theorem cachedReaderAt.declare_cachedObjects {σ : Type} (r : cachedReaderAt σ)
    (c : SectionCall) :
    (r.declare c).cachedObjects =
      if r.cacheControl.enabled c.kind then r.cachedObjects.assign c.offset c.length
      else r.cachedObjects := by
  cases hk : c.kind <;>
    simp only [cachedReaderAt.declare, hk, CacheControl.enabled,
      cachedReaderAt.SetFooterSection, cachedReaderAt.SetColumnIndexSection,
      cachedReaderAt.SetOffsetIndexSection] <;>
    split <;> rfl

theorem cachedReaderAt.declare_frame {σ : Type} (r : cachedReaderAt σ) (c : SectionCall) :
    (r.declare c).r = r.r ∧ (r.declare c).br = r.br ∧
      (r.declare c).cacheControl = r.cacheControl := by
  cases hk : c.kind <;>
    simp only [cachedReaderAt.declare, hk, cachedReaderAt.SetFooterSection,
      cachedReaderAt.SetColumnIndexSection, cachedReaderAt.SetOffsetIndexSection] <;>
    split <;> exact ⟨rfl, rfl, rfl⟩

theorem cachedReaderAt.declareAll_frame {σ : Type} (cs : List SectionCall) :
    ∀ r : cachedReaderAt σ, (r.declareAll cs).r = r.r ∧ (r.declareAll cs).br = r.br ∧
      (r.declareAll cs).cacheControl = r.cacheControl := by
  induction cs with
  | nil => intro r; exact ⟨rfl, rfl, rfl⟩
  | cons c cs ih =>
    intro r
    have h1 := ih (r.declare c)
    have h2 := cachedReaderAt.declare_frame r c
    simp only [cachedReaderAt.declareAll, List.foldl_cons] at h1 ⊢
    exact ⟨h1.1.trans h2.1, h1.2.1.trans h2.2.1, h1.2.2.trans h2.2.2⟩

theorem cachedReaderAt.declareAll_append {σ : Type} (r : cachedReaderAt σ)
    (xs ys : List SectionCall) :
    r.declareAll (xs ++ ys) = (r.declareAll xs).declareAll ys := by
  simp [cachedReaderAt.declareAll, List.foldl_append]

/-- Later declarations keep the length stored under `off` as long as each of them that
names `off` carries the same length. -/
theorem cachedReaderAt.declareAll_index_keep {σ : Type} (off len : Int)
    (cs : List SectionCall) :
    ∀ r : cachedReaderAt σ, r.cachedObjects.index off = len →
      (∀ d ∈ cs, d.offset = off → d.length = len) →
      (r.declareAll cs).cachedObjects.index off = len := by
  induction cs with
  | nil => intro r h _; exact h
  | cons c cs ih =>
    intro r h hall
    have hstep : (r.declare c).cachedObjects.index off = len := by
      rw [cachedReaderAt.declare_cachedObjects]
      split
      · rw [OffsetMap.index_assign]
        split
        · next heq => exact hall c (List.mem_cons_self _ _) heq.symm
        · exact h
      · exact h
    have := ih (r.declare c) hstep (fun d hd => hall d (List.mem_cons_of_mem _ hd))
    simpa [cachedReaderAt.declareAll] using this

/-- The length stored under `off` is either the zero value of a fresh map or the length
of some declaration at `off`. -/
theorem cachedReaderAt.declareAll_index_cases {σ : Type} (off : Int)
    (cs : List SectionCall) :
    ∀ r : cachedReaderAt σ,
      (r.declareAll cs).cachedObjects.index off = r.cachedObjects.index off ∨
      ∃ d ∈ cs, d.offset = off ∧ d.length = (r.declareAll cs).cachedObjects.index off := by
  induction cs with
  | nil => intro r; exact Or.inl rfl
  | cons c cs ih =>
    intro r
    have hd : r.declareAll (c :: cs) = (r.declare c).declareAll cs := by
      simp [cachedReaderAt.declareAll]
    rw [hd]
    rcases ih (r.declare c) with h | ⟨d, hd1, hd2, hd3⟩
    · rw [h, cachedReaderAt.declare_cachedObjects]
      split
      · rw [OffsetMap.index_assign]
        split
        · next heq =>
          exact Or.inr ⟨c, List.mem_cons_self _ _, heq.symm, rfl⟩
        · exact Or.inl rfl
      · exact Or.inl rfl
    · exact Or.inr ⟨d, List.mem_cons_of_mem _ hd1, hd2, hd3⟩

end vparquet

namespace vparquet

/-! ## cachedReaderAt: routing of reads -/

/-- A read of non-zero length that matches no declared section is handed to the
wrapped reader. -/
theorem cachedReaderAt.ReadAt_bypass {σ : Type} (r : ioReaderAt σ) (br : BackendReaderAt σ)
    (cc : CacheControl) (cs : List SectionCall) (p : List Nat) (off : Int) (s : σ)
    (hlen : p.length ≠ 0)
    (hno : ∀ d ∈ cs, ¬ (d.offset = off ∧ d.length = (p.length : Int))) :
    ((newCachedReaderAt r br cc).declareAll cs).ReadAt p off s = r.ReadAt p off s := by
  have hfr := cachedReaderAt.declareAll_frame cs (newCachedReaderAt r br cc)
  have hne : ((newCachedReaderAt r br cc).declareAll cs).cachedObjects.index off
      ≠ (p.length : Int) := by
    rcases cachedReaderAt.declareAll_index_cases off cs (newCachedReaderAt r br cc) with h | h
    · rw [h]
      simp only [newCachedReaderAt, OffsetMap.index, List.lookup, Option.getD_none]
      intro h0
      exact hlen (by exact_mod_cast h0.symm)
    · obtain ⟨d, hd, ho, hl⟩ := h
      intro heq
      exact hno d hd ⟨ho, hl.trans heq⟩
  unfold cachedReaderAt.ReadAt
  rw [if_neg hne, hfr.1]
  rfl

/-- C1: the claim that a read matching no declared section always bypasses the cache,
also for an empty buffer, does not hold of the code.  On a `cachedReaderAt` fresh from
`newCachedReaderAt`, where no section at all has been declared, a read with `len(p) = 0`
at any offset is handed to `BackendReaderAt.ReadAtWithCache`: the map index of the
missing key yields the zero value, which equals `int64(len(p))`.  With recording readers
the one call issued is a `ReadRange` with `shouldCache = true`, and the wrapped reader
receives nothing. -/
theorem C1_empty_read_is_routed_through_cache :
    (∀ (σ : Type) (r : ioReaderAt σ) (br : BackendReaderAt σ) (cc : CacheControl)
        (off : Int) (s : σ),
        (newCachedReaderAt r br cc).ReadAt [] off s
          = (newCachedReaderAt r br cc).viaCache [] off s) ∧
    ((tinyCached cacheAll).ReadAt [] 4 ((), [])).2.2
      = [Call.ReadRange "data.parquet" "b1" "t1" 4 [] true] := by
  refine ⟨?_, ?_⟩
  · intro σ r br cc off s
    simp [cachedReaderAt.ReadAt, cachedReaderAt.viaCache, newCachedReaderAt,
      OffsetMap.index, List.lookup]
  · rfl

/-- C2, counterexample: with all three kinds enabled, a footer section `(8, 4)` is
declared and then a column index section `(8, 8)` at the same offset.  The later read
with `len(p) = 4` at offset 8 is not routed through the cache: the only call issued is
a `ReadAt` on the wrapped reader. -/
theorem C2_counterexample_same_offset_redeclared :
    (((tinyCached cacheAll).declareAll
        [{ kind := SectionKind.Footer, offset := 8, length := 4 },
         { kind := SectionKind.ColumnIndex, offset := 8, length := 8 }]).ReadAt
        [0, 0, 0, 0] 8 ((), [])).2.2
      = [Call.ReadAt [0, 0, 0, 0] 8] := by
  rfl

/-- C2, amended: for every sequence of `Set*Section` calls on a `cachedReaderAt` whose
cache control enables all three kinds, a declared `(offset, length)` range is routed
through the cache by a later `ReadAt` with `len(p) = length` at that offset, whatever
was declared before it, provided no later declaration names the same offset with a
different length.  The read is `r.br.ReadAtWithCache(p, offset)`; with recording readers
the one call issued is a `ReadRange` with `shouldCache = true`. -/
theorem C2_declared_section_is_routed_through_cache {σ : Type} (r : ioReaderAt σ)
    (br : BackendReaderAt σ) (cc : CacheControl) (pre post : List SectionCall)
    (c : SectionCall) (p : List Nat) (s : σ)
    (hcc : cc.Footer = true ∧ cc.ColumnIndex = true ∧ cc.OffsetIndex = true)
    (hp : (p.length : Int) = c.length)
    (hpost : ∀ d ∈ post, d.offset = c.offset → d.length = c.length) :
    ((newCachedReaderAt r br cc).declareAll (pre ++ c :: post)).ReadAt p c.offset s
      = ((br.ReadAtWithCache p c.offset s).1, (br.ReadAtWithCache p c.offset s).2.2) := by
  have hsplit : (newCachedReaderAt r br cc).declareAll (pre ++ c :: post)
      = ((((newCachedReaderAt r br cc).declareAll pre).declare c).declareAll post) := by
    simp [cachedReaderAt.declareAll, List.foldl_append]
  have hfr0 := cachedReaderAt.declareAll_frame pre (newCachedReaderAt r br cc)
  have hfr1 := cachedReaderAt.declare_frame ((newCachedReaderAt r br cc).declareAll pre) c
  have hfr2 := cachedReaderAt.declareAll_frame post
    (((newCachedReaderAt r br cc).declareAll pre).declare c)
  have hen : ((newCachedReaderAt r br cc).declareAll pre).cacheControl.enabled c.kind
      = true := by
    rw [hfr0.2.2]
    cases c.kind <;> simp [CacheControl.enabled, newCachedReaderAt, hcc.1, hcc.2.1, hcc.2.2]
  have h1 : (((newCachedReaderAt r br cc).declareAll pre).declare c).cachedObjects.index
      c.offset = c.length := by
    rw [cachedReaderAt.declare_cachedObjects, if_pos hen, OffsetMap.index_assign, if_pos rfl]
  have h2 := cachedReaderAt.declareAll_index_keep c.offset c.length post _ h1 hpost
  unfold cachedReaderAt.ReadAt
  rw [hsplit, if_pos (h2.trans hp.symm), hfr2.2.1, hfr1.2.1, hfr0.2.1]
  rfl

/-- C2, witness: footer `(12, 4)`, column index `(4, 4)`, offset index `(8, 4)` are
declared; the read of the column index section is served through the cache. -/
theorem C2_declared_section_is_routed_through_cache_witness :
    (((tinyCached cacheAll).declareAll
        ([{ kind := SectionKind.Footer, offset := 12, length := 4 }] ++
          { kind := SectionKind.ColumnIndex, offset := 4, length := 4 } ::
          [{ kind := SectionKind.OffsetIndex, offset := 8, length := 4 }])).ReadAt
        [0, 0, 0, 0] 4 ((), []))
      = ({ p := [1, 2, 3, 4], n := 4, err := none },
          ((), [Call.ReadRange "data.parquet" "b1" "t1" 4 [0, 0, 0, 0] true])) :=
  (C2_declared_section_is_routed_through_cache (recorded (fileReader tinyFile))
    (NewBackendReaderAt (recordedBackend (fileBackend tinyFile)) "data.parquet" "b1" "t1")
    cacheAll [{ kind := SectionKind.Footer, offset := 12, length := 4 }]
    [{ kind := SectionKind.OffsetIndex, offset := 8, length := 4 }]
    { kind := SectionKind.ColumnIndex, offset := 4, length := 4 } [0, 0, 0, 0] ((), [])
    ⟨rfl, rfl, rfl⟩ rfl (by decide)).trans rfl

end vparquet

namespace vparquet

/-! ## parquetOptimizedReaderAt -/

theorem List.eq_of_length_eight (p : List Nat) (hp : p.length = 8) :
    ∃ a b c d e f g h, p = [a, b, c, d, e, f, g, h] := by
  match p, hp with
  | [a, b, c, d, e, f, g, h], _ => exact ⟨a, b, c, d, e, f, g, h, rfl⟩

/-- C3: for every `parquetOptimizedReaderAt` (any wrapped reader, file size and footer
size) and every buffer `p` with `len(p) = 4`, `ReadAt(p, 0)` returns `(4, nil)` and leaves
`p` equal to the bytes of "PAR1".  The store behind the wrapped reader comes back
unchanged, whatever the wrapped reader is, so the wrapped reader is not called. -/
theorem C3_header_magic_is_answered_locally {σ : Type} (r : parquetOptimizedReaderAt σ)
    (p : List Nat) (s : σ) (hp : p.length = 4) :
    r.ReadAt p 0 s = ({ p := [80, 65, 82, 49], n := 4, err := none }, s) := by
  unfold parquetOptimizedReaderAt.ReadAt
  rw [if_pos ⟨hp, rfl⟩]
  simp [copy, PAR1, hp]

/-- C3, witness: a four byte read at offset 0 of a recording reader over `tinyFile`; the
list of calls received by the wrapped reader stays empty. -/
theorem C3_header_magic_is_answered_locally_witness :
    (newParquetOptimizedReaderAt (recorded (fileReader tinyFile)) 16 0).ReadAt
        [0, 0, 0, 0] 0 ((), [])
      = ({ p := [80, 65, 82, 49], n := 4, err := none }, ((), [])) :=
  C3_header_magic_is_answered_locally
    (newParquetOptimizedReaderAt (recorded (fileReader tinyFile)) 16 0) [0, 0, 0, 0]
    ((), []) rfl

/-- C4, counterexample: a reader of size 16 whose `footerSize` is 0, as for a block meta
written before the field existed.  The eight byte read at offset `16 - 8` is passed to
the wrapped reader, which receives the one call and answers it from the file. -/
theorem C4_counterexample_footer_size_zero :
    (newParquetOptimizedReaderAt (recorded (fileReader tinyFile)) 16 0).ReadAt
        [0, 0, 0, 0, 0, 0, 0, 0] (16 - 8) ((), [])
      = ({ p := [0, 0, 0, 0, 80, 65, 82, 49], n := 8, err := none },
          ((), [Call.ReadAt [0, 0, 0, 0, 0, 0, 0, 0] 8])) := by
  rfl

/-- C4, amended: for every `parquetOptimizedReaderAt` with file size `s` and
`footerSize > 0`, and every buffer `p` with `len(p) = 8`, the footer-magic read
`ReadAt(p, s-8)` (the difference taken in `int64`, as the source does) returns `(8, nil)`
with `p` holding the four little-endian bytes of the footer size followed by "PAR1".
The store behind the wrapped reader comes back unchanged, so the wrapped reader is not
called. -/
theorem C4_footer_magic_is_answered_locally {σ : Type} (r : parquetOptimizedReaderAt σ)
    (p : List Nat) (s : σ) (hp : p.length = 8) (hf : r.footerSize > 0) :
    r.ReadAt p (int64 (r.readerSize - 8)) s
      = ({ p := [r.footerSize % 256, r.footerSize / 256 % 256, r.footerSize / 65536 % 256,
                 r.footerSize / 16777216 % 256, 80, 65, 82, 49],
           n := 8, err := none }, s) := by
  obtain ⟨a, b, c, d, e, f, g, h, rfl⟩ := List.eq_of_length_eight p hp
  unfold parquetOptimizedReaderAt.ReadAt
  rw [if_neg (by simp), if_pos ⟨rfl, rfl, hf⟩]
  simp [PutUint32, copy, PAR1]

/-- C4, witness: size 16, footer size 258; the read at offset 8 yields
`02 01 00 00 "PAR1"` and the wrapped reader receives no call. -/
theorem C4_footer_magic_is_answered_locally_witness :
    (newParquetOptimizedReaderAt (recorded (fileReader tinyFile)) 16 258).ReadAt
        [0, 0, 0, 0, 0, 0, 0, 0] 8 ((), [])
      = ({ p := [2, 1, 0, 0, 80, 65, 82, 49], n := 8, err := none }, ((), [])) :=
  C4_footer_magic_is_answered_locally
    (newParquetOptimizedReaderAt (recorded (fileReader tinyFile)) 16 258)
    [0, 0, 0, 0, 0, 0, 0, 0] ((), []) rfl (by decide)

end vparquet

namespace vparquet

/-! ## Byte accounting -/

theorem uint64_natCast (n : Nat) : uint64 (n : Int) = n % 2 ^ 64 := by
  unfold uint64
  have h : ((n : Int) % (2 ^ 64 : Int)) = ((n % 2 ^ 64 : Nat) : Int) := by
    push_cast
    rfl
  rw [h, Int.toNat_ofNat]

theorem uint64_cast (x : Int) : ((uint64 x : Nat) : Int) = x % 2 ^ 64 := by
  unfold uint64
  exact Int.toNat_of_nonneg (Int.emod_nonneg _ (by norm_num))

theorem BackendReaderAt.ReadAt_bytesRead {σ : Type} (b : BackendReaderAt σ) (p : List Nat)
    (off : Int) (s : σ) :
    (b.ReadAt p off s).2.1.bytesRead = (b.bytesRead + p.length) % 2 ^ 64 := by
  cases hres : (b.r.ReadRange b.name b.blockID b.tenantID (uint64 off) p false s).1.2 <;>
    simp [BackendReaderAt.ReadAt, hres, uint64_natCast, Nat.add_mod]

theorem BackendReaderAt.ReadAt_n_of_ok {σ : Type} (b : BackendReaderAt σ) (p : List Nat)
    (off : Int) (s : σ) (h : (b.ReadAt p off s).1.err = none) :
    (b.ReadAt p off s).1.n = (p.length : Int) := by
  cases hres : (b.r.ReadRange b.name b.blockID b.tenantID (uint64 off) p false s).1.2 <;>
    simp [BackendReaderAt.ReadAt, hres] at h ⊢

theorem BackendReaderAt.ReadAtSeq_bytesRead {σ : Type} (calls : List (List Nat × Int)) :
    ∀ (b : BackendReaderAt σ) (s : σ), b.bytesRead < 2 ^ 64 →
      (b.ReadAtSeq calls s).2.1.bytesRead = (b.bytesRead + sumLen calls) % 2 ^ 64 := by
  induction calls with
  | nil =>
    intro b s hb
    simp only [BackendReaderAt.ReadAtSeq, sumLen, List.map_nil, List.sum_nil, Nat.add_zero]
    exact (Nat.mod_eq_of_lt hb).symm
  | cons c cs ih =>
    intro b s hb
    have hlt : (b.ReadAt c.1 c.2 s).2.1.bytesRead < 2 ^ 64 := by
      rw [BackendReaderAt.ReadAt_bytesRead]
      exact Nat.mod_lt _ (by norm_num)
    simp only [BackendReaderAt.ReadAtSeq, sumLen, List.map_cons, List.sum_cons]
    rw [ih _ _ hlt, BackendReaderAt.ReadAt_bytesRead]
    simp only [sumLen]
    omega

theorem BackendReaderAt.ReadAtSeq_sumN_of_ok {σ : Type} (calls : List (List Nat × Int)) :
    ∀ (b : BackendReaderAt σ) (s : σ),
      (∀ res ∈ (b.ReadAtSeq calls s).1, res.err = none) →
      sumN (b.ReadAtSeq calls s).1 = (sumLen calls : Int) := by
  induction calls with
  | nil => intro b s _; simp [BackendReaderAt.ReadAtSeq, sumN, sumLen]
  | cons c cs ih =>
    intro b s h
    simp only [BackendReaderAt.ReadAtSeq, List.mem_cons, forall_eq_or_imp] at h
    have h1 := BackendReaderAt.ReadAt_n_of_ok b c.1 c.2 s h.1
    have h2 := ih _ _ h.2
    simp only [sumN, sumLen, BackendReaderAt.ReadAtSeq, List.map_cons, List.sum_cons,
      Nat.cast_add] at h2 ⊢
    rw [h1, h2]

/-- C5, counterexample: the backend object does not exist, so the range read fails.
One `ReadAt` with a four byte buffer returns `n = 0`, yet `BytesRead()` is 4: the counter
is not the sum of the byte counts returned. -/
theorem C5_counterexample_failed_read_is_counted :
    ((NewBackendReaderAt missingBackend "data.parquet" "b1" "t1").ReadAt
        [0, 0, 0, 0] 0 ()).1.n = 0 ∧
    ((NewBackendReaderAt missingBackend "data.parquet" "b1" "t1").ReadAt
        [0, 0, 0, 0] 0 ()).2.1.BytesRead = 4 := by
  constructor <;> rfl

/-- C5, amended: for every `BackendReaderAt` fresh from `NewBackendReaderAt` and every
sequence of `ReadAt` calls on it, `BytesRead()` equals the sum of the requested buffer
lengths `len(p)` of those calls, modulo `2 ^ 64`, whether the calls succeed or fail.
When every call of the sequence returned a nil error, that sum is also the sum of the
byte counts `n` the calls returned. -/
theorem C5_bytesRead_is_sum_of_requested_lengths {σ : Type} (r : backendReader σ)
    (name blockID tenantID : String) (calls : List (List Nat × Int)) (s : σ) :
    ((NewBackendReaderAt r name blockID tenantID).ReadAtSeq calls s).2.1.BytesRead
        = sumLen calls % 2 ^ 64 ∧
    ((∀ res ∈ ((NewBackendReaderAt r name blockID tenantID).ReadAtSeq calls s).1,
          res.err = none) →
      sumN ((NewBackendReaderAt r name blockID tenantID).ReadAtSeq calls s).1
        = (sumLen calls : Int)) := by
  refine ⟨?_, BackendReaderAt.ReadAtSeq_sumN_of_ok calls _ s⟩
  have h := BackendReaderAt.ReadAtSeq_bytesRead calls
    (NewBackendReaderAt r name blockID tenantID) s (by simp [NewBackendReaderAt])
  simpa [BackendReaderAt.BytesRead, NewBackendReaderAt] using h

/-- C5, witness: two successful reads of four bytes each from `tinyFile`; the calls
return 4 and 4 and `BytesRead()` is 8. -/
theorem C5_bytesRead_is_sum_of_requested_lengths_witness :
    ((NewBackendReaderAt (fileBackend tinyFile) "data.parquet" "b1" "t1").ReadAtSeq
        [([0, 0, 0, 0], 0), ([0, 0, 0, 0], 4)] ()).2.1.BytesRead = 8 ∧
    sumN ((NewBackendReaderAt (fileBackend tinyFile) "data.parquet" "b1" "t1").ReadAtSeq
        [([0, 0, 0, 0], 0), ([0, 0, 0, 0], 4)] ()).1 = 8 :=
  ⟨(C5_bytesRead_is_sum_of_requested_lengths (fileBackend tinyFile) "data.parquet" "b1"
      "t1" [([0, 0, 0, 0], 0), ([0, 0, 0, 0], 4)] ()).1.trans (by decide),
   ((C5_bytesRead_is_sum_of_requested_lengths (fileBackend tinyFile) "data.parquet" "b1"
      "t1" [([0, 0, 0, 0], 0), ([0, 0, 0, 0], 4)] ()).2 (by decide)).trans (by decide)⟩

end vparquet

namespace vparquet

/-! ## walReaderAt -/

theorem walReaderAt.ReadAt_result {σ : Type} (wr : walReaderAt σ) (p : List Nat) (off : Int)
    (s : σ) :
    (wr.ReadAt p off s).1 = (wr.r.ReadAt p off s).1 ∧
    (wr.ReadAt p off s).2.2 = (wr.r.ReadAt p off s).2 ∧
    (wr.ReadAt p off s).2.1.r = wr.r ∧
    (wr.ReadAt p off s).2.1.bytesRead
      = (wr.bytesRead + uint64 (wr.r.ReadAt p off s).1.n) % 2 ^ 64 :=
  ⟨rfl, rfl, rfl, rfl⟩

theorem walReaderAt.ReadAtSeq_results {σ : Type} (calls : List (List Nat × Int)) :
    ∀ (wr : walReaderAt σ) (s : σ),
      (wr.ReadAtSeq calls s).1 = (wr.r.ReadAtSeq calls s).1 ∧
      (wr.ReadAtSeq calls s).2.2 = (wr.r.ReadAtSeq calls s).2 := by
  induction calls with
  | nil => intro wr s; exact ⟨rfl, rfl⟩
  | cons c cs ih =>
    intro wr s
    have h := ih (wr.ReadAt c.1 c.2 s).2.1 (wr.ReadAt c.1 c.2 s).2.2
    simp only [walReaderAt.ReadAtSeq, ioReaderAt.ReadAtSeq]
    exact ⟨congrArg (List.cons (wr.r.ReadAt c.1 c.2 s).1) h.1, h.2⟩

theorem walReaderAt.ReadAtSeq_counter {σ : Type} (calls : List (List Nat × Int)) :
    ∀ (wr : walReaderAt σ) (s : σ), wr.bytesRead < 2 ^ 64 →
      (((wr.ReadAtSeq calls s).2.1.bytesRead : Nat) : Int)
        = ((wr.bytesRead : Int) + sumN (wr.ReadAtSeq calls s).1) % 2 ^ 64 := by
  induction calls with
  | nil =>
    intro wr s hb
    simp only [walReaderAt.ReadAtSeq, sumN, List.map_nil, List.sum_nil, add_zero]
    rw [Int.emod_eq_of_lt (by positivity) (by exact_mod_cast hb)]
  | cons c cs ih =>
    intro wr s hb
    have hlt : (wr.ReadAt c.1 c.2 s).2.1.bytesRead < 2 ^ 64 :=
      Nat.mod_lt _ (by norm_num)
    have h := ih _ (wr.ReadAt c.1 c.2 s).2.2 hlt
    simp only [walReaderAt.ReadAtSeq, sumN, List.map_cons, List.sum_cons] at h ⊢
    rw [h, (walReaderAt.ReadAt_result wr c.1 c.2 s).2.2.2]
    push_cast
    rw [uint64_cast]
    simp only [sumN, (walReaderAt.ReadAt_result wr c.1 c.2 s).1]
    generalize (List.map (fun r => r.n)
      ((wr.ReadAt c.1 c.2 s).2.1.ReadAtSeq cs (wr.ReadAt c.1 c.2 s).2.2).1).sum = S
    generalize (wr.r.ReadAt c.1 c.2 s).1.n = n
    generalize (wr.bytesRead : Int) = a
    omega

/-- C6: for every `walReaderAt` fresh from `newWalReaderAt` and every sequence of
`ReadAt` calls on it, each call leaves the buffer and returns the `(n, err)` exactly as
the wrapped reader does for the same buffer and offset, and `BytesRead()`, a `uint64`,
is the sum of the returned `n` modulo `2 ^ 64`.  When every returned `n` is non-negative
and the sum fits a `uint64`, `BytesRead()` is that sum itself; the requested lengths
`len(p)` do not enter. -/
theorem C6_wal_reader_counts_returned_bytes {σ : Type} (r : ioReaderAt σ)
    (calls : List (List Nat × Int)) (s : σ) :
    ((newWalReaderAt r).ReadAtSeq calls s).1 = (r.ReadAtSeq calls s).1 ∧
    ((newWalReaderAt r).ReadAtSeq calls s).2.2 = (r.ReadAtSeq calls s).2 ∧
    ((((newWalReaderAt r).ReadAtSeq calls s).2.1.BytesRead : Nat) : Int)
      = sumN (r.ReadAtSeq calls s).1 % 2 ^ 64 ∧
    ((∀ res ∈ (r.ReadAtSeq calls s).1, 0 ≤ res.n) →
      sumN (r.ReadAtSeq calls s).1 < 2 ^ 64 →
      ((((newWalReaderAt r).ReadAtSeq calls s).2.1.BytesRead : Nat) : Int)
        = sumN (r.ReadAtSeq calls s).1) := by
  have hres := walReaderAt.ReadAtSeq_results calls (newWalReaderAt r) s
  have hb := walReaderAt.ReadAtSeq_counter calls (newWalReaderAt r) s
    (by simp [newWalReaderAt])
  have hr : (newWalReaderAt r).r = r := rfl
  rw [hr] at hres
  have hsum : ((((newWalReaderAt r).ReadAtSeq calls s).2.1.BytesRead : Nat) : Int)
      = sumN (r.ReadAtSeq calls s).1 % 2 ^ 64 := by
    simp only [walReaderAt.BytesRead]
    rw [hb, hres.1]
    simp [newWalReaderAt]
  refine ⟨hres.1, hres.2, hsum, ?_⟩
  intro hnn hlt
  rw [hsum]
  refine Int.emod_eq_of_lt ?_ hlt
  unfold sumN
  apply List.sum_nonneg
  intro x hx
  obtain ⟨res, hres1, rfl⟩ := List.mem_map.1 hx
  exact hnn res hres1

/-- C6, witness: an eight byte read at offset 12 of the sixteen byte `tinyFile` is a
short read; the wrapped reader returns `n = 4` with `io.EOF`, the `walReaderAt` returns
the same, and `BytesRead()` is 4 rather than the 8 bytes requested. -/
theorem C6_wal_reader_counts_returned_bytes_witness :
    ((newWalReaderAt (fileReader tinyFile)).ReadAtSeq
        [([0, 0, 0, 0, 0, 0, 0, 0], 12)] ()).1
      = [{ p := [80, 65, 82, 49, 0, 0, 0, 0], n := 4, err := some "EOF" }] ∧
    ((((newWalReaderAt (fileReader tinyFile)).ReadAtSeq
        [([0, 0, 0, 0, 0, 0, 0, 0], 12)] ()).2.1.BytesRead : Nat) : Int) = 4 :=
  ⟨(C6_wal_reader_counts_returned_bytes (fileReader tinyFile)
      [([0, 0, 0, 0, 0, 0, 0, 0], 12)] ()).1.trans (by decide),
   ((C6_wal_reader_counts_returned_bytes (fileReader tinyFile)
      [([0, 0, 0, 0, 0, 0, 0, 0], 12)] ()).2.2.2 (by decide) (by decide)).trans
      (by decide)⟩

end vparquet

namespace vparquet2

/-! ## The model of the combiner against `TestCombiner` -/

/-- The modelled combiner yields the expected total and trace in every case of the
table of `TestCombiner`. -/
theorem combine_passes_TestCombiner :
    (combine none (some Trace.zero)).2 = -1 ∧
    (combine (some Trace.zero) none).2 = -1 ∧
    (combine (some Trace.zero) (some Trace.zero)).2 = 0 ∧
    combine (some case4A) (some case4B) = (some case4B, 0) ∧
    combine (some case5A) (some case5B) = (some case5A, 0) ∧
    combine (some case6A) (some case6B) = (some case6B, 0) ∧
    combine (some case6A) (some case7B) = (some case6A, 0) ∧
    combine (some case8A) (some case8B) = (some case8Expected, 2) := by
  refine ⟨?_, ?_, ?_, ?_, ?_, ?_, ?_, ?_⟩ <;> decide

end vparquet2

namespace vparquet2

/-! ## Span lists of merged and renumbered traces -/

theorem scopeSpans_append (xs ys : List ScopeSpans) :
    scopeSpans (xs ++ ys) = scopeSpans xs ++ scopeSpans ys := by
  induction xs with
  | nil => rfl
  | cons x xs ih => simp [scopeSpans, ih]

theorem batchSpans_append (xs ys : List ResourceSpans) :
    batchSpans (xs ++ ys) = batchSpans xs ++ batchSpans ys := by
  induction xs with
  | nil => rfl
  | cons x xs ih => simp [batchSpans, ih]

theorem relabelSpans_length (f : Nat → Span → Span) (l : List Span) :
    ∀ k, (relabelSpans f k l).length = l.length := by
  induction l with
  | nil => intro k; rfl
  | cons s ss ih => intro k; simp [relabelSpans, ih]

theorem relabelSpans_append (f : Nat → Span → Span) (xs ys : List Span) :
    ∀ k, relabelSpans f k (xs ++ ys)
      = relabelSpans f k xs ++ relabelSpans f (k + xs.length) ys := by
  induction xs with
  | nil => intro k; simp [relabelSpans]
  | cons x xs ih =>
    intro k
    have h := ih (k + 1)
    rw [show k + 1 + xs.length = k + (xs.length + 1) by omega] at h
    exact congrArg (List.cons (f k x)) h

theorem scopeSpans_relabelScopes (f : Nat → Span → Span) (xs : List ScopeSpans) :
    ∀ k, scopeSpans (relabelScopes f k xs) = relabelSpans f k (scopeSpans xs) := by
  induction xs with
  | nil => intro k; rfl
  | cons x xs ih =>
    intro k
    simp only [relabelScopes, scopeSpans, ih, relabelSpans_append]

theorem batchSpans_relabelBatches (f : Nat → Span → Span) (bs : List ResourceSpans) :
    ∀ k, batchSpans (relabelBatches f k bs) = relabelSpans f k (batchSpans bs) := by
  induction bs with
  | nil => intro k; rfl
  | cons b bs ih =>
    intro k
    simp only [relabelBatches, batchSpans, ih, relabelSpans_append,
      scopeSpans_relabelScopes]

theorem relabelSpans_getElem? (f : Nat → Span → Span) (l : List Span) :
    ∀ k j, (relabelSpans f k l)[j]? = (l[j]?).map (f (k + j)) := by
  induction l with
  | nil => intro k j; simp [relabelSpans]
  | cons s ss ih =>
    intro k j
    cases j with
    | zero => simp [relabelSpans]
    | succ j =>
      simp only [relabelSpans, List.getElem?_cons_succ, ih]
      rw [show k + 1 + j = k + (j + 1) by omega]

/-- The second pass keeps the span list in place and rewrites each span by `renumber`. -/
theorem assignNestedSetBounds_spans (t : Trace) :
    (assignNestedSetBounds t).spans
      = relabelSpans (renumber t.spans (nestedSetBounds t.spans)) 0 t.spans := by
  simp [assignNestedSetBounds, Trace.spans, batchSpans_relabelBatches]

theorem assignNestedSetBounds_length (t : Trace) :
    (assignNestedSetBounds t).spans.length = t.spans.length := by
  rw [assignNestedSetBounds_spans, relabelSpans_length]

theorem keepNewSpans_length (res : Resource) (l : List Span) :
    ∀ seen, (keepNewSpans res seen l).1.length ≤ l.length := by
  induction l with
  | nil => intro seen; simp [keepNewSpans]
  | cons s ss ih =>
    intro seen
    unfold keepNewSpans
    split
    · exact Nat.le_succ_of_le (ih seen)
    · simpa using ih ((res, s.SpanID) :: seen)

theorem keepNewScopes_length (res : Resource) (xs : List ScopeSpans) :
    ∀ seen, (scopeSpans (keepNewScopes res seen xs).1).length ≤ (scopeSpans xs).length := by
  induction xs with
  | nil => intro seen; simp [keepNewScopes, scopeSpans]
  | cons x xs ih =>
    intro seen
    have h1 := keepNewSpans_length res x.Spans seen
    have h2 := ih (keepNewSpans res seen x.Spans).2
    unfold keepNewScopes
    simp only [scopeSpans, List.length_append]
    split
    · omega
    · simp only [scopeSpans, List.length_append]
      omega

theorem keepNewBatches_length (bs : List ResourceSpans) :
    ∀ seen, (batchSpans (keepNewBatches seen bs).1).length ≤ (batchSpans bs).length := by
  induction bs with
  | nil => intro seen; simp [keepNewBatches, batchSpans]
  | cons b bs ih =>
    intro seen
    have h1 := keepNewScopes_length b.Resource b.ScopeSpans seen
    have h2 := ih (keepNewScopes b.Resource seen b.ScopeSpans).2
    unfold keepNewBatches
    simp only [batchSpans, List.length_append]
    split
    · omega
    · simp only [batchSpans, List.length_append]
      omega

/-- What a fresh combiner returns after consuming two traces. -/
theorem combine_some (a b : Trace) :
    combine (some a) (some b)
      = (some (assignNestedSetBounds (mergeTrace a b)),
          ((assignNestedSetBounds (mergeTrace a b)).spans.length : Int)) := rfl

end vparquet2

namespace vparquet2

/-! ## Root level information of the merged trace -/

/-- C7, counterexample: the case "root meta from second overrides empty first" of
`TestCombiner`.  The first trace has start 0, the second start 10; the result has
start 10, which is not the smaller of the two starts. -/
theorem C7_counterexample_zero_start_is_not_kept :
    (combine (some case4A) (some case4B)).1.map (fun t => t.StartTimeUnixNano) = some 10 ∧
    min case4A.StartTimeUnixNano case4B.StartTimeUnixNano = 0 := by
  constructor <;> decide

/-- C7, amended: for every pair of traces A and B consumed in that order by a fresh
combiner, the result has `EndTimeUnixNano = max(A.End, B.End)`; `StartTimeUnixNano` is
`min(A.Start, B.Start)` when `A.Start` is not 0, and `B.Start` when `A.Start` is 0; and
`DurationNano` is `End - Start` of the result in unsigned 64 bit arithmetic, which is the
plain difference whenever `Start ≤ End < 2 ^ 64`. -/
theorem C7_merged_time_bounds (a b : Trace) :
    ∃ t, (combine (some a) (some b)).1 = some t ∧
      t.EndTimeUnixNano = max a.EndTimeUnixNano b.EndTimeUnixNano ∧
      (a.StartTimeUnixNano ≠ 0 →
        t.StartTimeUnixNano = min a.StartTimeUnixNano b.StartTimeUnixNano) ∧
      (a.StartTimeUnixNano = 0 → t.StartTimeUnixNano = b.StartTimeUnixNano) ∧
      t.DurationNano = subUint64 t.EndTimeUnixNano t.StartTimeUnixNano ∧
      (t.StartTimeUnixNano ≤ t.EndTimeUnixNano → t.EndTimeUnixNano < 2 ^ 64 →
        t.DurationNano = t.EndTimeUnixNano - t.StartTimeUnixNano) := by
  refine ⟨assignNestedSetBounds (mergeTrace a b), rfl, ?_, ?_, ?_, rfl, ?_⟩
  · show (if a.EndTimeUnixNano < b.EndTimeUnixNano then b.EndTimeUnixNano
      else a.EndTimeUnixNano) = _
    split <;> omega
  · intro h0
    show (if a.StartTimeUnixNano = 0 ∨ a.StartTimeUnixNano > b.StartTimeUnixNano then
      b.StartTimeUnixNano else a.StartTimeUnixNano) = _
    split <;> omega
  · intro h0
    show (if a.StartTimeUnixNano = 0 ∨ a.StartTimeUnixNano > b.StartTimeUnixNano then
      b.StartTimeUnixNano else a.StartTimeUnixNano) = _
    rw [if_pos (Or.inl h0)]
  · intro hle hlt
    have hd : (assignNestedSetBounds (mergeTrace a b)).DurationNano
        = subUint64 (assignNestedSetBounds (mergeTrace a b)).EndTimeUnixNano
            (assignNestedSetBounds (mergeTrace a b)).StartTimeUnixNano := rfl
    rw [hd]
    unfold subUint64
    omega

/-- C7, witness: the case "second trace start/end override" of `TestCombiner`: starts 10
and 5, ends 20 and 25 give start 5, end 25 and duration 20. -/
theorem C7_merged_time_bounds_witness :
    ∃ t, (combine (some case6A) (some case6B)).1 = some t ∧
      t.EndTimeUnixNano = 25 ∧ t.StartTimeUnixNano = 5 ∧ t.DurationNano = 20 := by
  obtain ⟨t, ht, hend, hstart, _, _, hdur⟩ := C7_merged_time_bounds case6A case6B
  have hs : t.StartTimeUnixNano = 5 := (hstart (by decide)).trans (by decide)
  have he : t.EndTimeUnixNano = 25 := hend.trans (by decide)
  refine ⟨t, ht, he, hs, ?_⟩
  have := hdur (by omega) (by omega)
  omega

/-- C8: for every pair of traces A and B consumed in that order by a fresh combiner, each
of the two root fields is settled on its own: a non-empty root service name of A is kept
whatever B's is, and so is a non-empty root span name of A; where A's field is empty the
result takes B's. -/
theorem C8_first_root_metadata_wins (a b : Trace) :
    ∃ t, (combine (some a) (some b)).1 = some t ∧
      (a.RootServiceName ≠ "" → t.RootServiceName = a.RootServiceName) ∧
      (a.RootSpanName ≠ "" → t.RootSpanName = a.RootSpanName) ∧
      (a.RootServiceName = "" → t.RootServiceName = b.RootServiceName) ∧
      (a.RootSpanName = "" → t.RootSpanName = b.RootSpanName) := by
  refine ⟨assignNestedSetBounds (mergeTrace a b), rfl, ?_, ?_, ?_, ?_⟩
  · intro h
    show (if a.RootServiceName = "" then b.RootServiceName else a.RootServiceName) = _
    rw [if_neg h]
  · intro h
    show (if a.RootSpanName = "" then b.RootSpanName else a.RootSpanName) = _
    rw [if_neg h]
  · intro h
    show (if a.RootServiceName = "" then b.RootServiceName else a.RootServiceName) = _
    rw [if_pos h]
  · intro h
    show (if a.RootSpanName = "" then b.RootSpanName else a.RootSpanName) = _
    rw [if_pos h]

/-- C8, witness: the cases "if both set first root name wins" and "root meta from second
overrides empty first" of `TestCombiner`. -/
theorem C8_first_root_metadata_wins_witness :
    (∃ t, (combine (some case5A) (some case5B)).1 = some t ∧
      t.RootServiceName = "serviceNameA" ∧ t.RootSpanName = "spanNameA") ∧
    (∃ t, (combine (some case4A) (some case4B)).1 = some t ∧
      t.RootServiceName = "serviceNameB" ∧ t.RootSpanName = "spanNameB") := by
  obtain ⟨t, ht, h1, h2, _, _⟩ := C8_first_root_metadata_wins case5A case5B
  obtain ⟨u, hu, _, _, h3, h4⟩ := C8_first_root_metadata_wins case4A case4B
  exact ⟨⟨t, ht, h1 (by decide), h2 (by decide)⟩, ⟨u, hu, h3 rfl, h4 rfl⟩⟩

/-! ## The span total -/

/-- C9: for every trace `t`, a fresh combiner that consumes nil and then `t`, or `t` and
then nil, reports the total -1.  A fresh combiner that consumes two non-nil traces
returns a merged trace and a total that is the number of spans of that merged trace, a
non-negative number; it lies between the span count of the first trace and the sum of
the two span counts, and is 0 for two empty traces. -/
theorem C9_total_is_sentinel_or_merged_span_count :
    (∀ t : Trace, (combine none (some t)).2 = -1 ∧ (combine (some t) none).2 = -1) ∧
    (∀ a b : Trace, ∃ m : Trace,
      combine (some a) (some b) = (some m, (m.spans.length : Int)) ∧
      (0 : Int) ≤ (combine (some a) (some b)).2 ∧
      a.spans.length ≤ m.spans.length ∧
      m.spans.length ≤ a.spans.length + b.spans.length) ∧
    (combine (some Trace.zero) (some Trace.zero)).2 = 0 := by
  refine ⟨fun t => ⟨rfl, rfl⟩, ?_, by decide⟩
  intro a b
  refine ⟨assignNestedSetBounds (mergeTrace a b), rfl, ?_, ?_, ?_⟩
  · rw [combine_some]
    exact Int.natCast_nonneg _
  · rw [assignNestedSetBounds_length]
    simp [Trace.spans, mergeTrace, batchSpans_append]
  · rw [assignNestedSetBounds_length]
    have h := keepNewBatches_length b.ResourceSpans (batchKeys a.ResourceSpans)
    simp only [Trace.spans, mergeTrace, batchSpans_append, List.length_append]
    exact Nat.add_le_add_left h _

end vparquet2

namespace vparquet2

/-! ## The traversal: counter and visiting order -/

theorem numberList_counter (visit : Nat → Nat → List (Nat × Nat × Nat) × Nat)
    (hv : ∀ c next, (visit c next).2 = next + 2 * (visit c next).1.length)
    (cs : List Nat) :
    ∀ next, (numberList visit cs next).2 = next + 2 * (numberList visit cs next).1.length := by
  induction cs with
  | nil => intro next; simp [numberList]
  | cons c cs ih =>
    intro next
    simp only [numberList, List.length_append]
    rw [ih, hv]
    omega

/-- The counter advances by two for every span walked. -/
theorem number_counter (ch : Nat → List Nat) (fuel : Nat) :
    ∀ i next, (number ch fuel i next).2 = next + 2 * (number ch fuel i next).1.length := by
  induction fuel with
  | zero => intro i next; simp [number]
  | succ fuel ih =>
    intro i next
    have h := numberList_counter (number ch fuel) ih (ch i) (next + 1)
    simp only [number, List.length_cons]
    omega

theorem numberList_visited (visit : Nat → Nat → List (Nat × Nat × Nat) × Nat)
    (order : Nat → List Nat)
    (hv : ∀ c next, (visit c next).1.map (fun e => e.1) = order c) (cs : List Nat) :
    ∀ next, (numberList visit cs next).1.map (fun e => e.1) = cs.flatMap order := by
  induction cs with
  | nil => intro next; simp [numberList]
  | cons c cs ih =>
    intro next
    simp only [numberList, List.map_append, List.flatMap_cons, ih, hv]

/-- The spans numbered by the traversal are the spans of `visited`, in the same order. -/
theorem number_visited (ch : Nat → List Nat) (fuel : Nat) :
    ∀ i next, (number ch fuel i next).1.map (fun e => e.1) = visited ch fuel i := by
  induction fuel with
  | zero => intro i next; simp [number, visited]
  | succ fuel ih =>
    intro i next
    simp only [number, visited, List.map_cons,
      numberList_visited (number ch fuel) (visited ch fuel) ih]

/-! ## Ancestors -/

theorem ancestor_add (spans : List Span) (a : Nat) :
    ∀ b j, ancestor spans (a + b) j = (ancestor spans a j).bind (ancestor spans b) := by
  intro b
  induction b with
  | zero => intro j; simp [ancestor]
  | succ b ih =>
    intro j
    rw [← Nat.add_assoc]
    simp only [ancestor, ih, Option.bind_assoc]

theorem ancestor_one (spans : List Span) (j : Nat) :
    ancestor spans 1 j = parentIndex spans j := by
  simp [ancestor]

theorem ancestor_succ_of_parent (spans : List Span) (k c i : Nat)
    (h : parentIndex spans c = some i) :
    ancestor spans (k + 1) c = ancestor spans k i := by
  rw [Nat.add_comm, ancestor_add, ancestor_one, h]
  rfl

theorem parentIndex_lt (spans : List Span) (c i : Nat) (h : parentIndex spans c = some i) :
    c < spans.length := by
  unfold parentIndex at h
  cases hs : spans[c]? with
  | none => simp [hs] at h
  | some s => exact (List.getElem?_eq_some_iff.1 hs).1

theorem mem_children (spans : List Span) (c i : Nat) :
    c ∈ children spans i ↔ parentIndex spans c = some i := by
  unfold children
  simp only [List.mem_filter, List.mem_range, decide_eq_true_eq]
  exact ⟨fun h => h.2, fun h => ⟨parentIndex_lt spans c i h, h⟩⟩

/-- A span whose chain of parents ends lies on no cycle of parent links. -/
theorem ancestor_no_cycle (spans : List Span) (i m t : Nat)
    (hfin : ancestor spans m i = none) (hcyc : ancestor spans (t + 1) i = some i) : False := by
  have hq : ∀ q, ancestor spans (q * (t + 1)) i = some i := by
    intro q
    induction q with
    | zero => simp [ancestor]
    | succ q ih =>
      rw [Nat.succ_mul, ancestor_add, ih]
      exact hcyc
  have hm := hq m
  rw [show m * (t + 1) = m + m * t by ring, ancestor_add, hfin] at hm
  simp at hm

end vparquet2

namespace vparquet2

/-! ## The traversal walks every span of a tree exactly once -/

theorem ancestor_of_mem_visited (spans : List Span) (fuel : Nat) :
    ∀ i j, j ∈ visited (children spans) fuel i → ∃ k, k < fuel ∧ ancestor spans k j = some i := by
  induction fuel with
  | zero => intro i j h; simp [visited] at h
  | succ fuel ih =>
    intro i j h
    simp only [visited, List.mem_cons, List.mem_flatMap] at h
    rcases h with rfl | ⟨c, hc, hj⟩
    · exact ⟨0, Nat.succ_pos _, rfl⟩
    · obtain ⟨k, hk, hanc⟩ := ih c j hj
      refine ⟨k + 1, Nat.succ_lt_succ hk, ?_⟩
      simp only [ancestor, hanc, Option.some_bind]
      exact (mem_children spans c i).1 hc

theorem mem_visited_of_ancestor (spans : List Span) (k : Nat) :
    ∀ fuel i j, k < fuel → ancestor spans k j = some i →
      j ∈ visited (children spans) fuel i := by
  induction k with
  | zero =>
    intro fuel i j hk h
    obtain ⟨f, rfl⟩ : ∃ f, fuel = f + 1 := ⟨fuel - 1, by omega⟩
    simp only [ancestor, Option.some.injEq] at h
    simp [visited, h]
  | succ k ih =>
    intro fuel i j hk h
    obtain ⟨f, rfl⟩ : ∃ f, fuel = f + 1 := ⟨fuel - 1, by omega⟩
    simp only [ancestor] at h
    cases hc : ancestor spans k j with
    | none => simp [hc] at h
    | some c =>
      rw [hc, Option.some_bind] at h
      simp only [visited, List.mem_cons, List.mem_flatMap]
      exact Or.inr ⟨c, (mem_children spans c i).2 h, ih f c j (by omega) hc⟩

/-- Two children of one span that share a descendant are the same child. -/
theorem children_disjoint_aux (spans : List Span) (i c c' j k t m : Nat)
    (hfin : ancestor spans m i = none)
    (hc : parentIndex spans c = some i) (hc' : parentIndex spans c' = some i)
    (h1 : ancestor spans k j = some c) (h2 : ancestor spans (k + t) j = some c') :
    c = c' := by
  rw [ancestor_add, h1, Option.some_bind] at h2
  cases t with
  | zero => simpa [ancestor] using h2
  | succ t =>
    exfalso
    rw [ancestor_succ_of_parent spans t c i hc] at h2
    refine ancestor_no_cycle spans i m t hfin ?_
    simp only [ancestor, h2, Option.some_bind]
    exact hc'

theorem visited_nodup (spans : List Span) (fuel : Nat) :
    ∀ i, (∃ m, ancestor spans m i = none) → (visited (children spans) fuel i).Nodup := by
  induction fuel with
  | zero => intro i _; simp [visited]
  | succ fuel ih =>
    intro i hfin
    obtain ⟨m, hm⟩ := hfin
    have hchild : ∀ c ∈ children spans i, ∃ m', ancestor spans m' c = none := by
      intro c hc
      exact ⟨m + 1, by rw [ancestor_succ_of_parent spans m c i ((mem_children spans c i).1 hc)]
                       exact hm⟩
    simp only [visited, List.nodup_cons, List.mem_flatMap, not_exists, not_and]
    refine ⟨?_, ?_⟩
    · intro c hc hi
      obtain ⟨k, _, hanc⟩ := ancestor_of_mem_visited spans fuel c i hi
      refine ancestor_no_cycle spans i m k hm ?_
      simp only [ancestor, hanc, Option.some_bind]
      exact (mem_children spans c i).1 hc
    · rw [List.nodup_flatMap]
      refine ⟨fun c hc => ih c (hchild c hc), ?_⟩
      have hnd : (children spans i).Nodup := (List.nodup_range _).filter _
      refine List.Pairwise.imp_of_mem ?_ hnd
      intro c c' hc hc' hne
      show List.Disjoint _ _
      intro j hj hj'
      obtain ⟨k, _, hk⟩ := ancestor_of_mem_visited spans fuel c j hj
      obtain ⟨k', _, hk'⟩ := ancestor_of_mem_visited spans fuel c' j hj'
      have hpc := (mem_children spans c i).1 hc
      have hpc' := (mem_children spans c' i).1 hc'
      rcases Nat.le_total k k' with hle | hle
      · obtain ⟨t, rfl⟩ := Nat.exists_eq_add_of_le hle
        exact hne (children_disjoint_aux spans i c c' j k t m hm hpc hpc' hk hk')
      · obtain ⟨t, rfl⟩ := Nat.exists_eq_add_of_le hle
        exact hne (children_disjoint_aux spans i c' c j k' t m hm hpc' hpc hk' hk).symm

theorem visited_lt (spans : List Span) (fuel : Nat) :
    ∀ i j, i < spans.length → j ∈ visited (children spans) fuel i → j < spans.length := by
  induction fuel with
  | zero => intro i j _ h; simp [visited] at h
  | succ fuel ih =>
    intro i j hi h
    simp only [visited, List.mem_cons, List.mem_flatMap] at h
    rcases h with rfl | ⟨c, hc, hj⟩
    · exact hi
    · exact ih c j (parentIndex_lt spans c i ((mem_children spans c i).1 hc)) hj

theorem SingleTree.root_lt {spans : List Span} {r : Nat} (h : SingleTree spans r) :
    r < spans.length := by
  cases hs : spans[r]? with
  | none =>
    have h1 := h.1
    rw [hs] at h1
    simp at h1
  | some s => exact (List.getElem?_eq_some_iff.1 hs).1

theorem SingleTree.parentIndex_root {spans : List Span} {r : Nat} (h : SingleTree spans r) :
    parentIndex spans r = none := by
  unfold parentIndex
  cases hs : spans[r]? with
  | none => rfl
  | some s =>
    have := h.1
    simp only [hs, Option.map_some', Option.some.injEq] at this
    simp [this]

/-- In a single tree the traversal from the root walks as many spans as there are. -/
theorem SingleTree.visited_length {spans : List Span} {r : Nat} (h : SingleTree spans r) :
    (visited (children spans) spans.length r).length = spans.length := by
  have hnd : (visited (children spans) spans.length r).Nodup :=
    visited_nodup spans spans.length r
      ⟨1, by rw [ancestor_one]; exact h.parentIndex_root⟩
  have hperm : (visited (children spans) spans.length r).Perm (List.range spans.length) := by
    rw [List.perm_ext_iff_of_nodup hnd (List.nodup_range _)]
    intro j
    constructor
    · intro hj
      exact List.mem_range.2 (visited_lt spans spans.length r j h.root_lt hj)
    · intro hj
      obtain ⟨k, hk, hanc⟩ := h.2 j hj
      exact mem_visited_of_ancestor spans k spans.length r j (List.mem_range.1 hk) hanc
  rw [hperm.length_eq, List.length_range]

end vparquet2

namespace vparquet2

/-! ## Bounds of the root span -/

theorem filter_eq_singleton (l : List Nat) (p : Nat → Bool) (r : Nat) (hnd : l.Nodup)
    (hr : r ∈ l) (hp : ∀ x ∈ l, p x = true ↔ x = r) : l.filter p = [r] := by
  have h1 : l.filter p = l.filter (fun x => x == r) := by
    apply List.filter_congr
    intro x hx
    have hx' := hp x hx
    by_cases hxr : x = r
    · subst hxr
      simp [hx'.2 rfl]
    · have hf : p x = false := by
        cases hpx : p x with
        | false => rfl
        | true => exact absurd (hx'.1 hpx) hxr
      simp [hxr, hf]
  rw [h1, List.filter_beq, List.count_eq_one_of_mem hnd hr]
  rfl

/-- In a single tree the root is the only root span. -/
theorem SingleTree.roots_eq {spans : List Span} {r : Nat} (h : SingleTree spans r) :
    roots spans = [r] := by
  unfold roots
  refine filter_eq_singleton _ _ r (List.nodup_range _) (List.mem_range.2 h.root_lt) ?_
  intro j hj
  simp only [decide_eq_true_eq]
  constructor
  · intro hroot
    have hpar : parentIndex spans j = none := by
      unfold parentIndex
      cases hs : spans[j]? with
      | none => rfl
      | some s =>
        simp only [hs, Option.map_some', Option.some.injEq] at hroot
        simp [hroot]
    obtain ⟨k, _, hanc⟩ := h.2 j hj
    cases k with
    | zero => simpa [ancestor] using hanc
    | succ k =>
      rw [Nat.add_comm, ancestor_add, ancestor_one, hpar] at hanc
      simp at hanc
  · rintro rfl
    exact h.1

/-- In a single tree the first bounds handed out are those of the root: left 1 and
right twice the number of spans. -/
theorem SingleTree.nestedSetBounds_head {spans : List Span} {r : Nat}
    (h : SingleTree spans r) :
    ∃ rest, nestedSetBounds spans = (r, 1, 2 * spans.length) :: rest := by
  obtain ⟨n, hn⟩ : ∃ n, spans.length = n + 1 := ⟨spans.length - 1, by have := h.root_lt; omega⟩
  have hlen := h.visited_length
  have hcount := number_counter (children spans) spans.length r 1
  have hvis := number_visited (children spans) spans.length r 1
  have hl : (number (children spans) spans.length r 1).1.length = spans.length := by
    have hmap := congrArg List.length hvis
    rw [List.length_map] at hmap
    rw [hmap, hlen]
  rw [hl] at hcount
  unfold nestedSetBounds
  rw [h.roots_eq]
  simp only [numberList, List.append_nil]
  rw [hn] at hcount ⊢
  simp only [number] at hcount ⊢
  have h2 : (numberList (number (children spans) n) (children spans r) (1 + 1)).2
      = 2 * (n + 1) := by omega
  rw [h2]
  exact ⟨_, rfl⟩

theorem boundsOf_head (j l r : Nat) (rest : List (Nat × Nat × Nat)) :
    boundsOf ((j, l, r) :: rest) j = some (l, r) := by
  simp [boundsOf, List.find?]

theorem renumber_ParentSpanID (spans : List Span) (bounds : List (Nat × Nat × Nat)) (j : Nat)
    (s : Span) : (renumber spans bounds j s).ParentSpanID = s.ParentSpanID := by
  unfold renumber
  split <;> rfl

/-- The root span of a single tree gets left bound 1 and right bound twice the number of
spans. -/
theorem SingleTree.root_bounds {t : Trace} {r : Nat} (h : SingleTree t.spans r) :
    ∃ s, (assignNestedSetBounds t).spans[r]? = some s ∧
      s.ParentSpanID = [] ∧
      s.NestedSetLeft = 1 ∧
      s.NestedSetRight = 2 * ((assignNestedSetBounds t).spans.length : Int) := by
  obtain ⟨rest, hb⟩ := h.nestedSetBounds_head
  obtain ⟨s0, hs0⟩ : ∃ s0, t.spans[r]? = some s0 := by
    cases hs : t.spans[r]? with
    | none =>
      have h1 := h.1
      rw [hs] at h1
      simp at h1
    | some s0 => exact ⟨s0, rfl⟩
  refine ⟨renumber t.spans (nestedSetBounds t.spans) r s0, ?_, ?_, ?_, ?_⟩
  · rw [assignNestedSetBounds_spans, relabelSpans_getElem?, hs0]
    simp
  · rw [renumber_ParentSpanID]
    have h1 := h.1
    rw [hs0] at h1
    simpa using h1
  · simp [renumber, hb, boundsOf_head]
  · rw [assignNestedSetBounds_length]
    simp [renumber, hb, boundsOf_head]

end vparquet2

namespace vparquet2

/-- C10, counterexample: the first trace holds a root span, the second a span whose
parent span is in neither trace.  The merged trace has two spans and the total is 2, but
the traversal from the root reaches the root alone: the root span gets the bounds (1, 2),
not (1, 4), and the other span keeps its bounds (0, 0). -/
theorem C10_counterexample_span_outside_the_root_tree :
    (combine (some case8A) (some orphanB)).2 = 2 ∧
    (combine (some case8A) (some orphanB)).1.map
        (fun t => t.spans.map (fun s => (s.ParentSpanID, s.NestedSetLeft, s.NestedSetRight)))
      = some [([], 1, 2), ([0, 0, 0, 0, 0, 0, 0, 9], 0, 0)] := by
  constructor <;> decide

/-- C10, amended: for every pair of traces combined whose merged spans form a single
tree, span `r` being the root span and every merged span reaching `r` by following
parent links, the root span of the merged trace has `NestedSetLeft = 1` and
`NestedSetRight = 2 x` the total returned, which is the merged span count. -/
theorem C10_root_interval_spans_the_whole_tree (a b : Trace) (r : Nat)
    (h : SingleTree (mergeTrace a b).spans r) :
    ∃ m s, combine (some a) (some b) = (some m, (m.spans.length : Int)) ∧
      m.spans[r]? = some s ∧ s.ParentSpanID = [] ∧
      s.NestedSetLeft = 1 ∧ s.NestedSetRight = 2 * (combine (some a) (some b)).2 := by
  obtain ⟨s, hs, hroot, hl, hr⟩ := h.root_bounds
  exact ⟨assignNestedSetBounds (mergeTrace a b), s, rfl, hs, hroot, hl, hr⟩

/-- C10, witness: the last case of `TestCombiner`, root in the first trace and its child
in the second: the root span ends with the bounds (1, 4) and the total is 2. -/
theorem C10_root_interval_spans_the_whole_tree_witness :
    SingleTree (mergeTrace case8A case8B).spans 0 ∧
    ∃ m s, combine (some case8A) (some case8B) = (some m, (m.spans.length : Int)) ∧
      m.spans[0]? = some s ∧ s.ParentSpanID = [] ∧
      s.NestedSetLeft = 1 ∧ s.NestedSetRight = 2 * (combine (some case8A) (some case8B)).2 :=
  ⟨by decide, C10_root_interval_spans_the_whole_tree case8A case8B 0 (by decide)⟩

end vparquet2

namespace vparquet2

/-! ## The traversal hands out contiguous, properly nested bounds -/

theorem labels_append (a b : List (Nat × Nat × Nat)) : labels (a ++ b) = labels a ++ labels b := by
  simp [labels, List.flatMap_append]

theorem labels_length (a : List (Nat × Nat × Nat)) : (labels a).length = 2 * a.length := by
  induction a with
  | nil => rfl
  | cons x xs ih =>
    simp only [labels, List.flatMap_cons, List.length_append, List.length_cons,
      List.length_nil] at ih ⊢
    omega

theorem WellNumbered.nil (spans : List Span) (s : Nat) : WellNumbered spans [] s s := by
  refine ⟨by simp, by simp, ?_, List.Pairwise.nil⟩
  simp [labels]

theorem WellNumbered.append {spans : List Span} {a b : List (Nat × Nat × Nat)} {s m e : Nat}
    (ha : WellNumbered spans a s m) (hb : WellNumbered spans b m e) :
    WellNumbered spans (a ++ b) s e := by
  obtain ⟨ha1, ha2, ha3, ha4⟩ := ha
  obtain ⟨hb1, hb2, hb3, hb4⟩ := hb
  refine ⟨?_, ?_, ?_, ?_⟩
  · rw [List.length_append]; omega
  · intro x hx
    rcases List.mem_append.1 hx with h | h
    · have := ha2 x h; omega
    · have := hb2 x h; omega
  · have hr : List.range' s (2 * (a ++ b).length)
        = List.range' s (2 * a.length) ++ List.range' m (2 * b.length) := by
      rw [ha1, List.range'_append_1, List.length_append]
      congr 1
      omega
    rw [labels_append, hr]
    exact ha3.append hb3
  · rw [List.pairwise_append]
    refine ⟨ha4, hb4, ?_⟩
    intro x hx y hy
    have h1 := ha2 x hx
    have h2 := hb2 y hy
    exact Or.inl (by omega)

theorem numberList_wellNumbered (spans : List Span)
    (visit : Nat → Nat → List (Nat × Nat × Nat) × Nat) (cs : List Nat)
    (hv : ∀ c ∈ cs, ∀ s, WellNumbered spans (visit c s).1 s (visit c s).2) :
    ∀ s, WellNumbered spans (numberList visit cs s).1 s (numberList visit cs s).2 := by
  induction cs with
  | nil => intro s; exact WellNumbered.nil spans s
  | cons c cs ih =>
    intro s
    simp only [numberList]
    exact (hv c (List.mem_cons_self _ _) s).append
      (ih (fun d hd => hv d (List.mem_cons_of_mem _ hd)) _)

end vparquet2

namespace vparquet2

theorem number_wellNumbered (spans : List Span) (fuel : Nat) :
    fuel ≤ spans.length →
    ∀ i s, WellNumbered spans (number (children spans) fuel i s).1 s
      (number (children spans) fuel i s).2 := by
  induction fuel with
  | zero => intro _ i s; exact WellNumbered.nil spans s
  | succ fuel ih =>
    intro hfuel i s
    have hsub := numberList_wellNumbered spans (number (children spans) fuel)
      (children spans i) (fun c _ s' => ih (by omega) c s') (s + 1)
    have hvis := numberList_visited (number (children spans) fuel)
      (visited (children spans) fuel) (number_visited (children spans) fuel)
      (children spans i) (s + 1)
    rcases hnl : numberList (number (children spans) fuel) (children spans i) (s + 1)
      with ⟨L, E⟩
    rw [hnl] at hsub hvis
    simp only [number, hnl]
    obtain ⟨h1, h2, h3, h4⟩ := hsub
    simp only at h1 h2 h3 h4 hvis
    refine ⟨?_, ?_, ?_, ?_⟩
    · rw [List.length_cons]; omega
    · intro x hx
      rcases List.mem_cons.1 hx with rfl | hx
      · simp only; omega
      · have := h2 x hx; omega
    · have hr : List.range' s (2 * ((i, s, E) :: L).length)
          = s :: (List.range' (s + 1) (2 * L.length) ++ [E]) := by
        rw [List.length_cons, show 2 * (L.length + 1) = (2 * L.length + 1) + 1 by omega,
          List.range'_succ, List.range'_concat]
        simp only [Nat.one_mul]
        rw [h1]
      rw [hr]
      have hl : labels ((i, s, E) :: L) = s :: E :: labels L := by
        simp [labels]
      rw [hl]
      refine List.Perm.cons _ ?_
      exact (List.perm_append_singleton E (labels L)).symm.trans (h3.append_right [E])
    · rw [List.pairwise_cons]
      refine ⟨?_, h4⟩
      intro x hx
      have hb := h2 x hx
      refine Or.inr ⟨by simp only; omega, by simp only; omega, ?_⟩
      have hmem : x.1 ∈ (children spans i).flatMap (visited (children spans) fuel) := by
        rw [← hvis]
        exact List.mem_map.2 ⟨x, hx, rfl⟩
      obtain ⟨c, hc, hxc⟩ := List.mem_flatMap.1 hmem
      obtain ⟨k, hkf, hk⟩ := ancestor_of_mem_visited spans fuel c x.1 hxc
      refine ⟨k, by omega, ?_⟩
      simp only [ancestor, hk, Option.some_bind]
      exact (mem_children spans c i).1 hc

end vparquet2

namespace vparquet2

/-- An entry of a sibling list comes from the walk of one of the siblings, and that walk
lies inside the counter range of the list. -/
theorem numberList_mem (visit : Nat → Nat → List (Nat × Nat × Nat) × Nat)
    (hv : ∀ c next, (visit c next).2 = next + 2 * (visit c next).1.length) (cs : List Nat) :
    ∀ s x, x ∈ (numberList visit cs s).1 →
      ∃ c ∈ cs, ∃ s', s ≤ s' ∧ (visit c s').2 ≤ (numberList visit cs s).2 ∧
        x ∈ (visit c s').1 ∧ ∀ y ∈ (visit c s').1, y ∈ (numberList visit cs s).1 := by
  induction cs with
  | nil => intro s x hx; simp [numberList] at hx
  | cons c cs ih =>
    intro s x hx
    have hc := numberList_counter visit hv cs (visit c s).2
    have hcs := hv c s
    simp only [numberList, List.mem_append] at hx ⊢
    rcases hx with hx | hx
    · exact ⟨c, List.mem_cons_self _ _, s, le_refl _, by omega, hx, fun y hy => Or.inl hy⟩
    · obtain ⟨d, hd, s', hs', hend, hxd, hsub⟩ := ih (visit c s).2 x hx
      exact ⟨d, List.mem_cons_of_mem _ hd, s', by omega, hend, hxd, fun y hy => Or.inr (hsub y hy)⟩

/-- Every entry of a walk is the entry of the span the walk started at, or lies strictly
inside the entry of its parent span. -/
theorem number_parent_entry (ch : Nat → List Nat) (fuel : Nat) :
    ∀ i s x, x ∈ (number ch fuel i s).1 →
      x = (i, s, (number ch fuel i s).2 - 1) ∨
      ∃ y ∈ (number ch fuel i s).1, x.1 ∈ ch y.1 ∧ y.2.1 < x.2.1 ∧ x.2.2 < y.2.2 := by
  induction fuel with
  | zero => intro i s x hx; simp [number] at hx
  | succ fuel ih =>
    intro i s x hx
    rcases hnl : numberList (number ch fuel) (ch i) (s + 1) with ⟨L, E⟩
    simp only [number, hnl, List.mem_cons] at hx ⊢
    rcases hx with rfl | hx
    · exact Or.inl (by simp)
    · right
      have hm := numberList_mem (number ch fuel) (number_counter ch fuel) (ch i) (s + 1) x
        (by rw [hnl]; exact hx)
      rw [hnl] at hm
      obtain ⟨c, hc, s', hs', hend, hxc, hsub⟩ := hm
      have hcnt := number_counter ch fuel c s'
      have hpos : 0 < (number ch fuel c s').1.length := List.length_pos_of_mem hxc
      rcases ih c s' x hxc with rfl | ⟨y, hy, h1, h2, h3⟩
      · refine ⟨(i, s, E), Or.inl rfl, hc, ?_, ?_⟩
        · simp only; omega
        · simp only at hend ⊢; omega
      · exact ⟨y, Or.inr (hsub y hy), h1, h2, h3⟩

/-- The bounds handed out for a trace are well numbered from 1. -/
theorem nestedSetBounds_wellNumbered (spans : List Span) :
    WellNumbered spans (nestedSetBounds spans) 1 (1 + 2 * (nestedSetBounds spans).length) := by
  have h := numberList_wellNumbered spans (number (children spans) spans.length)
    (roots spans) (fun c _ s => number_wellNumbered spans spans.length (le_refl _) c s) 1
  have h1 := h.1
  unfold nestedSetBounds
  rw [← h1]
  exact h

/-- In the bounds handed out for a trace, every entry belongs to a root span or lies
strictly inside the entry of its parent span. -/
theorem nestedSetBounds_parent_entry (spans : List Span) :
    ∀ x ∈ nestedSetBounds spans,
      x.1 ∈ roots spans ∨
      ∃ y ∈ nestedSetBounds spans,
        parentIndex spans x.1 = some y.1 ∧ y.2.1 < x.2.1 ∧ x.2.2 < y.2.2 := by
  intro x hx
  obtain ⟨r, hr, s', _, _, hxr, hsub⟩ := numberList_mem
    (number (children spans) spans.length) (number_counter (children spans) spans.length)
    (roots spans) 1 x hx
  rcases number_parent_entry (children spans) spans.length r s' x hxr with rfl | h
  · exact Or.inl hr
  · obtain ⟨y, hy, h1, h2, h3⟩ := h
    exact Or.inr ⟨y, hsub y hy, (mem_children spans x.1 y.1).1 h1, h2, h3⟩

end vparquet2

namespace vparquet2

/-! ## Which spans the traversal numbers -/

theorem mem_roots (spans : List Span) (r : Nat) :
    r ∈ roots spans ↔ (spans[r]?).map (fun s => s.ParentSpanID) = some [] := by
  unfold roots
  simp only [List.mem_filter, List.mem_range, decide_eq_true_eq]
  constructor
  · exact fun h => h.2
  · intro h
    refine ⟨?_, h⟩
    cases hs : spans[r]? with
    | none => rw [hs] at h; simp at h
    | some s => exact (List.getElem?_eq_some_iff.1 hs).1

theorem parentIndex_of_mem_roots (spans : List Span) (r : Nat) (h : r ∈ roots spans) :
    parentIndex spans r = none := by
  have h1 := (mem_roots spans r).1 h
  unfold parentIndex
  cases hs : spans[r]? with
  | none => rfl
  | some s =>
    simp only [hs, Option.map_some', Option.some.injEq] at h1
    simp [h1]

theorem lt_of_mem_roots (spans : List Span) (r : Nat) (h : r ∈ roots spans) :
    r < spans.length := by
  unfold roots at h
  exact List.mem_range.1 (List.mem_filter.1 h).1

theorem ancestor_succ_root (spans : List Span) (r k : Nat) (h : r ∈ roots spans) :
    ancestor spans (k + 1) r = none := by
  rw [Nat.add_comm, ancestor_add, ancestor_one, parentIndex_of_mem_roots spans r h]
  rfl

/-- The spans numbered for a trace, in the order of the traversal. -/
theorem nestedSetBounds_indices (spans : List Span) :
    (nestedSetBounds spans).map (fun e => e.1)
      = (roots spans).flatMap (visited (children spans) spans.length) := by
  unfold nestedSetBounds
  exact numberList_visited _ _ (number_visited (children spans) spans.length) (roots spans) 1

/-- No span is numbered twice. -/
theorem nestedSetBounds_nodup (spans : List Span) :
    ((nestedSetBounds spans).map (fun e => e.1)).Nodup := by
  rw [nestedSetBounds_indices, List.nodup_flatMap]
  refine ⟨?_, ?_⟩
  · intro r hr
    exact visited_nodup spans spans.length r
      ⟨1, by rw [ancestor_one]; exact parentIndex_of_mem_roots spans r hr⟩
  · have hnd : (roots spans).Nodup := (List.nodup_range _).filter _
    refine List.Pairwise.imp_of_mem ?_ hnd
    intro r1 r2 h1 h2 hne
    show List.Disjoint _ _
    intro j hj1 hj2
    obtain ⟨k1, _, hk1⟩ := ancestor_of_mem_visited spans spans.length r1 j hj1
    obtain ⟨k2, _, hk2⟩ := ancestor_of_mem_visited spans spans.length r2 j hj2
    have key : ∀ (a b ka t : Nat), a ∈ roots spans → ancestor spans ka j = some a →
        ancestor spans (ka + t) j = some b → a = b := by
      intro a b ka t ha h1' h2'
      rw [ancestor_add, h1', Option.some_bind] at h2'
      cases t with
      | zero => simpa [ancestor] using h2'
      | succ t => rw [ancestor_succ_root spans a t ha] at h2'; simp at h2'
    rcases Nat.le_total k1 k2 with hle | hle
    · obtain ⟨t, rfl⟩ := Nat.exists_eq_add_of_le hle
      exact hne (key r1 r2 k1 t h1 hk1 hk2)
    · obtain ⟨t, rfl⟩ := Nat.exists_eq_add_of_le hle
      exact hne (key r2 r1 k2 t h2 hk2 hk1).symm

theorem nestedSetBounds_index_lt (spans : List Span) :
    ∀ j ∈ (nestedSetBounds spans).map (fun e => e.1), j < spans.length := by
  intro j hj
  rw [nestedSetBounds_indices] at hj
  obtain ⟨r, hr, hjr⟩ := List.mem_flatMap.1 hj
  exact visited_lt spans spans.length r j (lt_of_mem_roots spans r hr) hjr

/-- When every span reaches a root span, the traversal numbers every span exactly
once. -/
theorem Rooted.indices_perm {spans : List Span} (h : Rooted spans) :
    ((nestedSetBounds spans).map (fun e => e.1)).Perm (List.range spans.length) := by
  rw [List.perm_ext_iff_of_nodup (nestedSetBounds_nodup spans) (List.nodup_range _)]
  intro j
  constructor
  · intro hj
    exact List.mem_range.2 (nestedSetBounds_index_lt spans j hj)
  · intro hj
    obtain ⟨k, hk, r, hr, hanc⟩ := h j hj
    rw [nestedSetBounds_indices]
    exact List.mem_flatMap.2
      ⟨r, hr, mem_visited_of_ancestor spans k spans.length r j (List.mem_range.1 hk) hanc⟩

theorem Rooted.bounds_length {spans : List Span} (h : Rooted spans) :
    (nestedSetBounds spans).length = spans.length := by
  have := h.indices_perm.length_eq
  simpa using this

/-- The lookup of the bounds of span `j` finds the one entry of `j`. -/
theorem boundsOf_of_mem (bounds : List (Nat × Nat × Nat))
    (hnd : (bounds.map (fun e => e.1)).Nodup) :
    ∀ x ∈ bounds, boundsOf bounds x.1 = some x.2 := by
  induction bounds with
  | nil => intro x hx; simp at hx
  | cons b bs ih =>
    intro x hx
    rw [List.map_cons, List.nodup_cons] at hnd
    rcases List.mem_cons.1 hx with rfl | hx
    · simp [boundsOf, List.find?]
    · have hne : b.1 ≠ x.1 := by
        intro heq
        exact hnd.1 (heq ▸ List.mem_map.2 ⟨x, hx, rfl⟩)
      have := ih hnd.2 x hx
      simp only [boundsOf, List.find?, hne, decide_False] at this ⊢
      exact this

theorem mem_of_boundsOf (bounds : List (Nat × Nat × Nat)) (j : Nat) (lr : Nat × Nat)
    (h : boundsOf bounds j = some lr) : (j, lr) ∈ bounds := by
  unfold boundsOf at h
  cases hf : bounds.find? (fun e => e.1 = j) with
  | none => simp [hf] at h
  | some e =>
    rw [hf] at h
    simp only [Option.map_some', Option.some.injEq] at h
    have h1 := List.find?_some hf
    have h2 := List.mem_of_find?_eq_some hf
    simp only [decide_eq_true_eq] at h1
    subst h1
    subst h
    exact h2

/-- When every span reaches a root span, every span has bounds. -/
theorem Rooted.boundsOf_some {spans : List Span} (h : Rooted spans) (j : Nat)
    (hj : j < spans.length) :
    ∃ lr, boundsOf (nestedSetBounds spans) j = some lr ∧ (j, lr) ∈ nestedSetBounds spans := by
  have hmem : j ∈ (nestedSetBounds spans).map (fun e => e.1) :=
    (h.indices_perm.mem_iff).2 (List.mem_range.2 hj)
  obtain ⟨x, hx, rfl⟩ := List.mem_map.1 hmem
  exact ⟨x.2, boundsOf_of_mem _ (nestedSetBounds_nodup spans) x hx, hx⟩

end vparquet2

namespace vparquet2

/-! ## Parent links depend on the span IDs alone -/

theorem idTableFrom_congr (a : List Span) :
    ∀ (b : List Span), shape a = shape b →
      ∀ k tbl, idTableFrom k a tbl = idTableFrom k b tbl := by
  induction a with
  | nil =>
    intro b h k tbl
    cases b with
    | nil => rfl
    | cons y ys => simp [shape] at h
  | cons x xs ih =>
    intro b h k tbl
    cases b with
    | nil => simp [shape] at h
    | cons y ys =>
      simp only [shape, List.map_cons, List.cons.injEq, Prod.mk.injEq] at h
      simp only [idTableFrom, h.1.1]
      exact ih ys h.2 _ _

theorem shape_length {a b : List Span} (h : shape a = shape b) : a.length = b.length := by
  have := congrArg List.length h
  simpa [shape] using this

theorem parentIndex_congr {a b : List Span} (h : shape a = shape b) :
    parentIndex a = parentIndex b := by
  funext j
  have hj : (a[j]?).map (fun s => (s.SpanID, s.ParentSpanID))
      = (b[j]?).map (fun s => (s.SpanID, s.ParentSpanID)) := by
    have := congrArg (fun l => l[j]?) h
    simpa [shape] using this
  have ht : idTable a = idTable b := idTableFrom_congr a b h 0 []
  unfold parentIndex
  rw [ht]
  cases ha : a[j]? with
  | none =>
    cases hb : b[j]? with
    | none => rfl
    | some y => rw [ha, hb] at hj; simp at hj
  | some x =>
    cases hb : b[j]? with
    | none => rw [ha, hb] at hj; simp at hj
    | some y =>
      rw [ha, hb] at hj
      simp only [Option.map_some', Option.some.injEq, Prod.mk.injEq] at hj
      simp only [hj.2]

theorem ancestor_congr {a b : List Span} (h : shape a = shape b) :
    ancestor a = ancestor b := by
  funext k
  induction k with
  | zero => rfl
  | succ k ih =>
    funext j
    simp only [ancestor, ih, parentIndex_congr h]

theorem roots_congr {a b : List Span} (h : shape a = shape b) : roots a = roots b := by
  unfold roots
  rw [shape_length h]
  apply List.filter_congr
  intro j _
  have hj : (a[j]?).map (fun s => s.ParentSpanID) = (b[j]?).map (fun s => s.ParentSpanID) := by
    have := congrArg (fun l => (l[j]?).map (fun p => p.2)) h
    simpa [shape] using this
  rw [hj]

theorem children_congr {a b : List Span} (h : shape a = shape b) :
    children a = children b := by
  funext i
  unfold children
  rw [shape_length h, parentIndex_congr h]

theorem nestedSetBounds_congr {a b : List Span} (h : shape a = shape b) :
    nestedSetBounds a = nestedSetBounds b := by
  unfold nestedSetBounds
  rw [children_congr h, roots_congr h, shape_length h]

theorem renumber_SpanID (spans : List Span) (bounds : List (Nat × Nat × Nat)) (j : Nat)
    (s : Span) : (renumber spans bounds j s).SpanID = s.SpanID := by
  unfold renumber
  split <;> rfl

theorem shape_relabelSpans (spans : List Span) (bounds : List (Nat × Nat × Nat))
    (l : List Span) :
    ∀ k, shape (relabelSpans (renumber spans bounds) k l) = shape l := by
  induction l with
  | nil => intro k; rfl
  | cons s ss ih =>
    intro k
    have := ih (k + 1)
    simp only [shape, relabelSpans, List.map_cons, renumber_SpanID, renumber_ParentSpanID,
      List.cons.injEq, true_and] at this ⊢
    exact this

/-- The second pass changes neither span IDs nor parent span IDs. -/
theorem shape_assignNestedSetBounds (t : Trace) :
    shape (assignNestedSetBounds t).spans = shape t.spans := by
  rw [assignNestedSetBounds_spans, shape_relabelSpans]

/-- An index found in the ID table belongs to a span with the ID looked up. -/
theorem idTableFrom_lookup (id : List Nat) (ss : List Span) :
    ∀ k tbl p, (idTableFrom k ss tbl).lookup id = some p →
      (k ≤ p ∧ (ss[p - k]?).map (fun s => s.SpanID) = some id) ∨ tbl.lookup id = some p := by
  induction ss with
  | nil => intro k tbl p h; exact Or.inr h
  | cons s ss ih =>
    intro k tbl p h
    simp only [idTableFrom] at h
    rcases ih (k + 1) _ p h with ⟨hle, hs⟩ | h2
    · left
      refine ⟨by omega, ?_⟩
      rw [show p - k = (p - (k + 1)) + 1 by omega, List.getElem?_cons_succ]
      exact hs
    · rw [List.lookup_cons] at h2
      by_cases hid : id = s.SpanID
      · subst hid
        simp only [beq_self_eq_true, Option.some.injEq] at h2
        subst h2
        left
        simp
      · have hb : (id == s.SpanID) = false := by simpa using hid
        rw [hb] at h2
        exact Or.inr h2

theorem parentIndex_spanID (spans : List Span) (j p : Nat) (sj : Span)
    (hj : spans[j]? = some sj) (h : parentIndex spans j = some p) :
    (spans[p]?).map (fun s => s.SpanID) = some sj.ParentSpanID := by
  unfold parentIndex at h
  rw [hj] at h
  simp only at h
  split at h
  · simp at h
  · rcases idTableFrom_lookup sj.ParentSpanID spans 0 [] p h with ⟨_, hs⟩ | h2
    · simpa using hs
    · simp at h2

end vparquet2

namespace vparquet2

/-! ## The renumbered trace -/

theorem assignNestedSetBounds_getD (t : Trace) (j : Nat) (hj : j < t.spans.length) :
    (assignNestedSetBounds t).spans.getD j Span.zero
      = renumber t.spans (nestedSetBounds t.spans) j (t.spans.getD j Span.zero) := by
  rw [List.getD_eq_getElem?_getD, List.getD_eq_getElem?_getD, assignNestedSetBounds_spans,
    relabelSpans_getElem?, List.getElem?_eq_getElem hj]
  simp

theorem renumber_of_boundsOf (spans : List Span) (bounds : List (Nat × Nat × Nat)) (j : Nat)
    (s : Span) (lr : Nat × Nat) (h : boundsOf bounds j = some lr) :
    (renumber spans bounds j s).NestedSetLeft = (lr.1 : Int) ∧
    (renumber spans bounds j s).NestedSetRight = (lr.2 : Int) := by
  simp [renumber, h]

theorem renumber_ParentID (spans : List Span) (bounds : List (Nat × Nat × Nat)) (j p : Nat)
    (s : Span) (lr plr : Nat × Nat) (h : boundsOf bounds j = some lr)
    (hp : parentIndex spans j = some p) (hb : boundsOf bounds p = some plr) :
    (renumber spans bounds j s).ParentID = (plr.1 : Int) := by
  simp [renumber, h, hp, hb]

/-- When every span reaches a root span, span `j` of the renumbered trace carries the
bounds of its entry. -/
theorem Rooted.result_bounds {t : Trace} (h : Rooted t.spans) (j : Nat)
    (hj : j < t.spans.length) :
    ∃ lr, (j, lr) ∈ nestedSetBounds t.spans ∧
      boundsOf (nestedSetBounds t.spans) j = some lr ∧
      ((assignNestedSetBounds t).spans.getD j Span.zero).NestedSetLeft = (lr.1 : Int) ∧
      ((assignNestedSetBounds t).spans.getD j Span.zero).NestedSetRight = (lr.2 : Int) := by
  obtain ⟨lr, hb, hmem⟩ := h.boundsOf_some j hj
  have hr := renumber_of_boundsOf t.spans (nestedSetBounds t.spans) j
    (t.spans.getD j Span.zero) lr hb
  rw [assignNestedSetBounds_getD t j hj]
  exact ⟨lr, hmem, hb, hr.1, hr.2⟩

theorem pairwise_or_of_mem {α : Type} {R : α → α → Prop} (l : List α) :
    l.Pairwise R → ∀ a b, a ∈ l → b ∈ l → a ≠ b → R a b ∨ R b a := by
  induction l with
  | nil => intro _ a b ha; simp at ha
  | cons x xs ih =>
    intro h a b ha hb hne
    rw [List.pairwise_cons] at h
    rcases List.mem_cons.1 ha with hax | hax
    · rcases List.mem_cons.1 hb with hbx | hbx
      · exact absurd (hax.trans hbx.symm) hne
      · exact Or.inl (hax ▸ h.1 b hbx)
    · rcases List.mem_cons.1 hb with hbx | hbx
      · exact Or.inr (hbx ▸ h.1 a hax)
      · exact ih h.2 a b hax hbx hne

theorem list_eq_map_getD (l : List Span) :
    l = (List.range l.length).map (fun j => l.getD j Span.zero) := by
  apply List.ext_getElem?
  intro i
  by_cases hi : i < l.length
  · rw [List.getElem?_map, List.getElem?_range hi, List.getElem?_eq_getElem hi]
    simp [List.getD_eq_getElem?_getD, List.getElem?_eq_getElem hi]
  · have hi' : l.length ≤ i := by omega
    rw [List.getElem?_eq_none hi', List.getElem?_eq_none (by simpa using hi')]

/-- When every span reaches a root span, the bounds stored on the renumbered trace are
the numbers 1 to twice the span count, each used once. -/
theorem Rooted.labels_perm {t : Trace} (h : Rooted t.spans) :
    ((assignNestedSetBounds t).spans.flatMap
        (fun s => [s.NestedSetLeft, s.NestedSetRight])).Perm
      ((List.range' 1 (2 * (assignNestedSetBounds t).spans.length)).map Int.ofNat) := by
  have hlen := assignNestedSetBounds_length t
  have hwn := (nestedSetBounds_wellNumbered t.spans).2.2.1
  rw [h.bounds_length] at hwn
  have h1 : (assignNestedSetBounds t).spans.flatMap
        (fun s => [s.NestedSetLeft, s.NestedSetRight])
      = (List.range t.spans.length).flatMap
        (fun j => [((assignNestedSetBounds t).spans.getD j Span.zero).NestedSetLeft,
          ((assignNestedSetBounds t).spans.getD j Span.zero).NestedSetRight]) := by
    conv_lhs => rw [list_eq_map_getD (assignNestedSetBounds t).spans]
    rw [List.flatMap_map, hlen]
  have h2 := (h.indices_perm.symm).flatMap_right
    (fun j => [((assignNestedSetBounds t).spans.getD j Span.zero).NestedSetLeft,
      ((assignNestedSetBounds t).spans.getD j Span.zero).NestedSetRight])
  have h3 : ((nestedSetBounds t.spans).map (fun e => e.1)).flatMap
        (fun j => [((assignNestedSetBounds t).spans.getD j Span.zero).NestedSetLeft,
          ((assignNestedSetBounds t).spans.getD j Span.zero).NestedSetRight])
      = (labels (nestedSetBounds t.spans)).map Int.ofNat := by
    rw [List.flatMap_map]
    unfold labels
    rw [List.map_flatMap]
    have hall : ∀ x ∈ nestedSetBounds t.spans,
        [((assignNestedSetBounds t).spans.getD x.1 Span.zero).NestedSetLeft,
          ((assignNestedSetBounds t).spans.getD x.1 Span.zero).NestedSetRight]
        = List.map Int.ofNat [x.2.1, x.2.2] := by
      intro x hx
      have hlt := nestedSetBounds_index_lt t.spans x.1 (List.mem_map.2 ⟨x, hx, rfl⟩)
      have hb := boundsOf_of_mem _ (nestedSetBounds_nodup t.spans) x hx
      have hr := renumber_of_boundsOf t.spans (nestedSetBounds t.spans) x.1
        (t.spans.getD x.1 Span.zero) x.2 hb
      rw [assignNestedSetBounds_getD t x.1 hlt, hr.1, hr.2]
      rfl
    generalize nestedSetBounds t.spans = B at hall
    induction B with
    | nil => rfl
    | cons b bs ih =>
      simp only [List.flatMap_cons]
      rw [hall b (List.mem_cons_self _ _), ih (fun x hx => hall x (List.mem_cons_of_mem _ hx))]
  rw [h1, hlen]
  exact (h2.trans (by rw [h3])).trans (hwn.map Int.ofNat)

end vparquet2

namespace vparquet2

theorem parentIndex_some_lt (spans : List Span) (j p : Nat)
    (h : parentIndex spans j = some p) : p < spans.length := by
  have hj := parentIndex_lt spans j p h
  have h1 := parentIndex_spanID spans j p spans[j] (List.getElem?_eq_getElem hj) h
  cases hs : spans[p]? with
  | none => rw [hs] at h1; simp at h1
  | some s => exact (List.getElem?_eq_some_iff.1 hs).1

/-- When every span of a trace reaches a root span, the second pass leaves a contiguous,
properly nested numbering. -/
theorem Rooted.properlyNested {t : Trace} (h : Rooted t.spans) :
    ProperlyNested (assignNestedSetBounds t).spans := by
  have hlen := assignNestedSetBounds_length t
  have hshape := shape_assignNestedSetBounds t
  have hpar := parentIndex_congr hshape
  have hanc := ancestor_congr hshape
  have hwn := nestedSetBounds_wellNumbered t.spans
  have hnd := nestedSetBounds_nodup t.spans
  refine ⟨h.labels_perm, ?_, ?_, ?_, ?_⟩
  · intro s hs
    rw [list_eq_map_getD (assignNestedSetBounds t).spans] at hs
    obtain ⟨j, hj, rfl⟩ := List.mem_map.1 hs
    rw [hlen] at hj
    obtain ⟨lr, hmem, _, hl, hr⟩ := h.result_bounds j (List.mem_range.1 hj)
    have := hwn.2.1 (j, lr) hmem
    rw [hl, hr]
    exact_mod_cast this.2.1
  · intro j hj p hp hjp
    rw [hlen] at hj hp
    rw [hpar] at hjp
    obtain ⟨lr, hmem, _, hl, hr⟩ := h.result_bounds j (List.mem_range.1 hj)
    obtain ⟨plr, hpmem, hpb, hpl, hpr⟩ := h.result_bounds p (List.mem_range.1 hp)
    rcases nestedSetBounds_parent_entry t.spans (j, lr) hmem with hroot | ⟨y, hy, h1, h2, h3⟩
    · rw [parentIndex_of_mem_roots t.spans j hroot] at hjp
      simp at hjp
    · have hyp : y.1 = p := by
        simp only at h1
        rw [hjp] at h1
        exact (Option.some.inj h1).symm
      have hyb := boundsOf_of_mem _ hnd y hy
      rw [hyp, hpb] at hyb
      have hy2 : y.2 = plr := (Option.some.inj hyb).symm
      rw [hl, hr, hpl, hpr, ← hy2]
      simp only at h2 h3
      exact ⟨by exact_mod_cast h2, by exact_mod_cast h3⟩
  · intro j1 hj1 j2 hj2 hne hn12 hn21
    rw [hlen] at hj1 hj2 hn12 hn21
    rw [hanc] at hn12 hn21
    obtain ⟨lr1, hm1, _, hl1, hr1⟩ := h.result_bounds j1 (List.mem_range.1 hj1)
    obtain ⟨lr2, hm2, _, hl2, hr2⟩ := h.result_bounds j2 (List.mem_range.1 hj2)
    have hne' : (j1, lr1) ≠ (j2, lr2) := fun heq => hne (congrArg Prod.fst heq)
    rw [hl1, hr1, hl2, hr2]
    rcases pairwise_or_of_mem _ hwn.2.2.2 _ _ hm1 hm2 hne' with hb | hb
    · rcases hb with hb | ⟨_, _, k, hk, hka⟩
      · exact Or.inl (by exact_mod_cast hb)
      · exact absurd hka (hn21 (k + 1) (List.mem_range.2 (by omega)))
    · rcases hb with hb | ⟨_, _, k, hk, hka⟩
      · exact Or.inr (by exact_mod_cast hb)
      · exact absurd hka (hn12 (k + 1) (List.mem_range.2 (by omega)))
  · intro j hj hnonroot
    rw [hlen] at hj
    have hjlt := List.mem_range.1 hj
    rw [assignNestedSetBounds_getD t j hjlt, renumber_ParentSpanID] at hnonroot
    have hgetj : t.spans[j]? = some (t.spans.getD j Span.zero) := by
      rw [List.getD_eq_getElem?_getD, List.getElem?_eq_getElem hjlt]
      rfl
    obtain ⟨k, _, r, hr, hkr⟩ := h j hj
    have hp : ∃ p, parentIndex t.spans j = some p := by
      cases k with
      | zero =>
        simp only [ancestor, Option.some.injEq] at hkr
        subst hkr
        have := (mem_roots t.spans j).1 hr
        rw [hgetj] at this
        simp only [Option.map_some', Option.some.injEq] at this
        exact absurd this hnonroot
      | succ k =>
        rw [Nat.add_comm, ancestor_add, ancestor_one] at hkr
        cases hpj : parentIndex t.spans j with
        | none => rw [hpj] at hkr; simp at hkr
        | some p => exact ⟨p, rfl⟩
    obtain ⟨p, hp⟩ := hp
    have hplt := parentIndex_some_lt t.spans j p hp
    obtain ⟨lr, _, hb, _, _⟩ := h.result_bounds j hjlt
    obtain ⟨plr, _, hpb, hpl, _⟩ := h.result_bounds p hplt
    refine ⟨p, by rw [hlen]; exact List.mem_range.2 hplt, by rw [hpar]; exact hp, ?_, ?_⟩
    · rw [assignNestedSetBounds_getD t p hplt, assignNestedSetBounds_getD t j hjlt,
        renumber_SpanID, renumber_ParentSpanID]
      have hsp := parentIndex_spanID t.spans j p _ hgetj hp
      rw [List.getD_eq_getElem?_getD (l := t.spans) (n := p)]
      cases hs : t.spans[p]? with
      | none => rw [hs] at hsp; simp at hsp
      | some sp =>
        rw [hs] at hsp
        simpa using hsp
    · rw [hpl, assignNestedSetBounds_getD t j hjlt]
      exact renumber_ParentID t.spans _ j p _ lr plr hb hp hpb

end vparquet2

namespace vparquet2

/-- C11, counterexample: the first trace holds a root span, the second a span whose
parent span is in neither trace.  After the combine the stored bounds are (1, 2) and
(0, 0): the numbers 1 to 4 are not all used and the second span has left = right, so the
numbering is neither contiguous nor properly nested. -/
theorem C11_counterexample_unreached_span_is_not_numbered :
    ∃ m, (combine (some case8A) (some orphanB)).1 = some m ∧
      storedBounds m.spans = [(1, 2), (0, 0)] ∧ ¬ ProperlyNested m.spans := by
  refine ⟨assignNestedSetBounds (mergeTrace case8A orphanB), rfl, by decide, ?_⟩
  intro h
  have h2 := h.2.1
  revert h2
  decide

/-- C11, amended: after every combine whose merged spans each are a root span or reach a
root span by following parent links, the nested-set numbering of the merged trace is
contiguous and properly nested: the left and right bounds of its n spans are the numbers
1 to 2n each used once, every span has left < right, every child's interval lies
strictly inside its parent's, spans of which neither is an ancestor of the other have
disjoint intervals, and every span with a parent span ID has as `ParentID` the left
bound of its parent, a span whose span ID is that parent span ID. -/
theorem C11_merged_numbering_is_properly_nested (a b : Trace)
    (h : Rooted (mergeTrace a b).spans) :
    ∃ m, (combine (some a) (some b)).1 = some m ∧ ProperlyNested m.spans :=
  ⟨assignNestedSetBounds (mergeTrace a b), rfl, h.properlyNested⟩

/-- C11, witness: the last case of `TestCombiner`; the merged spans end with the bounds
(1, 4) and (2, 3). -/
theorem C11_merged_numbering_is_properly_nested_witness :
    Rooted (mergeTrace case8A case8B).spans ∧
    ∃ m, (combine (some case8A) (some case8B)).1 = some m ∧ ProperlyNested m.spans ∧
      storedBounds m.spans = [(1, 4), (2, 3)] := by
  obtain ⟨m, hm, hp⟩ := C11_merged_numbering_is_properly_nested case8A case8B (by decide)
  refine ⟨by decide, m, hm, hp, ?_⟩
  have hm' : m = assignNestedSetBounds (mergeTrace case8A case8B) :=
    (Option.some.inj hm).symm
  rw [hm']
  decide

end vparquet2

namespace vparquet2

/-! ## Combining a trace with itself -/

theorem keepNewSpans_all_seen (res : Resource) (l : List Span) :
    ∀ seen, (∀ s ∈ l, (res, s.SpanID) ∈ seen) → keepNewSpans res seen l = ([], seen) := by
  induction l with
  | nil => intro seen _; rfl
  | cons s ss ih =>
    intro seen h
    unfold keepNewSpans
    rw [if_pos (h s (List.mem_cons_self _ _))]
    exact ih seen (fun x hx => h x (List.mem_cons_of_mem _ hx))

theorem keepNewScopes_all_seen (res : Resource) (xs : List ScopeSpans) :
    ∀ seen, (∀ s ∈ scopeSpans xs, (res, s.SpanID) ∈ seen) →
      keepNewScopes res seen xs = ([], seen) := by
  induction xs with
  | nil => intro seen _; rfl
  | cons x xs ih =>
    intro seen h
    have h1 := keepNewSpans_all_seen res x.Spans seen
      (fun s hs => h s (by simp [scopeSpans, hs]))
    have h2 := ih seen (fun s hs => h s (by simp [scopeSpans, hs]))
    unfold keepNewScopes
    simp only [h1, h2, if_true]

theorem keepNewBatches_all_seen (bs : List ResourceSpans) :
    ∀ seen, (∀ k ∈ batchKeys bs, k ∈ seen) → keepNewBatches seen bs = ([], seen) := by
  induction bs with
  | nil => intro seen _; rfl
  | cons b bs ih =>
    intro seen h
    have h1 := keepNewScopes_all_seen b.Resource b.ScopeSpans seen
      (fun s hs => h _ (by
        simp only [batchKeys, List.mem_append, List.mem_map]
        exact Or.inl ⟨s, hs, rfl⟩))
    have h2 := ih seen (fun k hk => h k (by simp [batchKeys, hk]))
    unfold keepNewBatches
    simp only [h1, h2, if_true]

/-- Merging a trace into itself adds no span. -/
theorem mergeTrace_self_batches (t : Trace) :
    (mergeTrace t t).ResourceSpans = t.ResourceSpans := by
  simp [mergeTrace, keepNewBatches_all_seen t.ResourceSpans (batchKeys t.ResourceSpans)
    (fun k hk => hk)]

theorem mergeTrace_self_spans (t : Trace) : (mergeTrace t t).spans = t.spans := by
  simp [Trace.spans, mergeTrace_self_batches]

theorem storedBounds_getElem? (l : List Span) (j : Nat) :
    (storedBounds l)[j]? = (l[j]?).map (fun s => (s.NestedSetLeft, s.NestedSetRight)) := by
  simp [storedBounds]

theorem renumber_renumber_bounds (sp sp' : List Span) (bounds : List (Nat × Nat × Nat))
    (j : Nat) (s : Span) :
    ((renumber sp' bounds j (renumber sp bounds j s)).NestedSetLeft,
      (renumber sp' bounds j (renumber sp bounds j s)).NestedSetRight)
    = ((renumber sp bounds j s).NestedSetLeft, (renumber sp bounds j s).NestedSetRight) := by
  cases hb : boundsOf bounds j with
  | none => simp [renumber, hb]
  | some lr => simp [renumber, hb]

/-- The bounds the second pass stores are kept by a further run of the second pass: on
every trace returned by the combiner the stored bounds are those of the traversal. -/
theorem assignNestedSetBounds_idempotent (t : Trace) :
    storedBounds (assignNestedSetBounds (assignNestedSetBounds t)).spans
      = storedBounds (assignNestedSetBounds t).spans := by
  have hB := nestedSetBounds_congr (shape_assignNestedSetBounds t)
  apply List.ext_getElem?
  intro j
  rw [storedBounds_getElem?, storedBounds_getElem?,
    assignNestedSetBounds_spans (assignNestedSetBounds t), relabelSpans_getElem?, hB,
    assignNestedSetBounds_spans t, relabelSpans_getElem?]
  cases t.spans[j]? with
  | none => rfl
  | some s =>
    simp only [Option.map_some', Nat.zero_add]
    rw [renumber_renumber_bounds]

/-- C12, counterexample: `swappedChildren` and `orderedChildren` hold the same three
spans in the same order, a root and its two children, and differ in their bounds alone;
both numberings are contiguous and properly nested: root (1, 6) with the children at
(4, 5), (2, 3) in the one and at (2, 3), (4, 5) in the other.  A fresh combiner that
consumes `swappedChildren` twice returns the bounds (1, 6), (2, 3), (4, 5), so the two
children do not keep theirs.  The order in which the traversal takes the children does
not matter for this: the bounds are recomputed from the span IDs and parent span IDs of
the merged tree, and no function of those returns the bounds of both traces. -/
theorem C12_counterexample_one_tree_two_valid_numberings :
    ProperlyNested swappedChildren.spans ∧ ProperlyNested orderedChildren.spans ∧
    shape swappedChildren.spans = shape orderedChildren.spans ∧
    storedBounds swappedChildren.spans = [(1, 6), (4, 5), (2, 3)] ∧
    storedBounds orderedChildren.spans = [(1, 6), (2, 3), (4, 5)] ∧
    (combine (some swappedChildren) (some swappedChildren)).1.map
        (fun m => storedBounds m.spans) = some [(1, 6), (2, 3), (4, 5)] ∧
    (∀ F : List (List Nat × List Nat) → List (Int × Int),
      ¬ (F (shape swappedChildren.spans) = storedBounds swappedChildren.spans ∧
          F (shape orderedChildren.spans) = storedBounds orderedChildren.spans)) := by
  refine ⟨by decide, by decide, by decide, by decide, by decide, by decide, ?_⟩
  rintro F ⟨h1, h2⟩
  have hs : shape swappedChildren.spans = shape orderedChildren.spans := by decide
  rw [hs, h2] at h1
  revert h1
  decide

/-- C12, amended: for every trace T, a fresh combiner that consumes T twice returns a
trace with the same span count as T, and that count as total.  When T is a trace a
combiner returned after combining (any combiner that has merged at least two traces, so
that the bounds on T are those its second pass wrote), the trace returned for T consumed
twice has the same `NestedSetLeft` / `NestedSetRight` on every span as T. -/
theorem C12_self_combine_keeps_count_and_combiner_bounds (t : Trace) :
    (∃ m, combine (some t) (some t) = (some m, (t.spans.length : Int)) ∧
      m.spans.length = t.spans.length) ∧
    (∀ c : Combiner, c.combined = true → c.Result.1 = some t →
      ∃ m, combine (some t) (some t) = (some m, (t.spans.length : Int)) ∧
        m.spans.length = t.spans.length ∧
        storedBounds m.spans = storedBounds t.spans) := by
  have hs := mergeTrace_self_spans t
  have hb : (assignNestedSetBounds (mergeTrace t t)).spans
      = (assignNestedSetBounds t).spans := by
    rw [assignNestedSetBounds_spans, assignNestedSetBounds_spans, hs]
  have h1 : combine (some t) (some t)
      = (some (assignNestedSetBounds (mergeTrace t t)), (t.spans.length : Int)) := by
    rw [combine_some, assignNestedSetBounds_length, hs]
  have h2 : (assignNestedSetBounds (mergeTrace t t)).spans.length = t.spans.length := by
    rw [assignNestedSetBounds_length, hs]
  refine ⟨⟨_, h1, h2⟩, fun c hc ht => ⟨_, h1, h2, ?_⟩⟩
  obtain ⟨acc, hacc⟩ : ∃ acc, t = assignNestedSetBounds acc := by
    cases hr : c.result with
    | none =>
      simp [Combiner.Result, hr] at ht
    | some acc =>
      simp only [Combiner.Result, hr, hc] at ht
      exact ⟨acc, (Option.some.inj ht).symm⟩
  rw [hb, hacc]
  exact assignNestedSetBounds_idempotent acc

/-- C12, witness: the combiner of the last case of `TestCombiner` returns
`case8Expected`; that trace consumed twice by a fresh combiner comes back with two spans
and the bounds (1, 4), (2, 3) it had. -/
theorem C12_self_combine_keeps_count_and_combiner_bounds_witness :
    ((NewCombiner.Consume (some case8A)).Consume (some case8B)).combined = true ∧
    ((NewCombiner.Consume (some case8A)).Consume (some case8B)).Result.1
      = some case8Expected ∧
    ∃ m, combine (some case8Expected) (some case8Expected) = (some m, 2) ∧
      m.spans.length = 2 ∧ storedBounds m.spans = [(1, 4), (2, 3)] := by
  obtain ⟨m, hm, hlen, hb⟩ :=
    (C12_self_combine_keeps_count_and_combiner_bounds case8Expected).2
      ((NewCombiner.Consume (some case8A)).Consume (some case8B)) (by decide) (by decide)
  exact ⟨by decide, by decide, m, hm, hlen, hb.trans (by decide)⟩

end vparquet2

namespace ingester

/-! ## Live counter and live map -/

theorem filter_length_add (l : List liveTrace) (p : liveTrace → Bool) :
    (l.filter p).length + (l.filter (fun t => !(p t))).length = l.length := by
  induction l with
  | nil => rfl
  | cons x xs ih =>
    cases hp : p x <;> simp [List.filter, hp] <;> omega

theorem appendFragment_length (now : Nat) (id : TraceID) (tags : List Tag)
    (l : List liveTrace) : (appendFragment now id tags l).length = l.length := by
  induction l with
  | nil => rfl
  | cons x xs ih =>
    unfold appendFragment
    split <;> simp [ih]

theorem appendFragment_ids (now : Nat) (id : TraceID) (tags : List Tag) (l : List liveTrace) :
    (appendFragment now id tags l).map (fun t => t.traceID) = l.map (fun t => t.traceID) := by
  induction l with
  | nil => rfl
  | cons x xs ih =>
    unfold appendFragment
    split <;> simp [ih]

/-- What the live map and the blocks look like after a successful push. -/
theorem PushBytes_ok {i i' : Instance} {now : Nat} {id : TraceID} {payload : Option (List Tag)}
    (h : i.PushBytes now id payload = Except.ok i') :
    ∃ tags, payload = some tags ∧ validTraceID id = true ∧
      i'.limits = i.limits ∧ i'.headBlock = i.headBlock ∧
      i'.completingBlocks = i.completingBlocks ∧ i'.completeBlocks = i.completeBlocks ∧
      i'.nextBlockID = i.nextBlockID ∧
      ((id ∈ i.traces.map (fun t => t.traceID) ∧
          i'.traces = appendFragment now id tags i.traces ∧ i'.traceCount = i.traceCount) ∨
       (id ∉ i.traces.map (fun t => t.traceID) ∧
          i'.traces = i.traces ++ [{ traceID := id, fragments := [tags], lastAppend := now }] ∧
          i'.traceCount = i.traceCount + 1)) := by
  unfold Instance.PushBytes at h
  split at h
  · cases h
  · next hv =>
    have hvalid : validTraceID id = true := by
      cases hb : validTraceID id
      · exact absurd hb hv
      · rfl
    cases payload with
    | none => cases h
    | some tags =>
      simp only at h
      split at h
      · next hmem =>
        cases h
        exact ⟨tags, rfl, hvalid, rfl, rfl, rfl, rfl, rfl, Or.inl ⟨hmem, rfl, rfl⟩⟩
      · next hmem =>
        split at h
        · cases h
        · cases h
          exact ⟨tags, rfl, hvalid, rfl, rfl, rfl, rfl, rfl, Or.inr ⟨hmem, rfl, rfl⟩⟩

theorem LiveInv.step {i : Instance} (h : LiveInv i) (op : Op) : LiveInv (i.step op) := by
  cases op with
  | PushBytes now id payload =>
    simp only [Instance.step]
    cases hp : i.PushBytes now id payload with
    | error e => exact h
    | ok i' =>
      obtain ⟨tags, _, _, _, _, _, _, _, hcase⟩ := PushBytes_ok hp
      rcases hcase with ⟨_, ht, hc⟩ | ⟨hnew, ht, hc⟩
      · refine ⟨?_, ?_⟩
        · rw [hc, ht, appendFragment_length]; exact h.1
        · rw [ht, appendFragment_ids]; exact h.2
      · refine ⟨?_, ?_⟩
        · rw [hc, ht, h.1]; simp
        · rw [ht, List.map_append, List.nodup_append]
          refine ⟨h.2, by simp, ?_⟩
          intro x hx hx'
          simp only [List.map_cons, List.map_nil, List.mem_singleton] at hx'
          exact hnew (hx' ▸ hx)
  | CutCompleteTraces now cutoff immediate =>
    simp only [Instance.step, Instance.CutCompleteTraces]
    refine ⟨?_, ?_⟩
    · have := filter_length_add i.traces (liveTrace.isCut now cutoff immediate)
      simp only
      rw [h.1]
      omega
    · exact h.2.sublist ((List.filter_sublist _).map _)

theorem LiveInv.run (ops : List Op) : ∀ {i : Instance}, LiveInv i → LiveInv (i.run ops) := by
  induction ops with
  | nil => intro i h; exact h
  | cons op ops ih =>
    intro i h
    exact ih (h.step op)

theorem LiveInv.newInstance (limits : Limits) : LiveInv (newInstance limits) := by
  constructor <;> simp [ingester.newInstance]

/-- C13: for every instance, reached from a fresh one by any sequence of `PushBytes` and
`CutCompleteTraces` calls, the live counter `traceCount` equals the number of entries of
the live trace map.  The sequence is arbitrary, so the equality holds after each of its
calls; pushes that fail are included. -/
theorem C13_live_counter_equals_live_map_size (limits : Limits) (ops : List Op) :
    ((newInstance limits).run ops).traceCount
      = (((newInstance limits).run ops).traces.length : Int) :=
  (LiveInv.run ops (LiveInv.newInstance limits)).1

end ingester

namespace ingester

/-! ## Merging the results of the shards -/

theorem mem_mergeResults (new : List TraceID) :
    ∀ acc x, x ∈ mergeResults acc new ↔ x ∈ acc ∨ x ∈ new := by
  induction new with
  | nil => intro acc x; simp [mergeResults]
  | cons id ids ih =>
    intro acc x
    unfold mergeResults
    split
    · next hmem =>
      rw [ih]
      constructor
      · rintro (h | h)
        · exact Or.inl h
        · exact Or.inr (List.mem_cons_of_mem _ h)
      · rintro (h | h)
        · exact Or.inl h
        · rcases List.mem_cons.1 h with rfl | h
          · exact Or.inl hmem
          · exact Or.inr h
    · rw [ih]
      simp only [List.mem_append, List.mem_singleton, List.mem_cons]
      tauto

theorem mergeResults_nodup (new : List TraceID) :
    ∀ acc, acc.Nodup → (mergeResults acc new).Nodup := by
  induction new with
  | nil => intro acc h; exact h
  | cons id ids ih =>
    intro acc h
    unfold mergeResults
    split
    · exact ih acc h
    · next hmem =>
      apply ih
      rw [List.nodup_append]
      exact ⟨h, by simp, by
        intro x hx hx'
        simp only [List.mem_singleton] at hx'
        exact hmem (hx' ▸ hx)⟩

theorem mergeResults_append (a b : List TraceID) :
    ∀ acc, mergeResults acc (a ++ b) = mergeResults (mergeResults acc a) b := by
  induction a with
  | nil => intro acc; rfl
  | cons x xs ih =>
    intro acc
    simp only [List.cons_append, mergeResults]
    split <;> exact ih _

theorem mergeResults_length_le (new : List TraceID) :
    ∀ acc, acc.length ≤ (mergeResults acc new).length := by
  induction new with
  | nil => intro acc; exact le_refl _
  | cons id ids ih =>
    intro acc
    unfold mergeResults
    split
    · exact ih acc
    · have := ih (acc ++ [id])
      simp only [List.length_append, List.length_singleton] at this
      omega

/-- Merging in trace IDs that are all new and distinct appends them. -/
theorem mergeResults_of_new (new : List TraceID) :
    ∀ acc, new.Nodup → (∀ x ∈ new, x ∉ acc) → mergeResults acc new = acc ++ new := by
  induction new with
  | nil => intro acc _ _; simp [mergeResults]
  | cons id ids ih =>
    intro acc hnd hnew
    rw [List.nodup_cons] at hnd
    unfold mergeResults
    rw [if_neg (hnew id (List.mem_cons_self _ _))]
    rw [ih (acc ++ [id]) hnd.2]
    · simp
    · intro x hx hx'
      rcases List.mem_append.1 hx' with h | h
      · exact hnew x (List.mem_cons_of_mem _ hx) h
      · simp only [List.mem_singleton] at h
        exact hnd.1 (h ▸ hx)

/-- Merging in trace IDs that are all present changes nothing. -/
theorem mergeResults_of_present (new : List TraceID) :
    ∀ acc, (∀ x ∈ new, x ∈ acc) → mergeResults acc new = acc := by
  induction new with
  | nil => intro acc _; rfl
  | cons id ids ih =>
    intro acc h
    unfold mergeResults
    rw [if_pos (h id (List.mem_cons_self _ _))]
    exact ih acc (fun x hx => h x (List.mem_cons_of_mem _ hx))

/-- With a limit above the number of distinct matches, every shard is searched and the
results are all matches. -/
theorem searchShards_full (req : List (String × String)) (limit : Nat) (bs : List block) :
    ∀ st, (mergeResults st.results (bs.flatMap (block.search req))).length < limit →
      searchShards req limit bs st
        = { results := mergeResults st.results (bs.flatMap (block.search req))
            inspectedTraces := st.inspectedTraces + (bs.map (fun b => b.traces.length)).sum
            inspectedBytes := st.inspectedBytes + (bs.map block.bytes).sum } := by
  induction bs with
  | nil => intro st _; simp [searchShards, mergeResults]
  | cons b bs ih =>
    intro st h
    rw [List.flatMap_cons, mergeResults_append] at h
    have h1 := mergeResults_length_le (bs.flatMap (block.search req))
      (mergeResults st.results (b.search req))
    have h2 := mergeResults_length_le (b.search req) st.results
    unfold searchShards
    rw [if_neg (by omega), List.take_of_length_le (by omega)]
    rw [ih _ h]
    simp only [List.flatMap_cons, mergeResults_append, List.map_cons, List.sum_cons,
      Nat.add_assoc]

/-- With a limit above the number of distinct matches stored, `Search` returns all of
them, each once, and inspects every trace of every shard. -/
theorem Search_full (i : Instance) (req : SearchRequest)
    (h : (i.allMatches req.Tags).length < req.Limit) :
    (i.Search req).Traces = i.allMatches req.Tags ∧
    (i.Search req).Metrics.InspectedTraces = i.storedTraces := by
  have hl : (if req.Limit = 0 then defaultLimit else req.Limit) = req.Limit := by
    rw [if_neg (by omega)]
  unfold Instance.Search
  rw [hl]
  simp only
  rw [searchShards_full req.Tags req.Limit i.shards
    { results := [], inspectedTraces := 0, inspectedBytes := 0 } h]
  simp [Instance.allMatches, Instance.storedTraces]

end ingester

namespace ingester

/-! ## The block lifecycle after a forced cut -/

theorem step_push_frame (i : Instance) (now : Nat) (id : TraceID) (payload : Option (List Tag)) :
    (i.step (Op.PushBytes now id payload)).headBlock = i.headBlock ∧
    (i.step (Op.PushBytes now id payload)).completingBlocks = i.completingBlocks ∧
    (i.step (Op.PushBytes now id payload)).completeBlocks = i.completeBlocks ∧
    (i.step (Op.PushBytes now id payload)).nextBlockID = i.nextBlockID ∧
    (i.step (Op.PushBytes now id payload)).limits = i.limits := by
  simp only [Instance.step]
  cases hp : i.PushBytes now id payload with
  | error e => exact ⟨rfl, rfl, rfl, rfl, rfl⟩
  | ok i' =>
    obtain ⟨_, _, _, h1, h2, h3, h4, h5, _⟩ := PushBytes_ok hp
    exact ⟨h2, h3, h4, h5, h1⟩

theorem pushAll_frame (ps : List Push) :
    ∀ i : Instance, (i.pushAll ps).headBlock = i.headBlock ∧
      (i.pushAll ps).completingBlocks = i.completingBlocks ∧
      (i.pushAll ps).completeBlocks = i.completeBlocks ∧
      (i.pushAll ps).nextBlockID = i.nextBlockID ∧
      (i.pushAll ps).limits = i.limits := by
  induction ps with
  | nil => intro i; exact ⟨rfl, rfl, rfl, rfl, rfl⟩
  | cons p ps ih =>
    intro i
    have h1 := step_push_frame i p.now p.id p.payload
    have h2 := ih (i.step (Op.PushBytes p.now p.id p.payload))
    simp only [Instance.pushAll, Instance.run, List.map_cons, List.foldl_cons] at h2 ⊢
    exact ⟨h2.1.trans h1.1, h2.2.1.trans h1.2.1, h2.2.2.1.trans h1.2.2.1,
      h2.2.2.2.1.trans h1.2.2.2.1, h2.2.2.2.2.trans h1.2.2.2.2⟩

theorem pushAll_liveInv (limits : Limits) (ps : List Push) :
    LiveInv ((newInstance limits).pushAll ps) :=
  LiveInv.run _ (LiveInv.newInstance limits)

theorem cutBlock_search (i : Instance) (id : Nat) (req : List (String × String)) :
    (i.cutBlock id).search req = i.liveMatches req := rfl

theorem liveMatches_nodup {i : Instance} (h : LiveInv i) (req : List (String × String)) :
    (i.liveMatches req).Nodup := by
  have hs : List.Sublist (i.liveMatches req) (i.traces.map (fun t => t.traceID)) := by
    have h1 : List.Sublist ((i.traces.map liveTrace.combine).filter (blockTrace.matchesTags req))
        (i.traces.map liveTrace.combine) := List.filter_sublist _
    have h2 := h1.map (fun t => t.traceID)
    simpa [Instance.liveMatches, liveTrace.combine, Function.comp] using h2
  exact h.2.sublist hs

/-- A forced cut moves every live trace into the head block. -/
theorem CutCompleteTraces_forced (i : Instance) (now cutoff : Nat) :
    (i.CutCompleteTraces now cutoff true).traces = [] ∧
    (i.CutCompleteTraces now cutoff true).headBlock
      = { i.headBlock with traces := i.headBlock.traces ++ i.traces.map liveTrace.combine } ∧
    (i.CutCompleteTraces now cutoff true).completingBlocks = i.completingBlocks ∧
    (i.CutCompleteTraces now cutoff true).completeBlocks = i.completeBlocks ∧
    (i.CutCompleteTraces now cutoff true).nextBlockID = i.nextBlockID := by
  have hall : i.traces.filter (liveTrace.isCut now cutoff true) = i.traces :=
    List.filter_eq_self.2 (fun t _ => by simp [liveTrace.isCut])
  refine ⟨?_, ?_, rfl, rfl, rfl⟩
  · simp [Instance.CutCompleteTraces, liveTrace.isCut]
  · simp only [Instance.CutCompleteTraces, hall]

/-- The search over the shards of the four stages of the lifecycle of one block `b`:
`copies` is how many shards hold `b`, the other shards are empty. -/
theorem search_of_shards (i : Instance) (req : SearchRequest) (b : block) (front : List block)
    (copies : List block) (hs : i.shards = front ++ copies)
    (hfront : ∀ x ∈ front, x.traces = []) (hcopies : ∀ x ∈ copies, x = b)
    (hne : copies ≠ []) (hnd : (b.search req.Tags).Nodup)
    (hlim : (b.search req.Tags).length < req.Limit) :
    i.SearchGives req (b.search req.Tags) (copies.length * b.traces.length) := by
  have hflat : ∀ l : List block, (∀ x ∈ l, x.traces = []) →
      l.flatMap (block.search req.Tags) = [] ∧ (l.map (fun x => x.traces.length)).sum = 0 := by
    intro l
    induction l with
    | nil => intro _; exact ⟨rfl, rfl⟩
    | cons x xs ih =>
      intro h
      have hx := h x (List.mem_cons_self _ _)
      have := ih (fun y hy => h y (List.mem_cons_of_mem _ hy))
      simp [block.search, hx, this.1, this.2]
  have hcop : ∀ l : List block, (∀ x ∈ l, x = b) → ∀ acc,
      (∀ x ∈ b.search req.Tags, x ∈ acc) →
      mergeResults acc (l.flatMap (block.search req.Tags)) = acc ∧
      (l.map (fun x => x.traces.length)).sum = l.length * b.traces.length := by
    intro l
    induction l with
    | nil => intro _ acc _; exact ⟨rfl, by simp⟩
    | cons x xs ih =>
      intro h acc hacc
      have hx := h x (List.mem_cons_self _ _)
      have := ih (fun y hy => h y (List.mem_cons_of_mem _ hy)) acc hacc
      subst hx
      refine ⟨?_, ?_⟩
      · rw [List.flatMap_cons, mergeResults_append, mergeResults_of_present _ _ hacc]
        exact this.1
      · rw [List.map_cons, List.sum_cons, this.2, List.length_cons]
        ring
  have hall : i.allMatches req.Tags = b.search req.Tags := by
    unfold Instance.allMatches
    rw [hs, List.flatMap_append, (hflat front hfront).1, List.nil_append]
    cases copies with
    | nil => exact absurd rfl hne
    | cons c cs =>
      have hc := hcopies c (List.mem_cons_self _ _)
      subst hc
      rw [List.flatMap_cons, mergeResults_append,
        mergeResults_of_new _ [] hnd (fun x _ => by simp), List.nil_append]
      exact (hcop cs (fun y hy => hcopies y (List.mem_cons_of_mem _ hy)) _
        (fun x hx => hx)).1
  have hst : i.storedTraces = copies.length * b.traces.length := by
    unfold Instance.storedTraces
    rw [hs, List.map_append, List.sum_append, (hflat front hfront).2, Nat.zero_add]
    exact (hcop copies hcopies (b.search req.Tags) (fun x hx => hx)).2
  have hfull := Search_full i req (by rw [hall]; exact hlim)
  exact ⟨hfull.1.trans hall, hfull.2.trans hst⟩

end ingester

namespace ingester

/-- The instance after a forced cut of the live traces pushed into a fresh instance. -/
theorem afterCut_fields (limits : Limits) (ps : List Push) (now cutoff : Nat) :
    (((newInstance limits).pushAll ps).CutCompleteTraces now cutoff true).headBlock
      = ((newInstance limits).pushAll ps).cutBlock 1 ∧
    (((newInstance limits).pushAll ps).CutCompleteTraces now cutoff true).completingBlocks = [] ∧
    (((newInstance limits).pushAll ps).CutCompleteTraces now cutoff true).completeBlocks = [] ∧
    (((newInstance limits).pushAll ps).CutCompleteTraces now cutoff true).nextBlockID = 2 := by
  obtain ⟨h1, h2, h3, h4, _⟩ := pushAll_frame ps (newInstance limits)
  obtain ⟨_, c2, c3, c4, c5⟩ :=
    CutCompleteTraces_forced ((newInstance limits).pushAll ps) now cutoff
  refine ⟨?_, c3.trans h2, c4.trans h3, c5.trans h4⟩
  rw [c2, h1]
  simp [newInstance, Instance.cutBlock]

/-- What `Search` returns at each stage of the lifecycle of the block that holds the
traces pushed into a fresh instance and then cut. -/
theorem lifecycle_search (limits : Limits) (ps : List Push) (now cutoff : Nat)
    (req : SearchRequest)
    (hlim : (((newInstance limits).pushAll ps).liveMatches req.Tags).length < req.Limit) :
    (((newInstance limits).pushAll ps).CutCompleteTraces now cutoff true).SearchGives req
      (((newInstance limits).pushAll ps).liveMatches req.Tags)
      ((newInstance limits).pushAll ps).traces.length ∧
    ∀ maxBytes maxTraces immediate i2 bid,
      (((newInstance limits).pushAll ps).CutCompleteTraces now cutoff true).CutBlockIfReady
          maxBytes maxTraces immediate = (i2, some bid) →
      i2.SearchGives req (((newInstance limits).pushAll ps).liveMatches req.Tags)
        ((newInstance limits).pushAll ps).traces.length ∧
      ∀ encoded i3, i2.CompleteBlock bid encoded = Except.ok i3 →
        i3.SearchGives req (((newInstance limits).pushAll ps).liveMatches req.Tags)
          (2 * ((newInstance limits).pushAll ps).traces.length) ∧
        ∀ i4, i3.ClearCompletingBlock bid = Except.ok i4 →
          i4.SearchGives req (((newInstance limits).pushAll ps).liveMatches req.Tags)
            ((newInstance limits).pushAll ps).traces.length := by
  obtain ⟨f1, f2, f3, f4⟩ := afterCut_fields limits ps now cutoff
  generalize ((newInstance limits).pushAll ps).CutCompleteTraces now cutoff true = i1
    at f1 f2 f3 f4
  have hinv := pushAll_liveInv limits ps
  generalize (newInstance limits).pushAll ps = i0 at f1 hinv hlim
  have hnd := liveMatches_nodup hinv req.Tags
  have hblk : (i0.cutBlock 1).traces.length = i0.traces.length := by
    simp [Instance.cutBlock]
  have hsearch : (i0.cutBlock 1).search req.Tags = i0.liveMatches req.Tags := rfl
  have key : ∀ (i : Instance) (front copies : List block), i.shards = front ++ copies →
      (∀ x ∈ front, x.traces = []) → (∀ x ∈ copies, x = i0.cutBlock 1) → copies ≠ [] →
      i.SearchGives req (i0.liveMatches req.Tags) (copies.length * i0.traces.length) := by
    intro i front copies hs hf hc hne
    have := search_of_shards i req (i0.cutBlock 1) front copies hs hf hc hne
      (by rw [hsearch]; exact hnd) (by rw [hsearch]; exact hlim)
    rw [hsearch, hblk] at this
    exact this
  refine ⟨?_, ?_⟩
  · have := key i1 [] [i0.cutBlock 1] (by simp [Instance.shards, f1, f2, f3]) (by simp)
      (by simp) (by simp)
    simpa using this
  · intro maxBytes maxTraces immediate i2 bid hcut
    unfold Instance.CutBlockIfReady at hcut
    split at hcut
    · simp at hcut
    · split at hcut
      · simp only [Prod.mk.injEq, Option.some.injEq] at hcut
        obtain ⟨hi2, hbid⟩ := hcut
        have g1 : i2.headBlock = { blockID := 2, traces := [] } := by
          rw [← hi2]; simp [f4]
        have g2 : i2.completingBlocks = [i0.cutBlock 1] := by
          rw [← hi2]; simp [f1, f2]
        have g3 : i2.completeBlocks = [] := by
          rw [← hi2]; simp [f3]
        have hb1 : bid = 1 := by
          rw [← hbid, f1]; rfl
        subst hb1
        refine ⟨?_, ?_⟩
        · have := key i2 [{ blockID := 2, traces := [] }] [i0.cutBlock 1]
            (by simp [Instance.shards, g1, g2, g3]) (by simp) (by simp) (by simp)
          simpa using this
        · intro encoded i3 hcomp
          unfold Instance.CompleteBlock at hcomp
          have hfind : i2.completingBlocks.find? (fun b => b.blockID = 1)
              = some (i0.cutBlock 1) := by
            rw [g2]; simp [Instance.cutBlock]
          rw [hfind] at hcomp
          simp only at hcomp
          split at hcomp
          · simp only [Except.ok.injEq] at hcomp
            have k1 : i3.headBlock = { blockID := 2, traces := [] } := by
              rw [← hcomp]; exact g1
            have k2 : i3.completingBlocks = [i0.cutBlock 1] := by
              rw [← hcomp]; exact g2
            have k3 : i3.completeBlocks = [i0.cutBlock 1] := by
              rw [← hcomp]; simp [g3]
            refine ⟨?_, ?_⟩
            · have := key i3 [{ blockID := 2, traces := [] }] [i0.cutBlock 1, i0.cutBlock 1]
                (by simp [Instance.shards, k1, k2, k3]) (by simp) (by simp) (by simp)
              simpa using this
            · intro i4 hclear
              unfold Instance.ClearCompletingBlock at hclear
              split at hclear
              · simp only [Except.ok.injEq] at hclear
                have m1 : i4.headBlock = { blockID := 2, traces := [] } := by
                  rw [← hclear]; exact k1
                have m2 : i4.completingBlocks = [] := by
                  rw [← hclear]; simp [k2, Instance.cutBlock]
                have m3 : i4.completeBlocks = [i0.cutBlock 1] := by
                  rw [← hclear]; exact k3
                have := key i4 [{ blockID := 2, traces := [] }] [i0.cutBlock 1]
                  (by simp [Instance.shards, m1, m2, m3]) (by simp) (by simp) (by simp)
                simpa using this
              · cases hclear
          · cases hcomp
      · simp at hcut

end ingester

namespace ingester

/-! ## The live table holds the accepted fragments -/

theorem find?_appendFragment (now : Nat) (id id' : TraceID) (tags : List Tag)
    (l : List liveTrace) :
    ((appendFragment now id tags l).find? (fun t => t.traceID = id')).map (fun t => t.fragments)
      = if id' = id then
          ((l.find? (fun t => t.traceID = id')).map (fun t => t.fragments ++ [tags]))
        else (l.find? (fun t => t.traceID = id')).map (fun t => t.fragments) := by
  induction l with
  | nil => simp [appendFragment]
  | cons x xs ih =>
    unfold appendFragment
    by_cases hx : x.traceID = id
    · rw [if_pos hx]
      by_cases hid : id' = id
      · subst hid
        simp [List.find?, hx]
      · have hne : ¬ x.traceID = id' := fun h => hid (h.symm.trans hx)
        simp [List.find?, hne, hid]
    · rw [if_neg hx]
      by_cases hx' : x.traceID = id'
      · have hid : ¬ id' = id := fun h => hx (hx'.trans h)
        simp [List.find?, hx', hid]
      · simp only [List.find?, hx', decide_False]
        exact ih

theorem liveFragments_push {i i' : Instance} {now : Nat} {id : TraceID}
    {payload : Option (List Tag)} (h : i.PushBytes now id payload = Except.ok i')
    (id' : TraceID) :
    i'.liveFragments id'
      = i.liveFragments id' ++ (if id' = id then [payload.getD []] else []) := by
  obtain ⟨tags, hpay, _, _, _, _, _, _, hcase⟩ := PushBytes_ok h
  subst hpay
  unfold Instance.liveFragments
  rcases hcase with ⟨hmem, ht, _⟩ | ⟨hnew, ht, _⟩
  · rw [ht, find?_appendFragment]
    by_cases hid : id' = id
    · subst hid
      obtain ⟨t, ht1, ht2⟩ := List.mem_map.1 hmem
      cases hf : i.traces.find? (fun t => t.traceID = id') with
      | none =>
        have := List.find?_eq_none.1 hf t ht1
        simp [ht2] at this
      | some u => simp
    · simp [hid]
  · rw [ht, List.find?_append]
    by_cases hid : id' = id
    · subst hid
      have hf : i.traces.find? (fun t => t.traceID = id') = none := by
        rw [List.find?_eq_none]
        intro t ht1
        simp only [decide_eq_true_eq]
        intro heq
        exact hnew (List.mem_map.2 ⟨t, ht1, heq⟩)
      simp [hf, List.find?]
    · have hne : ¬ id = id' := fun h => hid h.symm
      cases hf : i.traces.find? (fun t => t.traceID = id') with
      | none => simp [List.find?, hne, hid]
      | some u => simp [hid]

theorem ids_push {i i' : Instance} {now : Nat} {id : TraceID} {payload : Option (List Tag)}
    (h : i.PushBytes now id payload = Except.ok i') (id' : TraceID) :
    id' ∈ i'.traces.map (fun t => t.traceID)
      ↔ id' ∈ i.traces.map (fun t => t.traceID) ∨ id' = id := by
  obtain ⟨tags, _, _, _, _, _, _, _, hcase⟩ := PushBytes_ok h
  rcases hcase with ⟨hmem, ht, _⟩ | ⟨_, ht, _⟩
  · rw [ht, appendFragment_ids]
    constructor
    · exact Or.inl
    · rintro (h1 | rfl)
      · exact h1
      · exact hmem
  · rw [ht]
    simp

/-- After a sequence of pushes the live table holds, for every trace ID, the fragments
held before followed by the fragments accepted for it. -/
theorem pushAll_live (ps : List Push) :
    ∀ (i : Instance) (id : TraceID),
      (i.pushAll ps).liveFragments id = i.liveFragments id ++ fragmentsOf (i.accepted ps) id ∧
      (id ∈ (i.pushAll ps).traces.map (fun t => t.traceID)
        ↔ id ∈ i.traces.map (fun t => t.traceID) ∨ id ∈ (i.accepted ps).map (fun a => a.1)) := by
  induction ps with
  | nil => intro i id; simp [Instance.pushAll, Instance.run, Instance.accepted, fragmentsOf]
  | cons p ps ih =>
    intro i id
    have hrun : i.pushAll (p :: ps)
        = (i.step (Op.PushBytes p.now p.id p.payload)).pushAll ps := by
      simp [Instance.pushAll, Instance.run]
    rw [hrun]
    simp only [Instance.step, Instance.accepted]
    cases hp : i.PushBytes p.now p.id p.payload with
    | error e => exact ih i id
    | ok i' =>
      have h1 := ih i' id
      have h2 := liveFragments_push hp id
      have h3 := ids_push hp id
      simp only
      refine ⟨?_, ?_⟩
      · rw [h1.1, h2, List.append_assoc]
        congr 1
        by_cases hid : id = p.id
        · subst hid
          simp [fragmentsOf, List.filter]
        · have hne : ¬ p.id = id := fun h => hid h.symm
          simp [fragmentsOf, List.filter, hid, hne]
      · rw [h1.2, h3]
        simp only [List.map_cons, List.mem_cons]
        tauto

/-- The live matches are the live trace IDs whose live fragments match the tags. -/
theorem mem_liveMatches {i : Instance} (h : LiveInv i) (req : List (String × String))
    (x : TraceID) :
    x ∈ i.liveMatches req ↔
      x ∈ i.traces.map (fun t => t.traceID) ∧
      blockTrace.matchesTags req { traceID := x, tags := (i.liveFragments x).flatten } = true := by
  have hfind : ∀ t ∈ i.traces, i.traces.find? (fun u => u.traceID = t.traceID) = some t := by
    have hnd := h.2
    generalize i.traces = l at hnd
    induction l with
    | nil => intro t ht; simp at ht
    | cons y ys ih =>
      intro t ht
      rw [List.map_cons, List.nodup_cons] at hnd
      rcases List.mem_cons.1 ht with rfl | ht
      · simp [List.find?]
      · have hne : ¬ y.traceID = t.traceID := by
          intro heq
          exact hnd.1 (heq ▸ List.mem_map.2 ⟨t, ht, rfl⟩)
        simp only [List.find?, hne, decide_False]
        exact ih hnd.2 t ht
  unfold Instance.liveMatches
  simp only [List.mem_map, List.mem_filter]
  constructor
  · rintro ⟨b, ⟨⟨t, ht, rfl⟩, hm⟩, rfl⟩
    refine ⟨⟨t, ht, rfl⟩, ?_⟩
    simp only [Instance.liveFragments, liveTrace.combine, hfind t ht] at hm ⊢
    exact hm
  · rintro ⟨⟨t, ht, rfl⟩, hm⟩
    refine ⟨t.combine, ⟨⟨t, ht, rfl⟩, ?_⟩, rfl⟩
    simp only [Instance.liveFragments, liveTrace.combine, hfind t ht] at hm ⊢
    exact hm

/-- After pushes into a fresh instance, a trace ID is a live match exactly when a push
for it was accepted and the fragments accepted for it match the tags. -/
theorem mem_liveMatches_pushAll (limits : Limits) (ps : List Push)
    (req : List (String × String)) (x : TraceID) :
    x ∈ ((newInstance limits).pushAll ps).liveMatches req ↔
      x ∈ ((newInstance limits).accepted ps).map (fun a => a.1) ∧
      blockTrace.matchesTags req
        { traceID := x
          tags := (fragmentsOf ((newInstance limits).accepted ps) x).flatten } = true := by
  have h := pushAll_live ps (newInstance limits) x
  rw [mem_liveMatches (pushAll_liveInv limits ps), h.1, h.2]
  simp [newInstance, Instance.liveFragments]

end ingester

namespace ingester

/-! ## Push and search -/

theorem shards_push {i i' : Instance} {now : Nat} {id : TraceID} {payload : Option (List Tag)}
    (h : i.PushBytes now id payload = Except.ok i') : i'.shards = i.shards := by
  obtain ⟨_, _, _, _, h2, h3, h4, _, _⟩ := PushBytes_ok h
  simp [Instance.shards, h2, h3, h4]

theorem matchesTags_mono (req : List (String × String)) (a b : blockTrace)
    (hsub : ∀ g ∈ a.tags, g ∈ b.tags) (h : a.matchesTags req = true) :
    b.matchesTags req = true := by
  simp only [blockTrace.matchesTags, List.all_eq_true, List.any_eq_true] at h ⊢
  intro kv hkv
  obtain ⟨g, hg, hm⟩ := h kv hkv
  exact ⟨g, hsub g hg, hm⟩

theorem appendFragment_mem (now : Nat) (id : TraceID) (tags : List Tag) (l : List liveTrace)
    (h : id ∈ l.map (fun t => t.traceID)) :
    ∃ t ∈ appendFragment now id tags l, t.traceID = id ∧ tags ∈ t.fragments := by
  induction l with
  | nil => simp at h
  | cons x xs ih =>
    unfold appendFragment
    by_cases hx : x.traceID = id
    · rw [if_pos hx]
      exact ⟨_, List.mem_cons_self _ _, hx, by simp⟩
    · rw [if_neg hx]
      have hmem : id ∈ xs.map (fun t => t.traceID) := by
        rcases List.mem_cons.1 h with h1 | h1
        · exact absurd h1.symm hx
        · exact h1
      obtain ⟨t, ht, h1, h2⟩ := ih hmem
      exact ⟨t, List.mem_cons_of_mem _ ht, h1, h2⟩

/-- C14, counterexample: a valid trace with the tag `foo = bar` is pushed into a fresh
instance and the push succeeds.  The trace is held live and its fragment matches the tag,
yet `Search` for `foo = bar` returns no trace: live traces are not searched, as
`TestInstanceSearchTraceQL` asserts before its `CutCompleteTraces`. -/
theorem C14_counterexample_live_trace_is_not_found :
    ∃ i, (newInstance noLimits).PushBytes 1 (someID 1) (some [fooTag "bar"]) = Except.ok i ∧
      i.liveMatches [("foo", "bar")] = [someID 1] ∧
      (i.Search (fooBar 10)).Traces = [] := by
  refine ⟨_, rfl, by decide, by decide⟩

/-- C14, amended: for every instance and every valid (traceID, fragment), once the push
returns success the trace is held in the live table, where no search looks: every search
returns what it returned before the push.  The trace is searchable once
`CutCompleteTraces` has cut it: after a forced cut, a search whose tags match the pushed
fragment, with a limit above the number of matches stored, returns its ID. -/
theorem C14_pushed_trace_is_found_after_cut (i i' : Instance) (now : Nat) (id : TraceID)
    (payload : Option (List Tag)) (h : i.PushBytes now id payload = Except.ok i') :
    (∀ req, i'.Search req = i.Search req) ∧
    (∀ now2 cutoff req,
      blockTrace.matchesTags req.Tags { traceID := id, tags := payload.getD [] } = true →
      ((i'.CutCompleteTraces now2 cutoff true).allMatches req.Tags).length < req.Limit →
      id ∈ ((i'.CutCompleteTraces now2 cutoff true).Search req).Traces) := by
  refine ⟨?_, ?_⟩
  · intro req
    simp only [Instance.Search, shards_push h]
  · intro now2 cutoff req hmatch hlim
    rw [(Search_full _ req hlim).1]
    obtain ⟨tags, hpay, _, _, _, _, _, _, hcase⟩ := PushBytes_ok h
    subst hpay
    have hlive : ∃ t ∈ i'.traces, t.traceID = id ∧ tags ∈ t.fragments := by
      rcases hcase with ⟨hmem, ht, _⟩ | ⟨_, ht, _⟩
      · rw [ht]; exact appendFragment_mem now id tags i.traces hmem
      · rw [ht]
        exact ⟨{ traceID := id, fragments := [tags], lastAppend := now }, by simp, rfl,
          by simp⟩
    obtain ⟨t, ht, hid, hfrag⟩ := hlive
    have hhead := (CutCompleteTraces_forced i' now2 cutoff).2.1
    unfold Instance.allMatches
    rw [mem_mergeResults]
    right
    simp only [Instance.shards, List.flatMap_cons, List.mem_append]
    left
    rw [hhead]
    simp only [block.search, List.mem_map, List.mem_filter, List.mem_append]
    refine ⟨t.combine, ⟨Or.inr ⟨t, ht, rfl⟩, ?_⟩, hid⟩
    refine matchesTags_mono req.Tags { traceID := id, tags := tags } t.combine ?_ hmatch
    intro g hg
    simp only [liveTrace.combine, List.mem_flatten]
    exact ⟨tags, hfrag, hg⟩

/-- C14, witness: the trace of the counterexample is found once it has been cut. -/
theorem C14_pushed_trace_is_found_after_cut_witness :
    ∃ i, (newInstance noLimits).PushBytes 1 (someID 1) (some [fooTag "bar"]) = Except.ok i ∧
      (i.Search (fooBar 10)).Traces = [] ∧
      someID 1 ∈ ((i.CutCompleteTraces 2 0 true).Search (fooBar 10)).Traces := by
  refine ⟨_, rfl, by decide, ?_⟩
  exact (C14_pushed_trace_is_found_after_cut (newInstance noLimits) _ 1 (someID 1)
    (some [fooTag "bar"]) rfl).2 2 0 (fooBar 10) (by decide) (by decide)

end ingester

namespace ingester

/-! ## Search across the block lifecycle -/

theorem stages_reached :
    stageHead.CutBlockIfReady 0 0 true = (stageCompleting, some 1) ∧
    stageCompleting.CompleteBlock 1 true = Except.ok stageCompleted ∧
    stageCompleted.ClearCompletingBlock 1 = Except.ok stageCleared := by
  refine ⟨by decide, rfl, rfl⟩

/-- C15, counterexample: a trace with the tag `foo = bar` is pushed at time 5 and
`CutCompleteTraces` runs at time 5 with an idle threshold of 10 and without force.  The
trace is not idle, stays in the live table, and the search for `foo = bar` returns
nothing although the fragment pushed matches. -/
theorem C15_counterexample_unforced_cut_keeps_trace_live :
    ∃ i, (newInstance noLimits).PushBytes 5 (someID 1) (some [fooTag "bar"]) = Except.ok i ∧
      i.liveMatches [("foo", "bar")] = [someID 1] ∧
      ((i.CutCompleteTraces 5 10 false).Search (fooBar 10)).Traces = [] := by
  refine ⟨_, rfl, by decide, by decide⟩

/-- C15, amended: for every sequence of pushes into a fresh instance followed by a
forced `CutCompleteTraces`, `Search` with a tag predicate and a limit above the number
of matches returns exactly the trace IDs of which a push was accepted and whose accepted
fragments match the tags, each once; and it returns the same after `CutBlockIfReady` has
cut the head block, after the following `CompleteBlock` of that block, and after the
following `ClearCompletingBlock` of that block. -/
theorem C15_search_returns_matches_across_lifecycle (limits : Limits) (ps : List Push)
    (now cutoff : Nat) (req : SearchRequest)
    (hlim : (((newInstance limits).pushAll ps).liveMatches req.Tags).length < req.Limit) :
    (∀ x, x ∈ ((newInstance limits).pushAll ps).liveMatches req.Tags ↔
      x ∈ ((newInstance limits).accepted ps).map (fun a => a.1) ∧
      blockTrace.matchesTags req.Tags
        { traceID := x
          tags := (fragmentsOf ((newInstance limits).accepted ps) x).flatten } = true) ∧
    (((newInstance limits).pushAll ps).liveMatches req.Tags).Nodup ∧
    ((((newInstance limits).pushAll ps).CutCompleteTraces now cutoff true).Search req).Traces
      = ((newInstance limits).pushAll ps).liveMatches req.Tags ∧
    ∀ maxBytes maxTraces immediate i2 bid,
      (((newInstance limits).pushAll ps).CutCompleteTraces now cutoff true).CutBlockIfReady
          maxBytes maxTraces immediate = (i2, some bid) →
      (i2.Search req).Traces = ((newInstance limits).pushAll ps).liveMatches req.Tags ∧
      ∀ encoded i3, i2.CompleteBlock bid encoded = Except.ok i3 →
        (i3.Search req).Traces = ((newInstance limits).pushAll ps).liveMatches req.Tags ∧
        ∀ i4, i3.ClearCompletingBlock bid = Except.ok i4 →
          (i4.Search req).Traces = ((newInstance limits).pushAll ps).liveMatches req.Tags := by
  have h := lifecycle_search limits ps now cutoff req hlim
  refine ⟨mem_liveMatches_pushAll limits ps req.Tags,
    liveMatches_nodup (pushAll_liveInv limits ps) req.Tags, h.1.1, ?_⟩
  intro maxBytes maxTraces immediate i2 bid hcut
  have h2 := h.2 maxBytes maxTraces immediate i2 bid hcut
  refine ⟨h2.1.1, ?_⟩
  intro encoded i3 hcomp
  have h3 := h2.2 encoded i3 hcomp
  exact ⟨h3.1.1, fun i4 hclear => (h3.2 i4 hclear).1⟩

/-- C15, witness: trace 1 is pushed with `foo = bar`, trace 2 with `foo = baz`, trace 1
again with `foo = qux`.  At every stage the search for `foo = bar` returns trace 1
alone. -/
theorem C15_search_returns_matches_across_lifecycle_witness :
    (stageHead.Search (fooBar 5)).Traces = [someID 1] ∧
    (stageCompleting.Search (fooBar 5)).Traces = [someID 1] ∧
    (stageCompleted.Search (fooBar 5)).Traces = [someID 1] ∧
    (stageCleared.Search (fooBar 5)).Traces = [someID 1] := by
  have h := C15_search_returns_matches_across_lifecycle noLimits somePushes 4 0 (fooBar 5)
    (by decide)
  have h2 := h.2.2.2 0 0 true stageCompleting 1 stages_reached.1
  have h3 := h2.2 true stageCompleted stages_reached.2.1
  have h4 := h3.2 stageCleared stages_reached.2.2
  have hex : ((newInstance noLimits).pushAll somePushes).liveMatches (fooBar 5).Tags
      = [someID 1] := by decide
  exact ⟨h.2.2.1.trans hex, h2.1.trans hex, h3.1.trans hex, h4.trans hex⟩

/-- C16, counterexample: the three pushes of `somePushes` store two distinct traces.
Once the block has been completed and its completing copy is not yet cleared, a search
inspects four traces: each trace is counted in the completing block and again in the
completed block, as `TestInstanceSearchWithStartAndEnd` expects (200 for 100 traces). -/
theorem C16_counterexample_completed_block_is_counted_twice :
    stageHead.CutBlockIfReady 0 0 true = (stageCompleting, some 1) ∧
    stageCompleting.CompleteBlock 1 true = Except.ok stageCompleted ∧
    ((newInstance noLimits).pushAll somePushes).traces.length = 2 ∧
    (stageCompleted.Search (fooBar 5)).Metrics.InspectedTraces = 4 := by
  refine ⟨by decide, rfl, by decide, by decide⟩

/-- C16, amended: pushes into a fresh instance are followed by a forced
`CutCompleteTraces`, and a search runs with a limit above the number of matches.  At
every stage of the lifecycle of the block no trace ID is reported twice.  The
inspected-trace count equals the number of distinct traces stored while the traces are in
the head block, after the head block has been cut, and after the completing copy has
been cleared; between `CompleteBlock` and `ClearCompletingBlock` it is twice that
number. -/
theorem C16_search_counts_across_lifecycle (limits : Limits) (ps : List Push)
    (now cutoff : Nat) (req : SearchRequest)
    (hlim : (((newInstance limits).pushAll ps).liveMatches req.Tags).length < req.Limit) :
    (((((newInstance limits).pushAll ps).CutCompleteTraces now cutoff true).Search
        req).Traces.Nodup ∧
      ((((newInstance limits).pushAll ps).CutCompleteTraces now cutoff true).Search
        req).Metrics.InspectedTraces = ((newInstance limits).pushAll ps).traces.length) ∧
    ∀ maxBytes maxTraces immediate i2 bid,
      (((newInstance limits).pushAll ps).CutCompleteTraces now cutoff true).CutBlockIfReady
          maxBytes maxTraces immediate = (i2, some bid) →
      ((i2.Search req).Traces.Nodup ∧
        (i2.Search req).Metrics.InspectedTraces
          = ((newInstance limits).pushAll ps).traces.length) ∧
      ∀ encoded i3, i2.CompleteBlock bid encoded = Except.ok i3 →
        ((i3.Search req).Traces.Nodup ∧
          (i3.Search req).Metrics.InspectedTraces
            = 2 * ((newInstance limits).pushAll ps).traces.length) ∧
        ∀ i4, i3.ClearCompletingBlock bid = Except.ok i4 →
          (i4.Search req).Traces.Nodup ∧
          (i4.Search req).Metrics.InspectedTraces
            = ((newInstance limits).pushAll ps).traces.length := by
  have h := lifecycle_search limits ps now cutoff req hlim
  have hnd := liveMatches_nodup (pushAll_liveInv limits ps) req.Tags
  refine ⟨⟨h.1.1 ▸ hnd, h.1.2⟩, ?_⟩
  intro maxBytes maxTraces immediate i2 bid hcut
  have h2 := h.2 maxBytes maxTraces immediate i2 bid hcut
  refine ⟨⟨h2.1.1 ▸ hnd, h2.1.2⟩, ?_⟩
  intro encoded i3 hcomp
  have h3 := h2.2 encoded i3 hcomp
  refine ⟨⟨h3.1.1 ▸ hnd, h3.1.2⟩, ?_⟩
  intro i4 hclear
  exact ⟨(h3.2 i4 hclear).1 ▸ hnd, (h3.2 i4 hclear).2⟩

/-- C16, witness: the two traces of `somePushes`: the count is 2 in the head block, 2
after the cut of the head block, 4 after `CompleteBlock` and 2 after
`ClearCompletingBlock`. -/
theorem C16_search_counts_across_lifecycle_witness :
    (stageHead.Search (fooBar 5)).Metrics.InspectedTraces = 2 ∧
    (stageCompleting.Search (fooBar 5)).Metrics.InspectedTraces = 2 ∧
    (stageCompleted.Search (fooBar 5)).Metrics.InspectedTraces = 4 ∧
    (stageCleared.Search (fooBar 5)).Metrics.InspectedTraces = 2 := by
  have h := C16_search_counts_across_lifecycle noLimits somePushes 4 0 (fooBar 5) (by decide)
  have h2 := h.2 0 0 true stageCompleting 1 stages_reached.1
  have h3 := h2.2 true stageCompleted stages_reached.2.1
  have h4 := h3.2 stageCleared stages_reached.2.2
  have hn : ((newInstance noLimits).pushAll somePushes).traces.length = 2 := by decide
  exact ⟨h.1.2.trans hn, h2.1.2.trans hn, h3.1.2.trans (by rw [hn]), h4.2.trans hn⟩

end ingester

namespace ingester

/-! ## Tag names and tag values -/

/-- C17: for every instance state, `SearchTags` with scope "intrinsic", called with a
context that carries the tenant, succeeds and returns exactly the list duration, kind,
name, status, traceDuration, rootServiceName, rootName in that order, whatever traces
are stored; with a scope that is none of the known scopes (the empty scope, "none",
"span", "resource", "intrinsic") it returns an error and no response. -/
theorem C17_intrinsic_scope_and_unknown_scope (i : Instance) (orgID : String) :
    i.SearchTags (some orgID) "intrinsic"
      = Except.ok ["duration", "kind", "name", "status", "traceDuration", "rootServiceName",
          "rootName"] ∧
    ∀ scope, scope ∉ ["", "none", "span", "resource", "intrinsic"] →
      i.SearchTags (some orgID) scope = Except.error Error.InvalidArgument := by
  refine ⟨rfl, ?_⟩
  intro scope hs
  simp only [List.mem_cons, List.mem_singleton, List.not_mem_nil, or_false, not_or] at hs
  obtain ⟨h1, h2, h3, h4, h5⟩ := hs
  simp [Instance.SearchTags, h1, h2, h3, h4, h5]

/-- C17, witness: on the instance `stageHead`, which stores traces, the scope "foo" is
rejected and the scope "intrinsic" returns the static list. -/
theorem C17_intrinsic_scope_and_unknown_scope_witness :
    stageHead.SearchTags (some "fake") "foo" = Except.error Error.InvalidArgument ∧
    stageHead.SearchTags (some "fake") "intrinsic" = Except.ok intrinsics :=
  ⟨(C17_intrinsic_scope_and_unknown_scope stageHead "fake").2 "foo" (by decide),
   (C17_intrinsic_scope_and_unknown_scope stageHead "fake").1⟩

/-- What the collector guarantees of the values it holds. -/
theorem Collect_inv (d : DistinctStringCollector) (s : String)
    (h : d.values.Nodup ∧ totalBytes d.values ≤ d.totalLen ∧
      (0 < d.maxLen → totalBytes d.values ≤ d.maxLen)) :
    (d.Collect s).values.Nodup ∧ totalBytes (d.Collect s).values ≤ (d.Collect s).totalLen ∧
      (0 < (d.Collect s).maxLen → totalBytes (d.Collect s).values ≤ (d.Collect s).maxLen) ∧
      (d.Collect s).maxLen = d.maxLen ∧
      (∀ x ∈ (d.Collect s).values, x ∈ d.values ∨ x = s) ∧
      (∀ x ∈ d.values, x ∈ (d.Collect s).values) ∧
      (d.maxLen = 0 → s ∈ (d.Collect s).values) := by
  obtain ⟨h1, h2, h3⟩ := h
  unfold DistinctStringCollector.Collect
  split
  · next hmem => exact ⟨h1, h2, h3, rfl, fun x hx => Or.inl hx, fun x hx => hx, fun _ => hmem⟩
  · next hmem =>
    split
    · next hfull =>
      refine ⟨h1, by simp only; omega, h3, rfl, fun x hx => Or.inl hx, fun x hx => hx, ?_⟩
      intro h0
      omega
    · next hfit =>
      have htb : totalBytes (d.values ++ [s]) = totalBytes d.values + s.utf8ByteSize := by
        simp [totalBytes]
      refine ⟨?_, ?_, ?_, rfl, ?_, ?_, ?_⟩
      · rw [List.nodup_append]
        exact ⟨h1, by simp, by
          intro x hx hx'
          simp only [List.mem_singleton] at hx'
          exact hmem (hx' ▸ hx)⟩
      · simp only [htb]; omega
      · intro hpos
        simp only [htb]
        simp only at hpos
        have : ¬ d.maxLen < d.totalLen + s.utf8ByteSize := fun hlt => hfit ⟨hpos, hlt⟩
        omega
      · intro x hx
        simpa using hx
      · intro x hx
        simp [hx]
      · intro _
        simp

theorem CollectAll_inv (l : List String) :
    ∀ d : DistinctStringCollector,
      (d.values.Nodup ∧ totalBytes d.values ≤ d.totalLen ∧
        (0 < d.maxLen → totalBytes d.values ≤ d.maxLen)) →
      ((d.CollectAll l).values.Nodup ∧
        (0 < d.maxLen → totalBytes (d.CollectAll l).values ≤ d.maxLen) ∧
        (∀ x ∈ (d.CollectAll l).values, x ∈ d.values ∨ x ∈ l) ∧
        (d.maxLen = 0 → ∀ x, x ∈ d.values ∨ x ∈ l → x ∈ (d.CollectAll l).values)) := by
  induction l with
  | nil =>
    intro d h
    exact ⟨h.1, h.2.2, fun x hx => Or.inl hx, fun _ x hx => by simpa using hx⟩
  | cons s ss ih =>
    intro d h
    obtain ⟨c1, c2, c3, c4, c5, c6, c7⟩ := Collect_inv d s h
    obtain ⟨i1, i2, i3, i4⟩ := ih (d.Collect s) ⟨c1, c2, c3⟩
    have hstep : d.CollectAll (s :: ss) = (d.Collect s).CollectAll ss := rfl
    rw [hstep]
    refine ⟨i1, ?_, ?_, ?_⟩
    · intro hpos
      have := i2 (by rw [c4]; exact hpos)
      rw [c4] at this
      exact this
    · intro x hx
      rcases i3 x hx with h1 | h1
      · rcases c5 x h1 with h2 | h2
        · exact Or.inl h2
        · exact Or.inr (h2 ▸ List.mem_cons_self _ _)
      · exact Or.inr (List.mem_cons_of_mem _ h1)
    · intro h0 x hx
      apply i4 (by rw [c4]; exact h0)
      rcases hx with h1 | h1
      · exact Or.inl (c6 x h1)
      · rcases List.mem_cons.1 h1 with rfl | h2
        · exact Or.inl (c7 h0)
        · exact Or.inr h2

/-- The instance with the byte budget of tag value queries lifted. -/
theorem storedTags_unbounded (i : Instance) :
    ({ i with limits := { i.limits with MaxBytesPerTagValuesQuery := 0 } } : Instance).storedTags
      = i.storedTags := rfl

/-- C18: for every instance whose tenant has a positive `MaxBytesPerTagValuesQuery`
budget B, `SearchTagValues` succeeds and the total byte length of the values returned is
at most B.  The values are distinct values of the unbounded query, and when the values
of the unbounded query take more than B bytes, fewer values are returned than the
unbounded query returns. -/
theorem C18_tag_values_fit_the_budget (i : Instance) (orgID tagName : String)
    (hB : 0 < i.limits.MaxBytesPerTagValuesQuery) :
    ∃ vals all,
      i.SearchTagValues (some orgID) tagName = Except.ok vals ∧
      ({ i with limits := { i.limits with MaxBytesPerTagValuesQuery := 0 } } :
        Instance).SearchTagValues (some orgID) tagName = Except.ok all ∧
      totalBytes vals ≤ i.limits.MaxBytesPerTagValuesQuery ∧
      vals.Nodup ∧ (∀ v ∈ vals, v ∈ all) ∧
      (i.limits.MaxBytesPerTagValuesQuery < totalBytes all → vals.length < all.length) := by
  refine ⟨_, _, rfl, rfl, ?_⟩
  simp only [storedTags_unbounded]
  generalize (i.storedTags.filter (fun g => g.key = tagName)).map (fun g => g.value) = l
  have hb := CollectAll_inv l (NewDistinctStringCollector i.limits.MaxBytesPerTagValuesQuery)
    ⟨by simp [NewDistinctStringCollector], by simp [NewDistinctStringCollector, totalBytes],
     by simp [NewDistinctStringCollector, totalBytes]⟩
  have hu := CollectAll_inv l (NewDistinctStringCollector 0)
    ⟨by simp [NewDistinctStringCollector], by simp [NewDistinctStringCollector, totalBytes],
     by simp [NewDistinctStringCollector, totalBytes]⟩
  obtain ⟨b1, b2, b3, _⟩ := hb
  obtain ⟨_, _, _, u4⟩ := hu
  have hsub : ∀ v ∈ ((NewDistinctStringCollector i.limits.MaxBytesPerTagValuesQuery).CollectAll
      l).values, v ∈ ((NewDistinctStringCollector 0).CollectAll l).values := by
    intro v hv
    refine u4 rfl v ?_
    rcases b3 v hv with h1 | h1
    · simp [NewDistinctStringCollector] at h1
    · exact Or.inr h1
  have hbytes := b2 hB
  refine ⟨hbytes, b1, hsub, ?_⟩
  intro hover
  have hsp := List.subperm_of_subset b1 hsub
  by_contra hlen
  have hperm := hsp.perm_of_length_le (by omega)
  have hsum := (hperm.map String.utf8ByteSize).sum_eq
  simp only [NewDistinctStringCollector] at hbytes hover hsum
  unfold totalBytes at hbytes hover
  omega

end ingester

namespace ingester

set_option maxRecDepth 100000 in
theorem budgetInstance_values :
    budgetInstance.SearchTagValues (some "fake") "foo" = Except.ok ["bar0", "bar1"] ∧
    (({ budgetInstance with
        limits := { budgetInstance.limits with MaxBytesPerTagValuesQuery := 0 } } :
      Instance).SearchTagValues (some "fake") "foo").toOption.map List.length = some 100 := by
  refine ⟨rfl, by decide⟩

end ingester

namespace ingester

theorem budgetInstance_limits : budgetInstance.limits.MaxBytesPerTagValuesQuery = 10 := by
  have h := (pushAll_frame hundredPushes
    (newInstance { noLimits with MaxBytesPerTagValuesQuery := 10 })).2.2.2.2
  simp only [budgetInstance, Instance.CutCompleteTraces, h]
  rfl

/-- C18, witness: the case of
`TestInstanceSearchMaxBytesPerTagValuesQueryReturnsPartial`: a hundred traces carry the
values bar0 to bar99 of the tag foo and the budget is 10 bytes.  Two values are
returned, of 8 bytes in total, where the unbounded query returns a hundred. -/
theorem C18_tag_values_fit_the_budget_witness :
    ∃ vals all,
      budgetInstance.SearchTagValues (some "fake") "foo" = Except.ok vals ∧
      ({ budgetInstance with
          limits := { budgetInstance.limits with MaxBytesPerTagValuesQuery := 0 } } :
        Instance).SearchTagValues (some "fake") "foo" = Except.ok all ∧
      vals = ["bar0", "bar1"] ∧ totalBytes vals ≤ 10 ∧ all.length = 100 ∧
      vals.length < all.length := by
  obtain ⟨vals, all, h1, h2, h3, _, _, h6⟩ :=
    C18_tag_values_fit_the_budget budgetInstance "fake" "foo"
      (by rw [budgetInstance_limits]; decide)
  have hv : vals = ["bar0", "bar1"] := by
    have := budgetInstance_values.1
    rw [h1] at this
    exact Except.ok.inj this
  have ha : all.length = 100 := by
    have := budgetInstance_values.2
    rw [h2] at this
    exact Option.some.inj this
  rw [budgetInstance_limits] at h3
  refine ⟨vals, all, h1, h2, hv, h3, ha, ?_⟩
  rw [hv, ha]
  decide

end ingester

namespace vparquet

/-! ## The footer-magic read and the little-endian codec -/

theorem Uint32_PutUint32 (q : List Nat) (v : Nat) (hv : v < 2 ^ 32) :
    Uint32 (PutUint32 q v) = v := by
  simp only [Uint32, PutUint32, List.cons_append, List.nil_append, List.getD_cons_zero,
    List.getD_cons_succ]
  omega

theorem PutUint32_length (q : List Nat) (v : Nat) (hq : 4 ≤ q.length) :
    (PutUint32 q v).length = q.length := by
  simp only [PutUint32, List.length_append, List.length_cons, List.length_nil,
    List.length_drop]
  omega

/-- C24: for every `parquetOptimizedReaderAt` with `footerSize > 0` and file size `s`,
and every buffer `p` of length exactly 8, `ReadAt(p, s-8)` (the difference taken in
`int64`, as the source does) returns `(8, nil)`, without a call of the wrapped reader;
afterwards `p` has eight bytes, `p[0..4)` is what `binary.LittleEndian.PutUint32` writes
for the footer size, `p[4..8)` is "PAR1", and, the footer size being a `uint32`,
`binary.LittleEndian.Uint32(p)` gives the footer size back.  The codec round trip holds
for every `uint32` value `v` and every slice `q` of at least four bytes: `PutUint32`
keeps the length of `q` and `Uint32` of the result is `v`. -/
theorem C24_footer_magic_read_decodes_to_footer_size {σ : Type}
    (r : parquetOptimizedReaderAt σ) (p : List Nat) (s : σ) :
    (p.length = 8 → r.footerSize > 0 →
      (r.ReadAt p (int64 (r.readerSize - 8)) s).1.n = 8 ∧
      (r.ReadAt p (int64 (r.readerSize - 8)) s).1.err = none ∧
      (r.ReadAt p (int64 (r.readerSize - 8)) s).2 = s ∧
      (r.ReadAt p (int64 (r.readerSize - 8)) s).1.p.length = 8 ∧
      (r.ReadAt p (int64 (r.readerSize - 8)) s).1.p.take 4
        = PutUint32 [0, 0, 0, 0] r.footerSize ∧
      (r.ReadAt p (int64 (r.readerSize - 8)) s).1.p.drop 4 = PAR1 ∧
      (r.footerSize < 2 ^ 32 →
        Uint32 (r.ReadAt p (int64 (r.readerSize - 8)) s).1.p = r.footerSize)) ∧
    (∀ (q : List Nat) (v : Nat), 4 ≤ q.length → v < 2 ^ 32 →
      (PutUint32 q v).length = q.length ∧ Uint32 (PutUint32 q v) = v) := by
  refine ⟨?_, fun q v hq hv => ⟨PutUint32_length q v hq, Uint32_PutUint32 q v hv⟩⟩
  intro hp hf
  obtain ⟨a, b, c, d, e, f, g, h, rfl⟩ := List.eq_of_length_eight p hp
  have hout : r.ReadAt [a, b, c, d, e, f, g, h] (int64 (r.readerSize - 8)) s
      = ({ p := PutUint32 [0, 0, 0, 0] r.footerSize ++ PAR1, n := 8, err := none }, s) := by
    unfold parquetOptimizedReaderAt.ReadAt
    rw [if_neg (by simp), if_pos ⟨rfl, rfl, hf⟩]
    simp [PutUint32, copy, PAR1]
  rw [hout]
  refine ⟨rfl, rfl, rfl, rfl, rfl, rfl, fun hu => ?_⟩
  have h := Uint32_PutUint32 [0, 0, 0, 0] r.footerSize hu
  simpa [Uint32, PutUint32, PAR1] using h

/-- C24, witness: size 16, footer size 258; the read at offset 8 leaves
`02 01 00 00 "PAR1"` in the buffer, which decodes to 258. -/
theorem C24_footer_magic_read_decodes_to_footer_size_witness :
    Uint32 ((newParquetOptimizedReaderAt (recorded (fileReader tinyFile)) 16 258).ReadAt
        [0, 0, 0, 0, 0, 0, 0, 0] 8 ((), [])).1.p = 258 ∧
    Uint32 (PutUint32 [9, 9, 9, 9, 9] 4294967295) = 4294967295 :=
  ⟨((C24_footer_magic_read_decodes_to_footer_size
      (newParquetOptimizedReaderAt (recorded (fileReader tinyFile)) 16 258)
      [0, 0, 0, 0, 0, 0, 0, 0] ((), [])).1 rfl (by decide)).2.2.2.2.2.2 (by decide),
   ((C24_footer_magic_read_decodes_to_footer_size
      (newParquetOptimizedReaderAt (recorded (fileReader tinyFile)) 16 258)
      [0, 0, 0, 0, 0, 0, 0, 0] ((), [])).2 [9, 9, 9, 9, 9] 4294967295 (by decide)
      (by decide)).2⟩

/-! ## Reads the short-circuit layer hands on -/

theorem parquetOptimizedReaderAt.ReadAt_of_not_magic {σ : Type}
    (r : parquetOptimizedReaderAt σ) (p : List Nat) (off : Int) (s : σ)
    (h : ¬ magicRead r.readerSize r.footerSize p off) :
    r.ReadAt p off s = r.r.ReadAt p off s := by
  unfold magicRead at h
  unfold parquetOptimizedReaderAt.ReadAt
  rw [if_neg (fun hh => h (Or.inl hh)), if_neg (fun hh => h (Or.inr hh))]

theorem parquetOptimizedReaderAt.ReadAt_of_magic {σ : Type}
    (r : parquetOptimizedReaderAt σ) (p : List Nat) (off : Int) (s : σ)
    (h : magicRead r.readerSize r.footerSize p off) :
    (r.ReadAt p off s).2 = s ∧ (r.ReadAt p off s).1.n = (p.length : Int) ∧
      (r.ReadAt p off s).1.err = none := by
  unfold parquetOptimizedReaderAt.ReadAt
  by_cases h1 : p.length = 4 ∧ off = 0
  · rw [if_pos h1]
    simp [copy, PAR1, h1.1]
  · rw [if_neg h1]
    rcases h with h | h
    · exact absurd h h1
    · rw [if_pos h]
      simp [h.1]

/-- C25: a read `(p, off)` that is neither the four byte read at offset 0 nor, with
`footerSize > 0`, the eight byte read at offset `size - 8` is handed to the wrapped
reader: `ReadAt` returns what the wrapped reader's `ReadAt(p, off)` returns and leaves
the store that call leaves; over a wrapped reader that writes its calls down, the calls
received grow by the one call `ReadAt(p, off)`.  In particular, with `footerSize = 0` the
eight byte read at offset `size - 8` is handed on. -/
theorem C25_other_reads_go_to_the_wrapped_reader {σ : Type} (w : ioReaderAt σ) (size : Int)
    (footerSize : Nat) (p : List Nat) (off : Int) (s : σ) (log : List Call) :
    (¬ magicRead size footerSize p off →
      (newParquetOptimizedReaderAt w size footerSize).ReadAt p off s = w.ReadAt p off s ∧
      (newParquetOptimizedReaderAt (recorded w) size footerSize).ReadAt p off (s, log)
        = ((w.ReadAt p off s).1, ((w.ReadAt p off s).2, log ++ [Call.ReadAt p off]))) ∧
    (footerSize = 0 → p.length = 8 →
      (newParquetOptimizedReaderAt w size footerSize).ReadAt p (int64 (size - 8)) s
        = w.ReadAt p (int64 (size - 8)) s) := by
  have key : ∀ {τ : Type} (v : ioReaderAt τ) (o : Int) (t : τ),
      ¬ magicRead size footerSize p o →
      (newParquetOptimizedReaderAt v size footerSize).ReadAt p o t = v.ReadAt p o t :=
    fun v o t h =>
      parquetOptimizedReaderAt.ReadAt_of_not_magic
        (newParquetOptimizedReaderAt v size footerSize) p o t h
  refine ⟨fun h => ⟨key w off s h, ?_⟩, fun hf hp => key w _ s ?_⟩
  · rw [key (recorded w) off (s, log) h]
    rfl
  · unfold magicRead
    rintro (⟨h4, _⟩ | ⟨_, _, h0⟩)
    · omega
    · omega

/-- C25, witness: over `tinyFile` with size 16 and footer size 0, the four data bytes at
offset 4 and the eight byte read at offset 8 each reach the wrapped reader as one
call. -/
theorem C25_other_reads_go_to_the_wrapped_reader_witness :
    (newParquetOptimizedReaderAt (recorded (fileReader tinyFile)) 16 0).ReadAt
        [0, 0, 0, 0] 4 ((), [])
      = ({ p := [1, 2, 3, 4], n := 4, err := none }, ((), [Call.ReadAt [0, 0, 0, 0] 4])) ∧
    (newParquetOptimizedReaderAt (fileReader tinyFile) 16 0).ReadAt
        [0, 0, 0, 0, 0, 0, 0, 0] 8 ()
      = ({ p := [0, 0, 0, 0, 80, 65, 82, 49], n := 8, err := none }, ()) :=
  ⟨(((C25_other_reads_go_to_the_wrapped_reader (fileReader tinyFile) 16 0 [0, 0, 0, 0] 4
      () []).1 (by decide)).2).trans rfl,
   ((C25_other_reads_go_to_the_wrapped_reader (fileReader tinyFile) 16 0
      [0, 0, 0, 0, 0, 0, 0, 0] 8 () []).2 rfl rfl).trans rfl⟩

/-! ## Section declarations and their cache-control flags -/

/-- C26: each of `SetFooterSection`, `SetColumnIndexSection`, `SetOffsetIndexSection`
stores `(offset, length)` in `cachedObjects` when its own flag of the cache control
(`Footer`, `ColumnIndex`, `OffsetIndex`) is set, and with that flag unset returns the
`cachedReaderAt` as it was, whatever the other two flags are: the set of cached sections
is unchanged, and every later `ReadAt` is routed as it was before the call. -/
theorem C26_section_is_recorded_only_under_its_own_flag {σ : Type} (r : cachedReaderAt σ)
    (offset length : Int) :
    ((r.cacheControl.Footer = true →
        (r.SetFooterSection offset length).cachedObjects
          = r.cachedObjects.assign offset length) ∧
      (r.cacheControl.Footer = false →
        r.SetFooterSection offset length = r ∧
        (r.SetFooterSection offset length).cachedObjects = r.cachedObjects ∧
        ∀ (p : List Nat) (off : Int) (s : σ),
          (r.SetFooterSection offset length).ReadAt p off s = r.ReadAt p off s)) ∧
    ((r.cacheControl.ColumnIndex = true →
        (r.SetColumnIndexSection offset length).cachedObjects
          = r.cachedObjects.assign offset length) ∧
      (r.cacheControl.ColumnIndex = false →
        r.SetColumnIndexSection offset length = r ∧
        (r.SetColumnIndexSection offset length).cachedObjects = r.cachedObjects ∧
        ∀ (p : List Nat) (off : Int) (s : σ),
          (r.SetColumnIndexSection offset length).ReadAt p off s = r.ReadAt p off s)) ∧
    ((r.cacheControl.OffsetIndex = true →
        (r.SetOffsetIndexSection offset length).cachedObjects
          = r.cachedObjects.assign offset length) ∧
      (r.cacheControl.OffsetIndex = false →
        r.SetOffsetIndexSection offset length = r ∧
        (r.SetOffsetIndexSection offset length).cachedObjects = r.cachedObjects ∧
        ∀ (p : List Nat) (off : Int) (s : σ),
          (r.SetOffsetIndexSection offset length).ReadAt p off s = r.ReadAt p off s)) := by
  refine ⟨⟨fun h => ?_, fun h => ?_⟩, ⟨fun h => ?_, fun h => ?_⟩, ⟨fun h => ?_, fun h => ?_⟩⟩
  · simp [cachedReaderAt.SetFooterSection, h]
  · have e : r.SetFooterSection offset length = r := by
      simp [cachedReaderAt.SetFooterSection, h]
    rw [e]
    exact ⟨rfl, rfl, fun _ _ _ => rfl⟩
  · simp [cachedReaderAt.SetColumnIndexSection, h]
  · have e : r.SetColumnIndexSection offset length = r := by
      simp [cachedReaderAt.SetColumnIndexSection, h]
    rw [e]
    exact ⟨rfl, rfl, fun _ _ _ => rfl⟩
  · simp [cachedReaderAt.SetOffsetIndexSection, h]
  · have e : r.SetOffsetIndexSection offset length = r := by
      simp [cachedReaderAt.SetOffsetIndexSection, h]
    rw [e]
    exact ⟨rfl, rfl, fun _ _ _ => rfl⟩

/-- C26, witness: the cache control tags the column index only.  The footer declaration
`(12, 4)` leaves the section table empty and the later read of that range goes to the
wrapped reader; the column index declaration `(4, 4)` is stored. -/
theorem C26_section_is_recorded_only_under_its_own_flag_witness :
    ((tinyCached { Footer := false, ColumnIndex := true, OffsetIndex := false }
        ).SetFooterSection 12 4).cachedObjects = [] ∧
    (((tinyCached { Footer := false, ColumnIndex := true, OffsetIndex := false }
        ).SetFooterSection 12 4).ReadAt [0, 0, 0, 0] 12 ((), [])).2.2
      = [Call.ReadAt [0, 0, 0, 0] 12] ∧
    ((tinyCached { Footer := false, ColumnIndex := true, OffsetIndex := false }
        ).SetColumnIndexSection 4 4).cachedObjects = [(4, 4)] :=
  ⟨(((C26_section_is_recorded_only_under_its_own_flag
        (tinyCached { Footer := false, ColumnIndex := true, OffsetIndex := false })
        12 4).1.2 rfl).2.1).trans rfl,
   (congrArg (fun x => x.2.2)
      (((C26_section_is_recorded_only_under_its_own_flag
        (tinyCached { Footer := false, ColumnIndex := true, OffsetIndex := false })
        12 4).1.2 rfl).2.2 [0, 0, 0, 0] 12 ((), []))).trans rfl,
   ((C26_section_is_recorded_only_under_its_own_flag
        (tinyCached { Footer := false, ColumnIndex := true, OffsetIndex := false })
        4 4).2.1.1 rfl).trans rfl⟩

/-! ## The counter of `BackendReaderAt`, call by call -/

theorem BackendReaderAt.ReadAtWithCache_reader {σ : Type} (b : BackendReaderAt σ)
    (p : List Nat) (off : Int) (s : σ) : (b.ReadAtWithCache p off s).2.1 = b := by
  cases hres : (b.r.ReadRange b.name b.blockID b.tenantID (uint64 off) p true s).1.2 <;>
    simp [BackendReaderAt.ReadAtWithCache, hres]

theorem BackendReaderAt.ReadAtWithCache_store {σ : Type} (b : BackendReaderAt σ)
    (p : List Nat) (off : Int) (s : σ) :
    (b.ReadAtWithCache p off s).2.2
      = (b.r.ReadRange b.name b.blockID b.tenantID (uint64 off) p true s).2 := by
  cases hres : (b.r.ReadRange b.name b.blockID b.tenantID (uint64 off) p true s).1.2 <;>
    simp [BackendReaderAt.ReadAtWithCache, hres]

theorem BackendReaderAt.ReadAtWithCache_n_of_ok {σ : Type} (b : BackendReaderAt σ)
    (p : List Nat) (off : Int) (s : σ) (h : (b.ReadAtWithCache p off s).1.err = none) :
    (b.ReadAtWithCache p off s).1.n = (p.length : Int) := by
  cases hres : (b.r.ReadRange b.name b.blockID b.tenantID (uint64 off) p true s).1.2 <;>
    simp [BackendReaderAt.ReadAtWithCache, hres] at h ⊢

theorem BackendReaderAt.ReadAt_store {σ : Type} (b : BackendReaderAt σ)
    (p : List Nat) (off : Int) (s : σ) :
    (b.ReadAt p off s).2.2
      = (b.r.ReadRange b.name b.blockID b.tenantID (uint64 off) p false s).2 := by
  cases hres : (b.r.ReadRange b.name b.blockID b.tenantID (uint64 off) p false s).1.2 <;>
    simp [BackendReaderAt.ReadAt, hres]

theorem readerStack_declareAll {σ : Type} (b : BackendReaderAt σ) (size : Int)
    (footerSize : Nat) (cc : CacheControl) (cs : List SectionCall) :
    ((readerStack b size footerSize cc).declareAll cs).r
      = (newParquetOptimizedReaderAt BackendReaderAt.toReaderAt size
          footerSize).toReaderAt ∧
    ((readerStack b size footerSize cc).declareAll cs).br = b.pointer := by
  have h := cachedReaderAt.declareAll_frame cs (readerStack b size footerSize cc)
  exact ⟨h.1, h.2.1⟩

/-- C27: for every `BackendReaderAt`, a `ReadAt(p, off)` call leaves `BytesRead()` at
its value before the call plus `len(p)`, modulo `2 ^ 64`, whatever the backend request
returns (the equation has no condition on the result); `ReadAtWithCache` returns the
reader with the counter it had, and `BytesRead` is a load.  So in the reader stack a
read the top layer matches against its section table leaves the shared
`BackendReaderAt`, and with it `BytesRead()`, as it was. -/
theorem C27_counter_moves_on_ReadAt_only {σ : Type} (b : BackendReaderAt σ) (p : List Nat)
    (off : Int) (s : σ) (size : Int) (footerSize : Nat) (cc : CacheControl)
    (cs : List SectionCall) :
    (b.ReadAt p off s).2.1.BytesRead = (b.BytesRead + p.length) % 2 ^ 64 ∧
    (b.ReadAtWithCache p off s).2.1.BytesRead = b.BytesRead ∧
    (((readerStack b size footerSize cc).declareAll cs).cachedObjects.index off
        = (p.length : Int) →
      ∀ shared : BackendReaderAt σ,
        (((readerStack b size footerSize cc).declareAll cs).ReadAt p off
            (shared, s)).2.1 = shared ∧
        (((readerStack b size footerSize cc).declareAll cs).ReadAt p off
            (shared, s)).2.1.BytesRead = shared.BytesRead) := by
  refine ⟨BackendReaderAt.ReadAt_bytesRead b p off s, ?_, ?_⟩
  · rw [BackendReaderAt.ReadAtWithCache_reader]
  · intro h shared
    have hst : (((readerStack b size footerSize cc).declareAll cs).ReadAt p off
        (shared, s)).2.1 = shared := by
      unfold cachedReaderAt.ReadAt
      rw [if_pos h]
      simp only [BackendReaderAt.ReadAtWithCache_store,
        (readerStack_declareAll b size footerSize cc cs).2]
      rfl
    exact ⟨hst, by rw [hst]⟩

/-- C27, witness: the stack over `tinyFile` with the footer section `(12, 4)` declared.
The read of that section goes through the cache and `BytesRead()` stays 0; a plain
`ReadAt` of four bytes on the `BackendReaderAt` moves it to 4. -/
theorem C27_counter_moves_on_ReadAt_only_witness :
    (tinyBackend.ReadAt [0, 0, 0, 0] 4 ((), [])).2.1.BytesRead = 4 ∧
    ((((tinyStack 0 cacheAll).declareAll
        [{ kind := SectionKind.Footer, offset := 12, length := 4 }]).ReadAt
        [0, 0, 0, 0] 12 (tinyBackend, ((), []))).2.1.BytesRead = 0) :=
  ⟨(C27_counter_moves_on_ReadAt_only tinyBackend [0, 0, 0, 0] 4 ((), []) 16 0 cacheAll
      []).1.trans rfl,
   (((C27_counter_moves_on_ReadAt_only tinyBackend [0, 0, 0, 0] 12 ((), []) 16 0 cacheAll
      [{ kind := SectionKind.Footer, offset := 12, length := 4 }]).2.2 rfl
      tinyBackend).2).trans rfl⟩

/-! ## Backend requests issued by the reader stack -/

theorem readerStack_read_cached {σ : Type} (b : BackendReaderAt σ) (size : Int)
    (footerSize : Nat) (cc : CacheControl) (cs : List SectionCall) (p : List Nat)
    (off : Int) (s : σ)
    (h : ((readerStack b size footerSize cc).declareAll cs).cachedObjects.index off
      = (p.length : Int)) :
    (((readerStack b size footerSize cc).declareAll cs).ReadAt p off (b, s)).2
        = (b, (b.r.ReadRange b.name b.blockID b.tenantID (uint64 off) p true s).2) ∧
    ((((readerStack b size footerSize cc).declareAll cs).ReadAt p off (b, s)).1.err = none →
      (((readerStack b size footerSize cc).declareAll cs).ReadAt p off (b, s)).1.n
        = (p.length : Int)) := by
  unfold cachedReaderAt.ReadAt
  rw [if_pos h]
  simp only [(readerStack_declareAll b size footerSize cc cs).2]
  refine ⟨?_, BackendReaderAt.ReadAtWithCache_n_of_ok _ p off (b, s)⟩
  rw [BackendReaderAt.ReadAtWithCache_store]
  rfl

theorem readerStack_read_uncached {σ : Type} (b : BackendReaderAt σ) (size : Int)
    (footerSize : Nat) (cc : CacheControl) (cs : List SectionCall) (p : List Nat)
    (off : Int) (s : σ)
    (h : ((readerStack b size footerSize cc).declareAll cs).cachedObjects.index off
      ≠ (p.length : Int)) :
    ((readerStack b size footerSize cc).declareAll cs).ReadAt p off (b, s)
      = (newParquetOptimizedReaderAt BackendReaderAt.toReaderAt size footerSize).ReadAt
          p off (b, s) := by
  unfold cachedReaderAt.ReadAt
  rw [if_neg h, (readerStack_declareAll b size footerSize cc cs).1]
  rfl

/-- C28: in the stack `cachedReaderAt` over `parquetOptimizedReaderAt` over
`BackendReaderAt`, with any sections declared, over a backend that writes down the
`ReadRange` calls it receives, a `ReadAt(p, off)` on the top layer adds to those calls

* the one call with `shouldCache = true` when `cachedObjects[off] == len(p)`;
* nothing, also leaving the shared `BackendReaderAt` as it was, when that test fails and
  the read is a header or footer magic read answered from constants;
* the one call with `shouldCache = false` otherwise.

The call carries the name, block and tenant of the `BackendReaderAt`, the buffer `p`
and the offset `uint64(off)`, which is `off` for every offset that is not negative.
Whenever the top layer returns a nil error it returns `n = len(p)`. -/
theorem C28_top_read_issues_at_most_one_backend_request {σ : Type} (r0 : backendReader σ)
    (b : BackendReaderAt (σ × List Call)) (hb : b.r = recordedBackend r0) (size : Int)
    (footerSize : Nat) (cc : CacheControl) (cs : List SectionCall) (p : List Nat)
    (off : Int) (s : σ) (log : List Call) :
    (((readerStack b size footerSize cc).declareAll cs).cachedObjects.index off
        = (p.length : Int) →
      (((readerStack b size footerSize cc).declareAll cs).ReadAt p off
          (b, (s, log))).2.2.2
        = log ++ [Call.ReadRange b.name b.blockID b.tenantID (uint64 off) p true]) ∧
    (((readerStack b size footerSize cc).declareAll cs).cachedObjects.index off
        ≠ (p.length : Int) → magicRead size footerSize p off →
      (((readerStack b size footerSize cc).declareAll cs).ReadAt p off
          (b, (s, log))).2 = (b, (s, log))) ∧
    (((readerStack b size footerSize cc).declareAll cs).cachedObjects.index off
        ≠ (p.length : Int) → ¬ magicRead size footerSize p off →
      (((readerStack b size footerSize cc).declareAll cs).ReadAt p off
          (b, (s, log))).2.2.2
        = log ++ [Call.ReadRange b.name b.blockID b.tenantID (uint64 off) p false]) ∧
    ((((readerStack b size footerSize cc).declareAll cs).ReadAt p off
          (b, (s, log))).1.err = none →
      (((readerStack b size footerSize cc).declareAll cs).ReadAt p off
          (b, (s, log))).1.n = (p.length : Int)) ∧
    (0 ≤ off → ((uint64 off : Nat) : Int) = off % 2 ^ 64 ∧
      (off < 2 ^ 63 → ((uint64 off : Nat) : Int) = off)) := by
  refine ⟨fun h => ?_, fun h hm => ?_, fun h hm => ?_, fun he => ?_, fun h0 => ?_⟩
  · rw [(readerStack_read_cached b size footerSize cc cs p off (s, log) h).1, hb]
    rfl
  · rw [readerStack_read_uncached b size footerSize cc cs p off (s, log) h]
    exact (parquetOptimizedReaderAt.ReadAt_of_magic
      (newParquetOptimizedReaderAt BackendReaderAt.toReaderAt size footerSize) p off
      (b, (s, log)) hm).1
  · rw [readerStack_read_uncached b size footerSize cc cs p off (s, log) h,
      parquetOptimizedReaderAt.ReadAt_of_not_magic
        (newParquetOptimizedReaderAt BackendReaderAt.toReaderAt size footerSize) p off
        (b, (s, log)) hm]
    show ((b.ReadAt p off (s, log)).2.2).2 = _
    rw [BackendReaderAt.ReadAt_store, hb]
    rfl
  · by_cases h : ((readerStack b size footerSize cc).declareAll cs).cachedObjects.index off
        = (p.length : Int)
    · exact (readerStack_read_cached b size footerSize cc cs p off (s, log) h).2 he
    · rw [readerStack_read_uncached b size footerSize cc cs p off (s, log) h] at he ⊢
      by_cases hm : magicRead size footerSize p off
      · exact (parquetOptimizedReaderAt.ReadAt_of_magic
          (newParquetOptimizedReaderAt BackendReaderAt.toReaderAt size footerSize) p off
          (b, (s, log)) hm).2.1
      · rw [parquetOptimizedReaderAt.ReadAt_of_not_magic
          (newParquetOptimizedReaderAt BackendReaderAt.toReaderAt size footerSize) p off
          (b, (s, log)) hm] at he ⊢
        exact BackendReaderAt.ReadAt_n_of_ok b p off (s, log) he
  · refine ⟨uint64_cast off, fun h63 => ?_⟩
    rw [uint64_cast]
    exact Int.emod_eq_of_lt h0 (by omega)

/-- C28, witness: the stack over `tinyFile` (size 16, footer size 4) with the footer
section `(8, 4)` declared.  The read of that section is one `ReadRange` with
`shouldCache = true`; the header magic read and the footer magic read reach no backend;
the four data bytes at offset 4 are one `ReadRange` with `shouldCache = false`, returned
as `(4, nil)`. -/
theorem C28_top_read_issues_at_most_one_backend_request_witness :
    ((((tinyStack 4 cacheAll).declareAll
        [{ kind := SectionKind.Footer, offset := 8, length := 4 }]).ReadAt
        [0, 0, 0, 0] 8 (tinyBackend, ((), []))).2.2.2
      = [Call.ReadRange "data.parquet" "b1" "t1" 8 [0, 0, 0, 0] true]) ∧
    ((((tinyStack 4 cacheAll).declareAll
        [{ kind := SectionKind.Footer, offset := 8, length := 4 }]).ReadAt
        [0, 0, 0, 0] 0 (tinyBackend, ((), []))).2 = (tinyBackend, ((), []))) ∧
    ((((tinyStack 4 cacheAll).declareAll
        [{ kind := SectionKind.Footer, offset := 8, length := 4 }]).ReadAt
        [0, 0, 0, 0, 0, 0, 0, 0] 8 (tinyBackend, ((), []))).2 = (tinyBackend, ((), []))) ∧
    ((((tinyStack 4 cacheAll).declareAll
        [{ kind := SectionKind.Footer, offset := 8, length := 4 }]).ReadAt
        [0, 0, 0, 0] 4 (tinyBackend, ((), []))).2.2.2
      = [Call.ReadRange "data.parquet" "b1" "t1" 4 [0, 0, 0, 0] false]) ∧
    ((((tinyStack 4 cacheAll).declareAll
        [{ kind := SectionKind.Footer, offset := 8, length := 4 }]).ReadAt
        [0, 0, 0, 0] 4 (tinyBackend, ((), []))).1.n = 4) :=
  ⟨((C28_top_read_issues_at_most_one_backend_request (fileBackend tinyFile) tinyBackend
      rfl 16 4 cacheAll [{ kind := SectionKind.Footer, offset := 8, length := 4 }]
      [0, 0, 0, 0] 8 () []).1 rfl).trans rfl,
   (C28_top_read_issues_at_most_one_backend_request (fileBackend tinyFile) tinyBackend
      rfl 16 4 cacheAll [{ kind := SectionKind.Footer, offset := 8, length := 4 }]
      [0, 0, 0, 0] 0 () []).2.1 (by decide) (by decide),
   (C28_top_read_issues_at_most_one_backend_request (fileBackend tinyFile) tinyBackend
      rfl 16 4 cacheAll [{ kind := SectionKind.Footer, offset := 8, length := 4 }]
      [0, 0, 0, 0, 0, 0, 0, 0] 8 () []).2.1 (by decide) (by decide),
   ((C28_top_read_issues_at_most_one_backend_request (fileBackend tinyFile) tinyBackend
      rfl 16 4 cacheAll [{ kind := SectionKind.Footer, offset := 8, length := 4 }]
      [0, 0, 0, 0] 4 () []).2.2.1 (by decide) (by decide)).trans rfl,
   ((C28_top_read_issues_at_most_one_backend_request (fileBackend tinyFile) tinyBackend
      rfl 16 4 cacheAll [{ kind := SectionKind.Footer, offset := 8, length := 4 }]
      [0, 0, 0, 0] 4 () []).2.2.2.1 rfl).trans rfl⟩

end vparquet

namespace app

/-! ## Config checks: which warnings `CheckConfig` returns -/

theorem mem_ite_append {α : Type} (x w : α) (l : List α) (c : Prop) [Decidable c] :
    x ∈ (if c then l ++ [w] else l) ↔ x ∈ l ∨ (c ∧ x = w) := by
  by_cases h : c <;> simp [h]

/-- A warning is in the list `CheckConfig` returns exactly when it is the warning of
one of the twelve `if` statements and the condition of that statement holds. -/
theorem mem_CheckConfig (c : Config) (k : Constants) (x : ConfigWarning) :
    x ∈ c.CheckConfig k ↔
      (c.Ingester.CompleteBlockTimeout < c.StorageConfig.Trace.BlocklistPoll ∧
        x = warnCompleteBlockTimeout) ∨
      (c.Compactor.Compactor.BlockRetention < c.StorageConfig.Trace.BlocklistPoll ∧
        x = warnBlockRetention) ∨
      (c.Compactor.Compactor.RetentionConcurrency = 0 ∧ x = warnRetentionConcurrency k) ∨
      ((c.StorageConfig.Trace.Backend = "s3" ∧
          c.Compactor.Compactor.FlushSizeBytes < 5242880) ∧
        x = warnStorageTraceBackendS3) ∨
      (c.StorageConfig.Trace.BlocklistPollConcurrency = 0 ∧
        x = warnBlocklistPollConcurrency k) ∨
      (c.Distributor.LogReceivedTraces = true ∧ x = warnLogReceivedTraces) ∨
      ((c.StorageConfig.Trace.Backend = "local" ∧ c.Target ≠ k.SingleBinary) ∧
        x = warnStorageTraceBackendLocal) ∨
      ((c.StorageConfig.Trace.Block.Version ≠ "v2" ∧
          c.StorageConfig.Trace.Block.IndexDownsampleBytes
            ≠ k.DefaultIndexDownSampleBytes) ∧
        x = newV2Warning "v2_index_downsample_bytes") ∨
      ((c.StorageConfig.Trace.Block.Version ≠ "v2" ∧
          c.StorageConfig.Trace.Block.IndexPageSizeBytes ≠ k.DefaultIndexPageSizeBytes) ∧
        x = newV2Warning "v2_index_page_size_bytes") ∨
      ((c.StorageConfig.Trace.Block.Version ≠ "v2" ∧
          c.Compactor.Compactor.ChunkSizeBytes ≠ k.DefaultChunkSizeBytes) ∧
        x = newV2Warning "v2_in_buffer_bytes") ∨
      ((c.StorageConfig.Trace.Block.Version ≠ "v2" ∧
          c.Compactor.Compactor.FlushSizeBytes ≠ k.DefaultFlushSizeBytes) ∧
        x = newV2Warning "v2_out_buffer_bytes") ∨
      ((c.StorageConfig.Trace.Block.Version ≠ "v2" ∧
          c.Compactor.Compactor.IteratorBufferSize ≠ k.DefaultIteratorBufferSize) ∧
        x = newV2Warning "v2_prefetch_traces_count") := by
  simp only [Config.CheckConfig, mem_ite_append, List.not_mem_nil, false_or, or_assoc]

/-- The messages of the twelve warnings, which do not depend on the constants. -/
theorem allWarnings_messages (k : Constants) :
    ((allWarnings k).map ConfigWarning.Message).Nodup := by
  have h : (allWarnings k).map ConfigWarning.Message
      = (allWarnings sampleConstants).map ConfigWarning.Message := rfl
  rw [h]
  decide

theorem allWarnings_nodup (k : Constants) : (allWarnings k).Nodup :=
  List.Nodup.of_map _ (allWarnings_messages k)

theorem explain_ne_default (t : String) :
    "This setting is only used in v2 blocks" ≠ "default=" ++ t := by
  intro h
  have h1 := congrArg (fun s => s.data.head?) h
  simp [String.data_append] at h1

/-- C21: for every config, and whatever the values of the constants, the list
`CheckConfig` returns contains `warnCompleteBlockTimeout` exactly when
`Ingester.CompleteBlockTimeout` is below the storage `BlocklistPoll`,
`warnRetentionConcurrency` exactly when the compactor `RetentionConcurrency` is 0,
`warnStorageTraceBackendS3` exactly when the storage backend is "s3" and the compactor
`FlushSizeBytes` is below 5242880, `warnBlocklistPollConcurrency` exactly when
`BlocklistPollConcurrency` is 0, `warnLogReceivedTraces` exactly when
`Distributor.LogReceivedTraces` is set, and `warnStorageTraceBackendLocal` exactly when
the storage backend is "local" and `Target` is not `SingleBinary`. -/
theorem C21_warning_present_iff_its_condition (c : Config) (k : Constants) :
    (warnCompleteBlockTimeout ∈ c.CheckConfig k ↔
      c.Ingester.CompleteBlockTimeout < c.StorageConfig.Trace.BlocklistPoll) ∧
    (warnRetentionConcurrency k ∈ c.CheckConfig k ↔
      c.Compactor.Compactor.RetentionConcurrency = 0) ∧
    (warnStorageTraceBackendS3 ∈ c.CheckConfig k ↔
      (c.StorageConfig.Trace.Backend = "s3" ∧
        c.Compactor.Compactor.FlushSizeBytes < 5242880)) ∧
    (warnBlocklistPollConcurrency k ∈ c.CheckConfig k ↔
      c.StorageConfig.Trace.BlocklistPollConcurrency = 0) ∧
    (warnLogReceivedTraces ∈ c.CheckConfig k ↔ c.Distributor.LogReceivedTraces = true) ∧
    (warnStorageTraceBackendLocal ∈ c.CheckConfig k ↔
      (c.StorageConfig.Trace.Backend = "local" ∧ c.Target ≠ k.SingleBinary)) := by
  refine ⟨?_, ?_, ?_, ?_, ?_, ?_⟩ <;>
    simp [mem_CheckConfig, warnCompleteBlockTimeout, warnBlockRetention,
      warnRetentionConcurrency, warnStorageTraceBackendS3, warnBlocklistPollConcurrency,
      warnLogReceivedTraces, warnStorageTraceBackendLocal, newV2Warning]

/-- C22: the warning whose message names the compacted block timeout is appended
exactly when the compactor `BlockRetention`, the retention of all blocks, is below the
storage `BlocklistPoll`.  The compacted block retention is not read: changing it alone
changes nothing in the list returned.  With a compacted block retention of one minute
under a blocklist poll of five minutes and a block retention of fourteen days no warning
is returned; with a block retention of one minute and a compacted block retention of one
hour, which is not below the blocklist poll, the warning is returned. -/
theorem C22_warning_tests_block_retention :
    (∀ (c : Config) (k : Constants),
      (warnBlockRetention ∈ c.CheckConfig k ↔
        c.Compactor.Compactor.BlockRetention < c.StorageConfig.Trace.BlocklistPoll) ∧
      ∀ v : Int,
        Config.CheckConfig
            { c with Compactor := { Compactor :=
                { c.Compactor.Compactor with CompactedBlockRetention := v } } } k
          = c.CheckConfig k) ∧
    warnBlockRetention.Message
      = "compactor.compaction.compacted_block_timeout < storage.trace.blocklist_poll" ∧
    (shortCompactedRetention.Compactor.Compactor.CompactedBlockRetention
        < shortCompactedRetention.StorageConfig.Trace.BlocklistPoll ∧
      shortCompactedRetention.CheckConfig sampleConstants = []) ∧
    (¬ shortBlockRetention.Compactor.Compactor.CompactedBlockRetention
        < shortBlockRetention.StorageConfig.Trace.BlocklistPoll ∧
      shortBlockRetention.CheckConfig sampleConstants = [warnBlockRetention]) := by
  refine ⟨fun c k => ⟨?_, fun v => rfl⟩, rfl, ⟨by decide, by decide⟩, ⟨by decide, by decide⟩⟩
  simp [mem_CheckConfig, warnCompleteBlockTimeout, warnBlockRetention,
    warnRetentionConcurrency, warnStorageTraceBackendS3, warnBlocklistPollConcurrency,
    warnLogReceivedTraces, warnStorageTraceBackendLocal, newV2Warning]

/-- C23: for every config whose block version is "v2", `CheckConfig` returns no
`newV2Warning(s)`, whatever the setting `s`; for every config whose block version is not
"v2" it returns `newV2Warning(s)` exactly when the setting differs from its default, for
`v2_index_downsample_bytes` (`IndexDownsampleBytes`), `v2_index_page_size_bytes`
(`IndexPageSizeBytes`), `v2_in_buffer_bytes` (compactor `ChunkSizeBytes`),
`v2_out_buffer_bytes` (compactor `FlushSizeBytes`) and `v2_prefetch_traces_count`
(compactor `IteratorBufferSize`). -/
theorem C23_v2_warnings_only_off_v2_and_off_default (c : Config) (k : Constants) :
    (c.StorageConfig.Trace.Block.Version = "v2" →
      ∀ s : String, newV2Warning s ∉ c.CheckConfig k) ∧
    (c.StorageConfig.Trace.Block.Version ≠ "v2" →
      (newV2Warning "v2_index_downsample_bytes" ∈ c.CheckConfig k ↔
        c.StorageConfig.Trace.Block.IndexDownsampleBytes
          ≠ k.DefaultIndexDownSampleBytes) ∧
      (newV2Warning "v2_index_page_size_bytes" ∈ c.CheckConfig k ↔
        c.StorageConfig.Trace.Block.IndexPageSizeBytes ≠ k.DefaultIndexPageSizeBytes) ∧
      (newV2Warning "v2_in_buffer_bytes" ∈ c.CheckConfig k ↔
        c.Compactor.Compactor.ChunkSizeBytes ≠ k.DefaultChunkSizeBytes) ∧
      (newV2Warning "v2_out_buffer_bytes" ∈ c.CheckConfig k ↔
        c.Compactor.Compactor.FlushSizeBytes ≠ k.DefaultFlushSizeBytes) ∧
      (newV2Warning "v2_prefetch_traces_count" ∈ c.CheckConfig k ↔
        c.Compactor.Compactor.IteratorBufferSize ≠ k.DefaultIteratorBufferSize)) := by
  refine ⟨fun h s => ?_, fun h => ⟨?_, ?_, ?_, ?_, ?_⟩⟩
  · have e1 := explain_ne_default (toString k.DefaultRetentionConcurrency)
    have e2 := explain_ne_default (toString k.DefaultBlocklistPollConcurrency)
    simp [mem_CheckConfig, warnCompleteBlockTimeout, warnBlockRetention,
      warnRetentionConcurrency, warnStorageTraceBackendS3, warnBlocklistPollConcurrency,
      warnLogReceivedTraces, warnStorageTraceBackendLocal, newV2Warning, h, e1, e2]
  all_goals
    simp [mem_CheckConfig, warnCompleteBlockTimeout, warnBlockRetention,
      warnRetentionConcurrency, warnStorageTraceBackendS3, warnBlocklistPollConcurrency,
      warnLogReceivedTraces, warnStorageTraceBackendLocal, newV2Warning, h]

/-- C23, witness: `v2Config` and `noisyConfig` set every v2 setting to 1 and differ in
the block version alone; under "v2" the warning for `v2_in_buffer_bytes` is absent,
under "vParquet2" it is present. -/
theorem C23_v2_warnings_only_off_v2_and_off_default_witness :
    newV2Warning "v2_in_buffer_bytes" ∉ v2Config.CheckConfig sampleConstants ∧
    newV2Warning "v2_in_buffer_bytes" ∈ noisyConfig.CheckConfig sampleConstants :=
  ⟨(C23_v2_warnings_only_off_v2_and_off_default v2Config sampleConstants).1 rfl
      "v2_in_buffer_bytes",
   ((C23_v2_warnings_only_off_v2_and_off_default noisyConfig sampleConstants).2
      (by decide)).2.2.1.2 (by decide)⟩

/-! ## Config checks: order and number of the warnings -/

theorem sublist_ite_append {α : Type} (l L : List α) (w : α) (c : Prop) [Decidable c]
    (h : l.Sublist L) : (if c then l ++ [w] else l).Sublist (L ++ [w]) := by
  by_cases hc : c
  · rw [if_pos hc]
    exact List.Sublist.append h (List.Sublist.refl _)
  · rw [if_neg hc]
    exact h.trans (List.sublist_append_left L [w])

theorem CheckConfig_sublist (c : Config) (k : Constants) :
    (c.CheckConfig k).Sublist (allWarnings k) := by
  have h : (c.CheckConfig k).Sublist
      ([] ++ [warnCompleteBlockTimeout] ++ [warnBlockRetention]
        ++ [warnRetentionConcurrency k] ++ [warnStorageTraceBackendS3]
        ++ [warnBlocklistPollConcurrency k] ++ [warnLogReceivedTraces]
        ++ [warnStorageTraceBackendLocal] ++ [newV2Warning "v2_index_downsample_bytes"]
        ++ [newV2Warning "v2_index_page_size_bytes"] ++ [newV2Warning "v2_in_buffer_bytes"]
        ++ [newV2Warning "v2_out_buffer_bytes"]
        ++ [newV2Warning "v2_prefetch_traces_count"]) := by
    dsimp only [Config.CheckConfig]
    repeat (first | exact List.Sublist.refl _ | apply sublist_ite_append)
  exact h

/-- C29: for every config, the list `CheckConfig` returns holds no warning twice and is
a sublist of the twelve warnings in the order of the source (complete block timeout,
block retention, retention concurrency, S3 flush size, blocklist poll concurrency, log
received traces, local backend, then the v2 warnings for index downsample bytes, index
page size, in buffer, out buffer, prefetch count).  The S3 warning and the local backend
warning are never both present, so the list has at most eleven entries; `noisyConfig`
draws eleven. -/
theorem C29_warnings_once_in_source_order_at_most_eleven (c : Config) (k : Constants) :
    (c.CheckConfig k).Nodup ∧
    (c.CheckConfig k).Sublist (allWarnings k) ∧
    ¬ (warnStorageTraceBackendS3 ∈ c.CheckConfig k ∧
        warnStorageTraceBackendLocal ∈ c.CheckConfig k) ∧
    (c.CheckConfig k).length ≤ 11 ∧
    (noisyConfig.CheckConfig sampleConstants).length = 11 := by
  have hsub := CheckConfig_sublist c k
  have hex : ¬ (warnStorageTraceBackendS3 ∈ c.CheckConfig k ∧
      warnStorageTraceBackendLocal ∈ c.CheckConfig k) := by
    rintro ⟨h1, h2⟩
    have h3 : c.StorageConfig.Trace.Backend = "s3" := by
      have := (mem_CheckConfig c k _).1 h1
      simp [warnCompleteBlockTimeout, warnBlockRetention,
        warnRetentionConcurrency, warnStorageTraceBackendS3, warnBlocklistPollConcurrency,
        warnLogReceivedTraces, warnStorageTraceBackendLocal, newV2Warning] at this
      exact this.1
    have h4 : c.StorageConfig.Trace.Backend = "local" := by
      have := (mem_CheckConfig c k _).1 h2
      simp [warnCompleteBlockTimeout, warnBlockRetention,
        warnRetentionConcurrency, warnStorageTraceBackendS3, warnBlocklistPollConcurrency,
        warnLogReceivedTraces, warnStorageTraceBackendLocal, newV2Warning] at this
      exact this.1
    rw [h3] at h4
    exact absurd h4 (by decide)
  refine ⟨hsub.nodup (allWarnings_nodup k), hsub, hex, ?_, by decide⟩
  have key : ∀ w ∈ allWarnings k, w ∉ c.CheckConfig k → (c.CheckConfig k).length ≤ 11 := by
    intro w hw hn
    have h1 : (c.CheckConfig k).Sublist ((allWarnings k).erase w) := by
      have := hsub.erase w
      rwa [List.erase_of_not_mem hn] at this
    have h2 := h1.length_le
    rw [List.length_erase_of_mem hw] at h2
    exact h2
  by_cases hs : warnStorageTraceBackendS3 ∈ c.CheckConfig k
  · exact key warnStorageTraceBackendLocal (by simp [allWarnings])
      (fun hl => hex ⟨hs, hl⟩)
  · exact key warnStorageTraceBackendS3 (by simp [allWarnings]) hs

end app
